import Mathlib

/-!
Verification development for the per-line call-state machine of the
`chan_dahdi` telephony line driver (`src/sam_digit_timeout/chan_dahdi.c`).

The shallow embedding translates the sub-channel multiplexer
(`swap_subs`, `unalloc_sub`), the conference topology manager
(`conf_add`, `conf_del`, `isslavenative`, `update_conf`, `dahdi_link`),
and the decision logic of the call lifecycle / event-handling routines
(`dahdi_call`, `dahdi_answer`, `dahdi_bridge`, the on-hook branch of
`dahdi_handle_event`) into pure Lean functions.  Hardware interaction
(the DAHDI ioctl layer) is modelled as explicit state (the conference
allocator) plus effect values; ioctl calls are assumed to succeed, as the
driver treats hardware failures as best-effort no-ops.
-/

namespace ChanDahdi

/- ───────────────────────── Constants ─────────────────────────
Numeric values of the external interface headers (`dahdi/user.h`,
asterisk channel/frame headers), as included by `chan_dahdi.c`. -/

def DAHDI_CONF_CONF : Nat := 4
def DAHDI_CONF_REALANDPSEUDO : Nat := 8
def DAHDI_CONF_DIGITALMON : Nat := 9
def DAHDI_CONF_LISTENER : Nat := 0x100
def DAHDI_CONF_TALKER : Nat := 0x200
def DAHDI_CONF_PSEUDO_LISTENER : Nat := 0x400
def DAHDI_CONF_PSEUDO_TALKER : Nat := 0x800

/-- Conference mode programmed for a real (index-0) sub-channel joining a
conference: real and pseudo side both participate (`conf_add`, `!index`). -/
def CONFMODE_REAL : Nat :=
  DAHDI_CONF_REALANDPSEUDO ||| DAHDI_CONF_TALKER ||| DAHDI_CONF_LISTENER |||
  DAHDI_CONF_PSEUDO_TALKER ||| DAHDI_CONF_PSEUDO_LISTENER

/-- Conference mode programmed for a non-real sub-channel joining a
conference (`conf_add`, `index != 0`). -/
def CONFMODE_AUX : Nat :=
  DAHDI_CONF_CONF ||| DAHDI_CONF_TALKER ||| DAHDI_CONF_LISTENER

/- Signalling tags (`#define SIG_*` in chan_dahdi.c over `DAHDI_SIG_*`). -/
def DAHDI_SIG_FXO_BIT : Nat := 0x1000
def DAHDI_SIG_FXS_BIT : Nat := 0x2000
def SIG_EM : Nat := 0x40
def SIG_EMWINK : Nat := 0x0100000 ||| SIG_EM
def SIG_FEATD : Nat := 0x0200000 ||| SIG_EM
def SIG_FEATDMF : Nat := 0x0400000 ||| SIG_EM
def SIG_FEATB : Nat := 0x0800000 ||| SIG_EM
def SIG_E911 : Nat := 0x1000000 ||| SIG_EM
def SIG_FEATDMF_TA : Nat := 0x2000000 ||| SIG_EM
def SIG_FGC_CAMA : Nat := 0x4000000 ||| SIG_EM
def SIG_FGC_CAMAMF : Nat := 0x8000000 ||| SIG_EM
def SIG_FXSLS : Nat := 1 ||| DAHDI_SIG_FXO_BIT
def SIG_FXSGS : Nat := 2 ||| DAHDI_SIG_FXO_BIT
def SIG_FXSKS : Nat := 4 ||| DAHDI_SIG_FXO_BIT
def SIG_FXOLS : Nat := 8 ||| DAHDI_SIG_FXS_BIT
def SIG_FXOGS : Nat := 0x10 ||| DAHDI_SIG_FXS_BIT
def SIG_FXOKS : Nat := 0x20 ||| DAHDI_SIG_FXS_BIT
def SIG_PRI : Nat := 0x80
def SIG_BRI : Nat := 0x2000000 ||| SIG_PRI
def SIG_BRI_PTMP : Nat := 0x4000000 ||| SIG_PRI
def SIG_SS7 : Nat := 0x1000000 ||| SIG_PRI
def SIG_SF : Nat := 0x4000
def SIG_SFWINK : Nat := 0x0100000 ||| SIG_SF
def SIG_SF_FEATD : Nat := 0x0200000 ||| SIG_SF
def SIG_SF_FEATDMF : Nat := 0x0400000 ||| SIG_SF
def SIG_SF_FEATB : Nat := 0x0800000 ||| SIG_SF
def SIG_EM_E1 : Nat := 0x20000

/- Generic channel states (asterisk `channelstate.h`). -/
def AST_STATE_DOWN : Nat := 0
def AST_STATE_RESERVED : Nat := 1
def AST_STATE_OFFHOOK : Nat := 2
def AST_STATE_DIALING : Nat := 3
def AST_STATE_RING : Nat := 4
def AST_STATE_RINGING : Nat := 5
def AST_STATE_UP : Nat := 6
def AST_STATE_BUSY : Nat := 7

/- Frame types (asterisk `frame.h`). -/
def AST_FRAME_DTMF : Nat := 1
def AST_FRAME_VOICE : Nat := 2
def AST_FRAME_CONTROL : Nat := 4

def POLARITY_IDLE : Int := 0

/-- Sub-channel indices: `SUB_REAL = 0`, `SUB_CALLWAIT = 1`, `SUB_THREEWAY = 2`. -/
def SUB_REAL : Nat := 0
def SUB_CALLWAIT : Nat := 1
def SUB_THREEWAY : Nat := 2

/-- Minimum debounce interval after a flash (`MIN_MS_SINCE_FLASH`, 2000 ms). -/
def MIN_MS_SINCE_FLASH : Int := 2000

/-- Maximum number of slave lines per master (`MAX_SLAVES`). -/
def MAX_SLAVES : Nat := 4

/- ───────────────────────── Data model ───────────────────────── -/

/-- An `ast_channel` identity (call-leg owner reference).  Only identity
matters for the modelled operations. -/
abbrev Chan := Nat

/-- Mirror of `struct dahdi_confinfo` as stored in `subs[x].curconf`. -/
structure Confinfo where
  confno : Int
  confmode : Nat
deriving DecidableEq, Repr

/-- Mirror of `struct dahdi_subchannel`: per-role call leg state. -/
structure Sub where
  dfd : Int
  chan : Int
  owner : Option Chan
  inthreeway : Bool
  linear : Bool
  curconf : Confinfo
deriving DecidableEq, Repr

/-- Mirror of the parts of `struct dahdi_pvt` (one Line) used by the
modelled operations.  `slave0..slave3` are the `slaves[MAX_SLAVES]`
references and `master` the master reference, both as line indices into
the world; `none` is the NULL pointer. -/
structure Pvt where
  channel : Int
  law : Int
  sig : Nat
  confno : Int
  inconference : Bool
  polarity : Int
  owner : Option Chan
  dialing : Bool
  ringt : Int
  sub0 : Sub
  sub1 : Sub
  sub2 : Sub
  slave0 : Option Nat
  slave1 : Option Nat
  slave2 : Option Nat
  slave3 : Option Nat
  master : Option Nat
deriving DecidableEq, Repr

/-- Array access `p->subs[x]` (call sites only use indices 0, 1, 2). -/
def Pvt.subs (p : Pvt) (x : Nat) : Sub :=
  match x with
  | 0 => p.sub0
  | 1 => p.sub1
  | _ => p.sub2

/-- Array update for `p->subs[x]`. -/
def Pvt.setSub (p : Pvt) (x : Nat) (s : Sub) : Pvt :=
  match x with
  | 0 => { p with sub0 := s }
  | 1 => { p with sub1 := s }
  | _ => { p with sub2 := s }

/-- Array access `p->slaves[x]` (call sites only use indices 0..3). -/
def Pvt.slaves (p : Pvt) (x : Nat) : Option Nat :=
  match x with
  | 0 => p.slave0
  | 1 => p.slave1
  | 2 => p.slave2
  | _ => p.slave3

/-- Array update for `p->slaves[x]`. -/
def Pvt.setSlave (p : Pvt) (x : Nat) (v : Option Nat) : Pvt :=
  match x with
  | 0 => { p with slave0 := v }
  | 1 => { p with slave1 := v }
  | 2 => { p with slave2 := v }
  | _ => { p with slave3 := v }

/- ───────────────── Sub-channel multiplexer ───────────────── -/

/-- Shallow embedding of `swap_subs(p, a, b)`: exchanges `chan`, `owner`
and `inthreeway` between `subs[a]` and `subs[b]`, then re-points each
surviving owner's frame-delivery descriptor (`ast_channel_set_fd(owner, 0,
subs[x].dfd)`).  The second component collects those `set_fd` effects as
(channel, descriptor) pairs, in call order. -/
def swap_subs (p : Pvt) (a b : Nat) : Pvt × List (Chan × Int) :=
  let tchan := (p.subs a).chan
  let towner := (p.subs a).owner
  let tinthreeway := (p.subs a).inthreeway
  let p1 := p.setSub a { p.subs a with
    chan := (p.subs b).chan
    owner := (p.subs b).owner
    inthreeway := (p.subs b).inthreeway }
  let p2 := p1.setSub b { p1.subs b with
    chan := tchan
    owner := towner
    inthreeway := tinthreeway }
  let effA : List (Chan × Int) :=
    match (p2.subs a).owner with
    | some o => [(o, (p2.subs a).dfd)]
    | none => []
  let effB : List (Chan × Int) :=
    match (p2.subs b).owner with
    | some o => [(o, (p2.subs b).dfd)]
    | none => []
  (p2, effA ++ effB)

/-- Shallow embedding of `unalloc_sub(p, x)`.  Releasing the real
sub-channel (`x = 0`) is rejected with `-1` and no state change; otherwise
the role's resource is closed and its state reset. -/
def unalloc_sub (p : Pvt) (x : Nat) : Pvt × Int :=
  if x = 0 then
    (p, -1)
  else
    let p := p.setSub x { p.subs x with
      dfd := -1
      linear := false
      chan := 0
      owner := none
      inthreeway := false
      curconf := ⟨0, 0⟩ }
    ({ p with polarity := POLARITY_IDLE }, 0)

/- ───────────────── Theorems: C2, C8, C9 ───────────────── -/

/-- C2: `swap(line, A, B)` twice in succession restores the original
owner, channel-number and three-way-flag bindings of both roles — in fact
it restores the whole Line state, for every pair of roles. -/
theorem swap_subs_involutive (p : Pvt) (a b : Nat) :
    (swap_subs (swap_subs p a b).1 a b).1 = p := by
  rcases p with ⟨ch, law, sig, cf, inc, pol, ow, dia, ri, s0, s1, s2, v0, v1, v2, v3, m⟩
  match a, b with
  | 0, 0 => rfl
  | 0, 1 => rfl
  | 0, n + 2 => simp [swap_subs, Pvt.subs, Pvt.setSub]
  | 1, 0 => rfl
  | 1, 1 => rfl
  | 1, n + 2 => simp [swap_subs, Pvt.subs, Pvt.setSub]
  | n + 2, 0 => simp [swap_subs, Pvt.subs, Pvt.setSub]
  | n + 2, 1 => simp [swap_subs, Pvt.subs, Pvt.setSub]
  | n + 2, m + 2 => simp [swap_subs, Pvt.subs, Pvt.setSub]

/-- C8: `unalloc_sub` on the real sub-channel (index 0) returns the error
result `-1` and leaves the Line completely unchanged: Real is never
released. -/
theorem unalloc_sub_real_noop (p : Pvt) :
    unalloc_sub p SUB_REAL = (p, -1) := by
  simp [unalloc_sub, SUB_REAL]

/-- C9: `swap_subs` leaves each slot's hardware descriptor (`dfd`) bound
to its slot index and exchanges only the owner, pseudo-channel number and
three-way flag; each surviving owner's frame-delivery descriptor is
re-pointed to the `dfd` of the slot it now occupies. -/
theorem swap_subs_keeps_dfd (p : Pvt) (a b : Nat) (ha : a < 3) (hb : b < 3)
    (hab : a ≠ b) :
    let r := swap_subs p a b
    ((r.1.subs a).dfd = (p.subs a).dfd ∧ (r.1.subs b).dfd = (p.subs b).dfd) ∧
    ((r.1.subs a).owner = (p.subs b).owner ∧ (r.1.subs b).owner = (p.subs a).owner) ∧
    ((r.1.subs a).chan = (p.subs b).chan ∧ (r.1.subs b).chan = (p.subs a).chan) ∧
    ((r.1.subs a).inthreeway = (p.subs b).inthreeway ∧
      (r.1.subs b).inthreeway = (p.subs a).inthreeway) ∧
    ((r.1.subs a).curconf = (p.subs a).curconf ∧
      (r.1.subs b).curconf = (p.subs b).curconf) ∧
    r.2 = ((match (p.subs b).owner with
            | some o => [(o, (p.subs a).dfd)]
            | none => []) ++
           (match (p.subs a).owner with
            | some o => [(o, (p.subs b).dfd)]
            | none => [])) := by
  match a, ha, b, hb with
  | 0, _, 1, _ => simp [swap_subs, Pvt.subs, Pvt.setSub]
  | 0, _, 2, _ => simp [swap_subs, Pvt.subs, Pvt.setSub]
  | 1, _, 0, _ => simp [swap_subs, Pvt.subs, Pvt.setSub]
  | 1, _, 2, _ => simp [swap_subs, Pvt.subs, Pvt.setSub]
  | 2, _, 0, _ => simp [swap_subs, Pvt.subs, Pvt.setSub]
  | 2, _, 1, _ => simp [swap_subs, Pvt.subs, Pvt.setSub]
  | 0, _, 0, _ => exact absurd rfl hab
  | 1, _, 1, _ => exact absurd rfl hab
  | 2, _, 2, _ => exact absurd rfl hab

/-- A concrete sub-channel used in witnesses. -/
def subW (d : Int) (c : Int) (o : Option Chan) (tw : Bool) : Sub :=
  { dfd := d, chan := c, owner := o, inthreeway := tw, linear := false,
    curconf := ⟨0, 0⟩ }

/-- A concrete Line used in witnesses. -/
def pvtW : Pvt :=
  { channel := 1, law := 0, sig := SIG_FXOKS, confno := -1,
    inconference := false, polarity := 0, owner := some 10, dialing := false,
    ringt := 0, sub0 := subW 3 0 (some 10) false,
    sub1 := subW (-1) 0 none false, sub2 := subW 7 42 (some 11) true,
    slave0 := none, slave1 := none, slave2 := none, slave3 := none,
    master := none }

/-- Witness for C9 at a concrete Line and the role pair (Real, ThreeWay). -/
theorem swap_subs_keeps_dfd_witness :
    (0 < 3 ∧ 2 < 3 ∧ (0 : Nat) ≠ 2) ∧
    (let r := swap_subs pvtW 0 2
     ((r.1.subs 0).dfd = (pvtW.subs 0).dfd ∧ (r.1.subs 2).dfd = (pvtW.subs 2).dfd) ∧
     ((r.1.subs 0).owner = (pvtW.subs 2).owner ∧ (r.1.subs 2).owner = (pvtW.subs 0).owner) ∧
     ((r.1.subs 0).chan = (pvtW.subs 2).chan ∧ (r.1.subs 2).chan = (pvtW.subs 0).chan) ∧
     ((r.1.subs 0).inthreeway = (pvtW.subs 2).inthreeway ∧
       (r.1.subs 2).inthreeway = (pvtW.subs 0).inthreeway) ∧
     ((r.1.subs 0).curconf = (pvtW.subs 0).curconf ∧
       (r.1.subs 2).curconf = (pvtW.subs 2).curconf) ∧
     r.2 = ((match (pvtW.subs 2).owner with
             | some o => [(o, (pvtW.subs 0).dfd)]
             | none => []) ++
            (match (pvtW.subs 0).owner with
             | some o => [(o, (pvtW.subs 2).dfd)]
             | none => []))) :=
  ⟨⟨by decide, by decide, by decide⟩,
   swap_subs_keeps_dfd pvtW 0 2 (by decide) (by decide) (by decide)⟩

/- ───────────────── Call lifecycle: dahdi_call entry ───────────────── -/

/-- Outcome of the entry checks of `dahdi_call` (before any per-family
dial dispatch). -/
inductive CallOutcome where
  | busyQueued
  | invalidState
  | radioUp
  | proceedToDial
deriving DecidableEq, Repr

/-- Return value delivered to the caller for each early outcome of
`dahdi_call` (`proceedToDial` continues into the dial dispatch, which
returns 0 on success). -/
def CallOutcome.retval : CallOutcome → Int
  | .invalidState => -1
  | _ => 0

/-- True exactly when the outcome reaches the per-family dial dispatch:
the three early-return outcomes perform no dialing. -/
def CallOutcome.dials : CallOutcome → Bool
  | .proceedToDial => true
  | _ => false

/-- Shallow embedding of the entry checks of `dahdi_call(ast, rdest,
timeout)`: a busy channel queues a busy notification and returns 0; a
channel neither down nor reserved is rejected with -1; a radio channel
(or negative operator mode) is put up immediately; otherwise dialing
proceeds. -/
def dahdi_call_entry (state : Nat) (radio : Bool) (oprmodeNeg : Bool) :
    CallOutcome :=
  if state = AST_STATE_BUSY then .busyQueued
  else if state ≠ AST_STATE_DOWN ∧ state ≠ AST_STATE_RESERVED then .invalidState
  else if radio ∨ oprmodeNeg then .radioUp
  else .proceedToDial

/-- C5 counterexample: a Line in the `Busy` state is neither Down nor
Reserved, yet `dahdi_call` does not fail — it returns 0 (success) after
queueing a busy notification, so the claim as stated is false at the
concrete input `state = AST_STATE_BUSY`. -/
theorem dahdi_call_busy_not_error :
    (AST_STATE_BUSY ≠ AST_STATE_DOWN ∧ AST_STATE_BUSY ≠ AST_STATE_RESERVED) ∧
    dahdi_call_entry AST_STATE_BUSY false false = CallOutcome.busyQueued ∧
    (dahdi_call_entry AST_STATE_BUSY false false).retval = 0 := by
  decide

/-- C5 (amended): for every Line whose channel state is neither Down,
Reserved nor Busy, `dahdi_call` fails with the caller-visible error -1
and performs no dialing.  (In the Busy state it instead returns success
after queueing a busy notification, still without dialing.) -/
theorem dahdi_call_invalid_state (state : Nat) (radio oprmodeNeg : Bool)
    (hdown : state ≠ AST_STATE_DOWN) (hres : state ≠ AST_STATE_RESERVED)
    (hbusy : state ≠ AST_STATE_BUSY) :
    dahdi_call_entry state radio oprmodeNeg = CallOutcome.invalidState ∧
    (dahdi_call_entry state radio oprmodeNeg).retval = -1 ∧
    (dahdi_call_entry state radio oprmodeNeg).dials = false := by
  simp [dahdi_call_entry, hdown, hres, hbusy, CallOutcome.retval,
    CallOutcome.dials]

/-- Witness for C5 (amended) at the concrete state `Up`. -/
theorem dahdi_call_invalid_state_witness :
    (AST_STATE_UP ≠ AST_STATE_DOWN ∧ AST_STATE_UP ≠ AST_STATE_RESERVED ∧
      AST_STATE_UP ≠ AST_STATE_BUSY) ∧
    (dahdi_call_entry AST_STATE_UP false false = CallOutcome.invalidState ∧
     (dahdi_call_entry AST_STATE_UP false false).retval = -1 ∧
     (dahdi_call_entry AST_STATE_UP false false).dials = false) :=
  ⟨⟨by decide, by decide, by decide⟩,
   dahdi_call_invalid_state AST_STATE_UP false false (by decide) (by decide)
     (by decide)⟩

/- ───────────────── Call lifecycle: dahdi_answer ───────────────── -/

/-- Signalling families handled by the analog branch of `dahdi_answer`
(the case labels between `SIG_FXSLS` and `SIG_FXOKS`). -/
def analogSigs : List Nat :=
  [SIG_FXSLS, SIG_FXSGS, SIG_FXSKS, SIG_EM, SIG_EM_E1, SIG_EMWINK,
   SIG_FEATD, SIG_FEATDMF, SIG_FEATDMF_TA, SIG_E911, SIG_FGC_CAMA,
   SIG_FGC_CAMAMF, SIG_FEATB, SIG_SF, SIG_SFWINK, SIG_SF_FEATD,
   SIG_SF_FEATDMF, SIG_SF_FEATB, SIG_FXOLS, SIG_FXOGS, SIG_FXOKS]

/-- The three FXS-side case labels that clear the ring timeout before
falling through to the common analog answer path. -/
def isFXSGroupSig (s : Nat) : Bool :=
  s = SIG_FXSLS || s = SIG_FXSGS || s = SIG_FXSKS

/-- Shallow embedding of the state effect of `dahdi_answer(ast)` on the
Line.  Radio-style channels are a no-op; analog families take the line
off hook, stop tones, clear `dialing`, and — when answering on the real
sub-channel while the three-way leg is flagged in-three-way and the
previous channel state was Ringing — swap the Real and ThreeWay
sub-channels and make the new real owner the Line's owner.  Hook and
tone ioctls, and the ISDN/SS7 branches (delegated to the external
protocol engines), carry no modelled Line state. -/
def dahdi_answer (p : Pvt) (radio oprmodeNeg : Bool) (index : Nat)
    (oldstate : Nat) : Pvt :=
  if radio || oprmodeNeg then p
  else if p.sig ∈ analogSigs then
    let p1 := if isFXSGroupSig p.sig then { p with ringt := 0 } else p
    let p2 := { p1 with dialing := false }
    if index = SUB_REAL ∧ (p2.subs SUB_THREEWAY).inthreeway then
      if oldstate = AST_STATE_RINGING then
        let p3 := (swap_subs p2 SUB_THREEWAY SUB_REAL).1
        { p3 with owner := (p3.subs SUB_REAL).owner }
      else p2
    else p2
  else p

/-- C6: answering a non-radio analog (FXO/FXS-family) Line on the Real
sub-channel while the ThreeWay sub-channel is flagged in-three-way, with
prior state Ringing, swaps Real and ThreeWay and sets the Line's owner
to the new Real owner — the newly answered (former three-way) party
becomes primary. -/
theorem dahdi_answer_threeway_swap (p : Pvt)
    (hsig : p.sig = SIG_FXOLS ∨ p.sig = SIG_FXOGS ∨ p.sig = SIG_FXOKS ∨
            p.sig = SIG_FXSLS ∨ p.sig = SIG_FXSGS ∨ p.sig = SIG_FXSKS)
    (htw : (p.subs SUB_THREEWAY).inthreeway = true) :
    let r := dahdi_answer p false false SUB_REAL AST_STATE_RINGING
    r.owner = (p.subs SUB_THREEWAY).owner ∧
    (r.subs SUB_REAL).owner = (p.subs SUB_THREEWAY).owner ∧
    (r.subs SUB_THREEWAY).owner = (p.subs SUB_REAL).owner ∧
    (r.subs SUB_REAL).dfd = (p.subs SUB_REAL).dfd ∧
    (r.subs SUB_THREEWAY).dfd = (p.subs SUB_THREEWAY).dfd := by
  have htw2 : p.sub2.inthreeway = true := htw
  have hmem : p.sig ∈ analogSigs := by
    rcases hsig with h | h | h | h | h | h <;> rw [h] <;> decide
  cases hfx : isFXSGroupSig p.sig <;>
    simp [dahdi_answer, hmem, hfx, SUB_REAL, SUB_THREEWAY, swap_subs,
      Pvt.subs, Pvt.setSub, htw2, AST_STATE_RINGING]

/-- Witness for C6 at a concrete kewlstart FXS-port Line. -/
theorem dahdi_answer_threeway_swap_witness :
    (pvtW.sig = SIG_FXOLS ∨ pvtW.sig = SIG_FXOGS ∨ pvtW.sig = SIG_FXOKS ∨
     pvtW.sig = SIG_FXSLS ∨ pvtW.sig = SIG_FXSGS ∨ pvtW.sig = SIG_FXSKS) ∧
    ((pvtW.subs SUB_THREEWAY).inthreeway = true) ∧
    (let r := dahdi_answer pvtW false false SUB_REAL AST_STATE_RINGING
     r.owner = (pvtW.subs SUB_THREEWAY).owner ∧
     (r.subs SUB_REAL).owner = (pvtW.subs SUB_THREEWAY).owner ∧
     (r.subs SUB_THREEWAY).owner = (pvtW.subs SUB_REAL).owner ∧
     (r.subs SUB_REAL).dfd = (pvtW.subs SUB_REAL).dfd ∧
     (r.subs SUB_THREEWAY).dfd = (pvtW.subs SUB_THREEWAY).dfd) :=
  ⟨by decide, by decide,
   dahdi_answer_threeway_swap pvtW (by decide) (by decide)⟩

/- ───────────────── Native bridge: per-frame decision ───────────────── -/

/-- A frame read from one side of the native bridge.  Only the frame type
drives the bridge loop's decision. -/
structure Frame where
  frametype : Nat
  subclass : Int
deriving DecidableEq, Repr

/-- What the native bridge loop does with one frame read from channel
`who`. -/
inductive BridgeStep where
  | terminate (fo : Option Frame) (rc : Chan)
  | forward (dst : Chan)
  | next
deriving DecidableEq, Repr

/-- Shallow embedding of the frame-handling tail of one iteration of the
`dahdi_bridge` polling loop: a null or control frame terminates the
bridge returning the frame and its source; a DTMF frame from a
pulse-dialing side is written through to the other side and bridging
continues; any other DTMF frame terminates the bridge returning the
frame and its source; all other frames are consumed and the loop
continues. -/
def dahdi_bridge_frame_step (c0 c1 : Chan) (p0pulse p1pulse : Bool)
    (who : Chan) (f : Option Frame) : BridgeStep :=
  match f with
  | none => .terminate none who
  | some fr =>
    if fr.frametype = AST_FRAME_CONTROL then .terminate (some fr) who
    else if fr.frametype = AST_FRAME_DTMF then
      if who = c0 ∧ p0pulse then .forward c1
      else if who = c1 ∧ p1pulse then .forward c0
      else .terminate (some fr) who
    else .next

/-- C7: in the native bridge loop, a DTMF frame from a leg whose line
does not use pulse dialing terminates the bridge and is returned to the
caller together with the channel that produced it (never dropped), while
a DTMF frame from a pulse-dial leg is forwarded to the other leg and
bridging continues. -/
theorem dahdi_bridge_dtmf (c0 c1 : Chan) (p0pulse p1pulse : Bool)
    (who : Chan) (fr : Frame) (hne : c0 ≠ c1)
    (hdtmf : fr.frametype = AST_FRAME_DTMF) (hwho : who = c0 ∨ who = c1) :
    (who = c0 → p0pulse = false →
      dahdi_bridge_frame_step c0 c1 p0pulse p1pulse who (some fr) =
        .terminate (some fr) who) ∧
    (who = c1 → p1pulse = false →
      dahdi_bridge_frame_step c0 c1 p0pulse p1pulse who (some fr) =
        .terminate (some fr) who) ∧
    (who = c0 → p0pulse = true →
      dahdi_bridge_frame_step c0 c1 p0pulse p1pulse who (some fr) =
        .forward c1) ∧
    (who = c1 → p1pulse = true →
      dahdi_bridge_frame_step c0 c1 p0pulse p1pulse who (some fr) =
        .forward c0) := by
  have hcd : AST_FRAME_DTMF ≠ AST_FRAME_CONTROL := by decide
  refine ⟨?_, ?_, ?_, ?_⟩ <;> intro hw hp <;>
    subst hw <;>
    simp_all [dahdi_bridge_frame_step, hdtmf, Ne.symm hne, hne]

/-- Witness for C7: DTMF from the non-pulse side 8 of a bridge between
channels 8 and 9 terminates the bridge with that frame and source. -/
theorem dahdi_bridge_dtmf_witness :
    ((8 : Chan) ≠ 9 ∧ (Frame.mk AST_FRAME_DTMF 5).frametype = AST_FRAME_DTMF ∧
      ((8 : Chan) = 8 ∨ (8 : Chan) = 9)) ∧
    ((8 : Chan) = 8 → false = false →
      dahdi_bridge_frame_step 8 9 false true 8 (some (Frame.mk AST_FRAME_DTMF 5)) =
        .terminate (some (Frame.mk AST_FRAME_DTMF 5)) 8) :=
  ⟨⟨by decide, by decide, Or.inl rfl⟩,
   (dahdi_bridge_dtmf 8 9 false true 8 (Frame.mk AST_FRAME_DTMF 5)
     (by decide) (by decide) (Or.inl rfl)).1⟩

/- ───────────────── On-hook handling with a three-way leg ───────────────── -/

/-- What the on-hook handler decides to do with the remaining legs. -/
inductive OnhookAction where
  | ringCallwait
  | hangupBothLegs
  | swapAndRingPhone
  | attemptTransfer
  | hangupThreewayLeg
  | hangupAlone
deriving DecidableEq, Repr

/-- Shallow embedding of the decision structure of the
`DAHDI_EVENT_ONHOOK` branch of `dahdi_handle_event` for
loop/ground/kewlstart analog ports when the event arrives on the real
sub-channel: a waiting call-waiting leg rings the phone; with a
three-way leg present, an on-hook within `MIN_MS_SINCE_FLASH`
milliseconds of the last flash is treated as a bounce and hangs up both
call legs; otherwise the call is transferred, dropped or rung back
depending on PBX state and the transfer configuration. -/
def dahdi_onhook_real_decision (hasCallwaitOwner hasThreewayOwner : Bool)
    (mssinceflash : Int) (hasPbx : Bool) (state : Nat)
    (transfer transfertobusy : Bool) : OnhookAction :=
  if hasCallwaitOwner then .ringCallwait
  else if hasThreewayOwner then
    if mssinceflash < MIN_MS_SINCE_FLASH then .hangupBothLegs
    else if hasPbx ∨ state = AST_STATE_UP then
      if transfer then
        if ¬transfertobusy ∧ state = AST_STATE_BUSY then .swapAndRingPhone
        else .attemptTransfer
      else .hangupThreewayLeg
    else .swapAndRingPhone
  else .hangupAlone

/-- Guard of the analog on-hook branch: the `SIG_FXOLS`/`SIG_FXOGS`/
`SIG_FXOKS` case labels (FXS ports use FXO signalling). -/
def dahdi_onhook_event_fxo (sig : Nat) (hasCallwaitOwner hasThreewayOwner : Bool)
    (mssinceflash : Int) (hasPbx : Bool) (state : Nat)
    (transfer transfertobusy : Bool) : Option OnhookAction :=
  if sig = SIG_FXOLS ∨ sig = SIG_FXOGS ∨ sig = SIG_FXOKS then
    some (dahdi_onhook_real_decision hasCallwaitOwner hasThreewayOwner
      mssinceflash hasPbx state transfer transfertobusy)
  else
    none

/-- C4: on a kewlstart FXS port (`SIG_FXOKS`) with an allocated three-way
leg and no call-waiting leg, a hook event within the 2000 ms debounce
window of the previous flash is treated as a bounce: both call legs are
hung up, and neither a conference merge (`attemptTransfer`) nor any other
disposition happens. -/
theorem dahdi_onhook_flash_bounce (mssinceflash : Int) (hasPbx : Bool)
    (state : Nat) (transfer transfertobusy : Bool)
    (hms : mssinceflash < MIN_MS_SINCE_FLASH) :
    dahdi_onhook_event_fxo SIG_FXOKS false true mssinceflash hasPbx state
      transfer transfertobusy = some OnhookAction.hangupBothLegs := by
  simp [dahdi_onhook_event_fxo, dahdi_onhook_real_decision, hms]

/-- Witness for C4 at a concrete bounce 150 ms after the last flash. -/
theorem dahdi_onhook_flash_bounce_witness :
    ((150 : Int) < MIN_MS_SINCE_FLASH) ∧
    dahdi_onhook_event_fxo SIG_FXOKS false true 150 true AST_STATE_UP
      true true = some OnhookAction.hangupBothLegs :=
  ⟨by decide, dahdi_onhook_flash_bounce 150 true AST_STATE_UP true true
    (by decide)⟩

/- ───────────────── Conference topology manager ───────────────── -/

/-- The collection of Lines reachable through master/slave references,
as indices into `lines`, together with the hardware conference-number
allocator state of the DAHDI mixer (`nextConf`): `DAHDI_SETCONF` with
conference number -1 allocates the next unused conference. -/
structure World where
  numLines : Nat
  lines : Nat → Pvt
  nextConf : Int

/-- Replace line `i`. -/
def World.setLine (w : World) (i : Nat) (p : Pvt) : World :=
  { w with lines := Function.update w.lines i p }

/-- Update line `i` in place. -/
def World.updLine (w : World) (i : Nat) (f : Pvt → Pvt) : World :=
  w.setLine i (f (w.lines i))

/-- Update sub-channel `x` of line `i` in place. -/
def World.setSubq (w : World) (i x : Nat) (s : Sub) : World :=
  w.updLine i (fun p => p.setSub x s)

/-- `GET_CHANNEL(p)` in the non-PRI build: the Line's channel number. -/
def GET_CHANNEL (p : Pvt) : Int := p.channel

/-- Model of the external `DAHDI_SETCONF` ioctl on the conference field:
a requested conference number of -1 allocates a fresh conference (the
kernel returns it in place); any other request is programmed as-is.  The
ioctl is modelled as always succeeding — the driver logs and ignores
failures, retaining its logical state. -/
def setconfIoctl (next : Int) (zi : Confinfo) : Confinfo × Int :=
  if zi.confno = -1 then (⟨next, zi.confmode⟩, next + 1) else (zi, next)

/-- The conference request `conf_add` builds for mode-selection index
`index` and digital-monitor source `slavechannel`. -/
def ziFor (p : Pvt) (index : Nat) (slavechannel : Int) : Confinfo :=
  if slavechannel > 0 then ⟨slavechannel, DAHDI_CONF_DIGITALMON⟩
  else if index = 0 then ⟨p.confno, CONFMODE_REAL⟩
  else ⟨p.confno, CONFMODE_AUX⟩

/-- Shallow embedding of `conf_add(p, c, index, slavechannel)`.  `pIdx`
is the Line whose conference is joined (and whose `confno` is written
back), `(cIdx, cSub)` locates the sub-channel `c`.  Returns the new world
and the number of `DAHDI_SETCONF` ioctl calls issued (0 or 1): nothing is
issued when the sub-channel is already programmed exactly as requested,
or when its resource is unallocated. -/
def conf_add (w : World) (pIdx cIdx cSub index : Nat) (slavechannel : Int) :
    World × Nat :=
  let p := w.lines pIdx
  let c := (w.lines cIdx).subs cSub
  let zi := ziFor p index slavechannel
  if zi.confno = c.curconf.confno ∧ zi.confmode = c.curconf.confmode then
    (w, 0)
  else if c.dfd < 0 then (w, 0)
  else
    let r := setconfIoctl w.nextConf zi
    let w1 : World := { w with nextConf := r.2 }
    let w2 : World :=
      if slavechannel < 1 then
        w1.updLine pIdx (fun q => { q with confno := r.1.confno })
      else w1
    (w2.setSubq cIdx cSub { (w2.lines cIdx).subs cSub with curconf := r.1 }, 1)

/-- Embedding of `isourconf(p, c)`: the sub-channel is in a conference
owned by `p` (listening to `p.channel` in digital-monitor mode, or a
talker in `p`'s allocated conference). -/
def isourconf (p : Pvt) (c : Sub) : Prop :=
  (p.channel = c.curconf.confno ∧ c.curconf.confmode = DAHDI_CONF_DIGITALMON) ∨
  (0 < p.confno ∧ p.confno = c.curconf.confno ∧
    c.curconf.confmode &&& DAHDI_CONF_TALKER ≠ 0)

instance (p : Pvt) (c : Sub) : Decidable (isourconf p c) := by
  unfold isourconf; infer_instance

/-- Shallow embedding of `conf_del(p, c, index)`: removes the
sub-channel from the conference (programming the zero configuration) if
it is allocated and currently in a conference of `p`. -/
def conf_del (w : World) (pIdx cIdx cSub : Nat) : World × Nat :=
  let p := w.lines pIdx
  let c := (w.lines cIdx).subs cSub
  if c.dfd < 0 ∨ ¬ isourconf p c then (w, 0)
  else (w.setSubq cIdx cSub { c with curconf := ⟨0, 0⟩ }, 1)

/-- Some allocated sub-channel of `p` is flagged in-three-way (the first
loop of `isslavenative`). -/
def hasActiveThreeway (p : Pvt) : Prop :=
  ∃ x < 3, (p.subs x).dfd > -1 ∧ (p.subs x).inthreeway = true

instance (p : Pvt) : Decidable (hasActiveThreeway p) := by
  unfold hasActiveThreeway; infer_instance

/-- The occupied slots of `p->slaves[]`, in slot order. -/
def occupiedSlaves (p : Pvt) : List Nat :=
  [p.slave0, p.slave1, p.slave2, p.slave3].filterMap id

/-- Shallow embedding of `isslavenative(p, &slave)`: slave-native
(digital monitor) conferencing applies exactly when no allocated
sub-channel is in a three-way, precisely one slave slot is occupied, and
that slave's companding law matches.  The scan of the C loop (abort on a
second slave, reset on law mismatch) is rendered as a match on the list
of occupied slots, which returns the same (flag, slave) pair. -/
def isslavenative (w : World) (pIdx : Nat) : Bool × Option Nat :=
  let p := w.lines pIdx
  if hasActiveThreeway p then (false, none)
  else
    match occupiedSlaves p with
    | [s] => if (w.lines s).law = p.law then (true, some s) else (false, none)
    | _ => (false, none)

/-- First loop body of `update_conf`: sub-channel `x` joins the Line's
own conference when allocated and in-three-way (counting toward
`needconf`), and is otherwise removed from it.  Returns (world, ioctl
calls, needconf increment). -/
def doSub (w : World) (pIdx x : Nat) : World × Nat × Nat :=
  let s := (w.lines pIdx).subs x
  if s.dfd > -1 ∧ s.inthreeway = true then
    let r := conf_add w pIdx pIdx x x 0
    (r.1, r.2, 1)
  else
    let r := conf_del w pIdx pIdx x
    (r.1, r.2, 0)

/-- Second loop body of `update_conf`: slave slot `x`, if occupied, is
merged through a direct digital monitor of this Line's channel in
slave-native mode, and through the shared conference (counting toward
`needconf`) otherwise. -/
def doSlave (w : World) (pIdx : Nat) (usn : Bool) (x : Nat) :
    World × Nat × Nat :=
  match (w.lines pIdx).slaves x with
  | none => (w, 0, 0)
  | some s =>
    if usn then
      let r := conf_add w pIdx s 0 0 (GET_CHANNEL (w.lines pIdx))
      (r.1, r.2, 0)
    else
      let r := conf_add w pIdx s 0 0 0
      (r.1, r.2, 1)

/-- Third step of `update_conf`: a Line marked `inconference` whose real
sub-channel is not in a three-way joins its own mixer — monitoring its
single slave digitally in slave-native mode, or as a general conference
member (counting toward `needconf`). -/
def doInconf (w : World) (pIdx : Nat) (usn : Bool) (slaveOpt : Option Nat) :
    World × Nat × Nat :=
  let p := w.lines pIdx
  if p.inconference ∧ ¬ (p.subs 0).inthreeway = true then
    if usn then
      match slaveOpt with
      | some s =>
        let r := conf_add w pIdx pIdx 0 0 (GET_CHANNEL (w.lines s))
        (r.1, r.2, 0)
      | none => (w, 0, 0)
    else
      let r := conf_add w pIdx pIdx 0 0 0
      (r.1, r.2, 1)
  else (w, 0, 0)

/-- Fourth step of `update_conf`: a Line that has a master adds its real
sub-channel to the master's mixer, applying the master's own
slave-native/general mode. -/
def doMaster (w : World) (pIdx : Nat) : World × Nat :=
  match (w.lines pIdx).master with
  | none => (w, 0)
  | some m =>
    if (isslavenative w m).1 then
      conf_add w m pIdx 0 0 (GET_CHANNEL (w.lines m))
    else
      conf_add w m pIdx 0 0 0

/-- Threads one loop-body result into the running (world, ioctl calls,
needconf) accumulator. -/
def accOf (r : World × Nat × Nat) (a : World × Nat × Nat) :
    World × Nat × Nat :=
  (r.1, a.2.1 + r.2.1, a.2.2 + r.2.2)

/-- One iteration of the sub-channel loop on the accumulator. -/
def accSub (pIdx x : Nat) (a : World × Nat × Nat) : World × Nat × Nat :=
  accOf (doSub a.1 pIdx x) a

/-- One iteration of the slave loop on the accumulator. -/
def accSlave (pIdx : Nat) (usn : Bool) (x : Nat) (a : World × Nat × Nat) :
    World × Nat × Nat :=
  accOf (doSlave a.1 pIdx usn x) a

/-- The in-conference step on the accumulator. -/
def accInconf (pIdx : Nat) (usn : Bool) (slaveOpt : Option Nat)
    (a : World × Nat × Nat) : World × Nat × Nat :=
  accOf (doInconf a.1 pIdx usn slaveOpt) a

/-- The master step on the accumulator (does not affect `needconf`). -/
def accMaster (pIdx : Nat) (a : World × Nat × Nat) : World × Nat × Nat :=
  ((doMaster a.1 pIdx).1, a.2.1 + (doMaster a.1 pIdx).2, a.2.2)

/-- Final step of `update_conf`: when nobody is (or should be) left in
the Line's conference, release the conference number. -/
def finishConf (pIdx : Nat) (a : World × Nat × Nat) : World × Nat :=
  (if a.2.2 = 0 then a.1.updLine pIdx (fun q => { q with confno := -1 })
   else a.1, a.2.1)

/-- Body of `update_conf` after the initial `isslavenative` query `sn`:
the three sub-channel iterations, the four slave slots, the
in-conference step, the master step, and the final conference release,
in the order of the C function. -/
def update_conf_body (w : World) (pIdx : Nat) (sn : Bool × Option Nat) :
    World × Nat :=
  finishConf pIdx
    (accMaster pIdx
      (accInconf pIdx sn.1 sn.2
        (accSlave pIdx sn.1 3
          (accSlave pIdx sn.1 2
            (accSlave pIdx sn.1 1
              (accSlave pIdx sn.1 0
                (accSub pIdx 2
                  (accSub pIdx 1
                    (accSub pIdx 0 (w, 0, 0))))))))))

/-- Shallow embedding of `update_conf(p)` (`reconcileConference`): the
three fixed loop iterations over sub-channels, the four slave slots, the
in-conference step, the master step, and the final release of the
conference number when no participant remains.  Returns the new world
and the total number of `DAHDI_SETCONF` ioctl calls issued. -/
def update_conf (w : World) (pIdx : Nat) : World × Nat :=
  update_conf_body w pIdx (isslavenative w pIdx)

/- ───────────────── dahdi_link ───────────────── -/

/-- Shallow embedding of `dahdi_link(slave, master)`: a NULL argument is
rejected; otherwise the slave is stored in the first empty slave slot of
the master — silently replacing the occupant of the last slot when all
four are taken — and the slave's master reference is overwritten. -/
def dahdi_link (w : World) (slave master : Option Nat) : World :=
  match slave, master with
  | some s, some m =>
    let mp := w.lines m
    let w1 :=
      if mp.slave0 = none then
        w.updLine m (fun q => { q with slave0 := some s })
      else if mp.slave1 = none then
        w.updLine m (fun q => { q with slave1 := some s })
      else if mp.slave2 = none then
        w.updLine m (fun q => { q with slave2 := some s })
      else
        -- covers both an empty last slot and the replacement of its
        -- occupant when all four slots are taken
        w.updLine m (fun q => { q with slave3 := some s })
    w1.updLine s (fun q => { q with master := some m })
  | _, _ => w

/-- Number of slave slots of `p` holding line `s`. -/
def slaveCount (p : Pvt) (s : Nat) : Nat :=
  [p.slave0, p.slave1, p.slave2, p.slave3].count (some s)

/-- C10: after `dahdi_link(slave, master)` with both Lines non-null (and
the slave not already linked), the slave's master reference equals the
master and the slave occupies exactly one slot of the master's slave
array; when all four slots were already occupied, the first three keep
their occupants, the occupant of the last slot is silently replaced by
the slave, and the evicted Line's own master reference is not cleared. -/
theorem dahdi_link_spec (w : World) (s m : Nat) (hsm : s ≠ m)
    (h0 : (w.lines m).slave0 ≠ some s) (h1 : (w.lines m).slave1 ≠ some s)
    (h2 : (w.lines m).slave2 ≠ some s) (h3 : (w.lines m).slave3 ≠ some s) :
    let w2 := dahdi_link w (some s) (some m)
    (w2.lines s).master = some m ∧
    slaveCount (w2.lines m) s = 1 ∧
    ((w.lines m).slave0 ≠ none → (w.lines m).slave1 ≠ none →
     (w.lines m).slave2 ≠ none → (w.lines m).slave3 ≠ none →
      ((w2.lines m).slave0 = (w.lines m).slave0 ∧
       (w2.lines m).slave1 = (w.lines m).slave1 ∧
       (w2.lines m).slave2 = (w.lines m).slave2 ∧
       (w2.lines m).slave3 = some s ∧
       ∀ e, (w.lines m).slave3 = some e →
         (w2.lines e).master = (w.lines e).master)) := by
  intro w2
  have hms : m ≠ s := Ne.symm hsm
  by_cases e0 : (w.lines m).slave0 = none
  case pos =>
    refine ⟨?_, ?_, ?_⟩
    · simp [w2, dahdi_link, e0, World.updLine, World.setLine,
        Function.update_same]
    · simp [w2, dahdi_link, e0, World.updLine, World.setLine,
        Function.update_noteq hms, Function.update_same, slaveCount,
        List.count_cons, e0.symm ▸ h0, h1, h2, h3]
    · intro c0 _ _ _; exact absurd e0 c0
  case neg =>
    by_cases e1 : (w.lines m).slave1 = none
    case pos =>
      refine ⟨?_, ?_, ?_⟩
      · simp [w2, dahdi_link, e0, e1, World.updLine, World.setLine,
          Function.update_same]
      · simp [w2, dahdi_link, e0, e1, World.updLine, World.setLine,
          Function.update_noteq hms, Function.update_same, slaveCount,
          List.count_cons, h0, h2, h3]
      · intro _ c1 _ _; exact absurd e1 c1
    case neg =>
      by_cases e2 : (w.lines m).slave2 = none
      case pos =>
        refine ⟨?_, ?_, ?_⟩
        · simp [w2, dahdi_link, e0, e1, e2, World.updLine, World.setLine,
            Function.update_same]
        · simp [w2, dahdi_link, e0, e1, e2, World.updLine, World.setLine,
            Function.update_noteq hms, Function.update_same, slaveCount,
            List.count_cons, h0, h1, h3]
        · intro _ _ c2 _; exact absurd e2 c2
      case neg =>
        refine ⟨?_, ?_, ?_⟩
        · simp [w2, dahdi_link, e0, e1, e2, World.updLine, World.setLine,
            Function.update_same]
        · simp [w2, dahdi_link, e0, e1, e2, World.updLine, World.setLine,
            Function.update_noteq hms, Function.update_same, slaveCount,
            List.count_cons, h0, h1, h2]
        · intro _ _ _ _
          refine ⟨?_, ?_, ?_, ?_, ?_⟩ <;>
            try simp [w2, dahdi_link, e0, e1, e2, World.updLine,
              World.setLine, Function.update_noteq hms,
              Function.update_same]
          intro e he
          have hes : e ≠ s := fun h => h3 (h ▸ he)
          by_cases hem : e = m
          · subst hem
            simp [w2, dahdi_link, e0, e1, e2, World.updLine, World.setLine,
              Function.update_noteq hms, Function.update_same,
              Function.update_noteq hes]
          · simp [w2, dahdi_link, e0, e1, e2, World.updLine, World.setLine,
              Function.update_noteq hes, Function.update_noteq hem]

/-- Witness for C10: linking line 1 under line 0 in a two-line world with
all slave slots of the master already taken. -/
def pvtFullM : Pvt :=
  { pvtW with
    channel := 5
    slave0 := some 2
    slave1 := some 3
    slave2 := some 4
    slave3 := some 5 }

/-- The line being linked in the C10 witness. -/
def pvtLinkee : Pvt := { pvtW with channel := 2 }

/-- A concrete world for the C10 witness: line 0 is a master with four
slaves, line 1 the line being linked. -/
def linkW : World :=
  { numLines := 2,
    lines := fun i => if i = 0 then pvtFullM else pvtLinkee,
    nextConf := 10 }

theorem dahdi_link_spec_witness :
    ((1 : Nat) ≠ 0 ∧ (linkW.lines 0).slave0 ≠ some 1 ∧
      (linkW.lines 0).slave1 ≠ some 1 ∧ (linkW.lines 0).slave2 ≠ some 1 ∧
      (linkW.lines 0).slave3 ≠ some 1) ∧
    (let w2 := dahdi_link linkW (some 1) (some 0)
     (w2.lines 1).master = some 0 ∧ slaveCount (w2.lines 0) 1 = 1) := by
  refine ⟨⟨by decide, by decide, by decide, by decide, by decide⟩, ?_⟩
  have h := dahdi_link_spec linkW 1 0 (by decide) (by decide) (by decide)
    (by decide) (by decide)
  exact ⟨h.1, h.2.1⟩

/- ───────── Infrastructure lemmas about state updates ───────── -/

/-- Canonical sub-channel index (the `subs` accessor collapses indices
beyond 2 onto the last slot). -/
def subIx (x : Nat) : Nat := min x 2

theorem subIx_add_two (b : Nat) : subIx (b + 2) = 2 := by
  simp [subIx, Nat.min_def]

theorem subs_setSub (p : Pvt) (x y : Nat) (s : Sub) :
    (p.setSub x s).subs y = if subIx y = subIx x then s else p.subs y := by
  rcases p with ⟨ch, law, sig, cf, inc, pol, ow, dia, ri, s0, s1, s2, v0, v1, v2, v3, m⟩
  match x, y with
  | 0, 0 => rfl
  | 0, 1 => rfl
  | 0, b + 2 => simp [Pvt.setSub, Pvt.subs, subIx_add_two, subIx]
  | 1, 0 => rfl
  | 1, 1 => rfl
  | 1, b + 2 => simp [Pvt.setSub, Pvt.subs, subIx_add_two, subIx]
  | a + 2, 0 => simp [Pvt.setSub, Pvt.subs, subIx_add_two, subIx]
  | a + 2, 1 => simp [Pvt.setSub, Pvt.subs, subIx_add_two, subIx]
  | a + 2, b + 2 => simp [Pvt.setSub, Pvt.subs, subIx_add_two]

theorem setSub_channel (p : Pvt) (x : Nat) (s : Sub) :
    (p.setSub x s).channel = p.channel := by
  match x with | 0 => rfl | 1 => rfl | a + 2 => rfl

theorem setSub_law (p : Pvt) (x : Nat) (s : Sub) :
    (p.setSub x s).law = p.law := by
  match x with | 0 => rfl | 1 => rfl | a + 2 => rfl

theorem setSub_confno (p : Pvt) (x : Nat) (s : Sub) :
    (p.setSub x s).confno = p.confno := by
  match x with | 0 => rfl | 1 => rfl | a + 2 => rfl

theorem setSub_inconference (p : Pvt) (x : Nat) (s : Sub) :
    (p.setSub x s).inconference = p.inconference := by
  match x with | 0 => rfl | 1 => rfl | a + 2 => rfl

theorem setSub_master (p : Pvt) (x : Nat) (s : Sub) :
    (p.setSub x s).master = p.master := by
  match x with | 0 => rfl | 1 => rfl | a + 2 => rfl

theorem setSub_slaves (p : Pvt) (x : Nat) (s : Sub) (y : Nat) :
    (p.setSub x s).slaves y = p.slaves y := by
  match x, y with
  | 0, 0 => rfl | 0, 1 => rfl | 0, 2 => rfl | 0, b + 3 => rfl
  | 1, 0 => rfl | 1, 1 => rfl | 1, 2 => rfl | 1, b + 3 => rfl
  | a + 2, 0 => rfl | a + 2, 1 => rfl | a + 2, 2 => rfl | a + 2, b + 3 => rfl

theorem confnoSet_subs (p : Pvt) (v : Int) (y : Nat) :
    ({ p with confno := v } : Pvt).subs y = p.subs y := by
  match y with | 0 => rfl | 1 => rfl | b + 2 => rfl

theorem confnoSet_slaves (p : Pvt) (v : Int) (y : Nat) :
    ({ p with confno := v } : Pvt).slaves y = p.slaves y := by
  match y with | 0 => rfl | 1 => rfl | 2 => rfl | b + 3 => rfl

theorem setLine_lines (w : World) (i : Nat) (p : Pvt) (j : Nat) :
    (w.setLine i p).lines j = if j = i then p else w.lines j := by
  by_cases h : j = i
  · subst h; simp [World.setLine, Function.update_same]
  · simp [World.setLine, Function.update_noteq h, h]

theorem setLine_nextConf (w : World) (i : Nat) (p : Pvt) :
    (w.setLine i p).nextConf = w.nextConf := rfl

theorem setLine_numLines (w : World) (i : Nat) (p : Pvt) :
    (w.setLine i p).numLines = w.numLines := rfl

theorem updLine_lines (w : World) (i : Nat) (f : Pvt → Pvt) (j : Nat) :
    (w.updLine i f).lines j = if j = i then f (w.lines i) else w.lines j := by
  simp [World.updLine, setLine_lines]

theorem setSubq_lines (w : World) (i x : Nat) (s : Sub) (j : Nat) :
    (w.setSubq i x s).lines j =
      if j = i then (w.lines i).setSub x s else w.lines j := by
  simp [World.setSubq, updLine_lines]

/-- The shape of a Line: every field the conference reconciliation reads
but never writes (`confno` and the `curconf` fields are excluded). -/
structure PvtShape where
  channel : Int
  law : Int
  inconference : Bool
  dfds : Nat → Int
  tws : Nat → Bool
  slv : Nat → Option Nat
  master : Option Nat

/-- Shape projection of a Line. -/
def Pvt.shape (p : Pvt) : PvtShape :=
  ⟨p.channel, p.law, p.inconference, fun x => (p.subs x).dfd,
   fun x => (p.subs x).inthreeway, fun x => p.slaves x, p.master⟩

theorem shape_eq_fields {p q : Pvt} (h : p.shape = q.shape) :
    p.channel = q.channel ∧ p.law = q.law ∧
    p.inconference = q.inconference ∧
    (∀ x, (p.subs x).dfd = (q.subs x).dfd) ∧
    (∀ x, (p.subs x).inthreeway = (q.subs x).inthreeway) ∧
    (∀ x, p.slaves x = q.slaves x) ∧ p.master = q.master := by
  refine ⟨congrArg PvtShape.channel h, congrArg PvtShape.law h,
    congrArg PvtShape.inconference h, fun x => ?_, fun x => ?_,
    fun x => ?_, congrArg PvtShape.master h⟩
  · exact congrFun (congrArg PvtShape.dfds h) x
  · exact congrFun (congrArg PvtShape.tws h) x
  · exact congrFun (congrArg PvtShape.slv h) x

theorem subs_subIx_eq (p : Pvt) {x y : Nat} (h : subIx y = subIx x) :
    p.subs y = p.subs x := by
  match x, y with
  | 0, 0 => rfl
  | 0, 1 => exact absurd h (by decide)
  | 0, b + 2 => rw [subIx_add_two] at h; exact absurd h (by decide)
  | 1, 0 => exact absurd h (by decide)
  | 1, 1 => rfl
  | 1, b + 2 => rw [subIx_add_two] at h; exact absurd h (by decide)
  | a + 2, 0 => rw [subIx_add_two] at h; exact absurd h (by decide)
  | a + 2, 1 => rw [subIx_add_two] at h; exact absurd h (by decide)
  | a + 2, b + 2 => rfl

theorem shape_setSub_curconf (p : Pvt) (x : Nat) (c : Confinfo) :
    (p.setSub x { p.subs x with curconf := c }).shape = p.shape := by
  unfold Pvt.shape
  simp only [PvtShape.mk.injEq, setSub_channel, setSub_law,
    setSub_inconference, setSub_master, true_and, and_true]
  refine ⟨?_, ?_, ?_⟩
  · funext y
    rw [subs_setSub]
    split
    · rename_i h; rw [subs_subIx_eq p h]
    · rfl
  · funext y
    rw [subs_setSub]
    split
    · rename_i h; rw [subs_subIx_eq p h]
    · rfl
  · funext y
    rw [setSub_slaves]

theorem shape_confnoSet (p : Pvt) (v : Int) :
    ({ p with confno := v } : Pvt).shape = p.shape := rfl

/- ───────── Well-formedness of a world ───────── -/

/-- Per-line well-formedness relative to the allocator bound: channel
numbers are at least 1 and below the next allocated conference number,
conference numbers are at least -1 and below it, and every programmed
`curconf` conference number is non-negative and below it. -/
def lineWF (next : Int) (p : Pvt) : Prop :=
  1 ≤ p.channel ∧ p.channel < next ∧ -1 ≤ p.confno ∧ p.confno < next ∧
  ∀ x < 3, 0 ≤ ((p.subs x).curconf).confno ∧ ((p.subs x).curconf).confno < next

/-- A line reference is either NULL or a valid index different from `i`. -/
def refOK (n i : Nat) : Option Nat → Prop
  | none => True
  | some s => s < n ∧ s ≠ i

instance (n i : Nat) (o : Option Nat) : Decidable (refOK n i o) := by
  cases o <;> unfold refOK <;> infer_instance

theorem refOK_some {n i : Nat} {o : Option Nat} {s : Nat}
    (h : refOK n i o) (hs : o = some s) : s < n ∧ s ≠ i := by
  subst hs; exact h

/-- Link sanity for line `i`: all slave and master references are valid
line indices different from `i` itself. -/
def linksWF (n i : Nat) (p : Pvt) : Prop :=
  (∀ x < 4, refOK n i (p.slaves x)) ∧ refOK n i p.master

/-- Well-formed world: allocator at least 1, every line well-formed with
sane links, channel numbers pairwise distinct, positive conference
numbers pairwise distinct. -/
def WF (w : World) : Prop :=
  1 ≤ w.nextConf ∧
  (∀ i < w.numLines, lineWF w.nextConf (w.lines i) ∧
    linksWF w.numLines i (w.lines i)) ∧
  (∀ i < w.numLines, ∀ j < w.numLines, i ≠ j →
    (w.lines i).channel ≠ (w.lines j).channel ∧
    (0 < (w.lines i).confno → (w.lines i).confno ≠ (w.lines j).confno))

instance (next : Int) (p : Pvt) : Decidable (lineWF next p) := by
  unfold lineWF; infer_instance

instance (n i : Nat) (p : Pvt) : Decidable (linksWF n i p) := by
  unfold linksWF; infer_instance

instance (w : World) : Decidable (WF w) := by
  unfold WF; infer_instance

/- ───────── Case and frame lemmas for the conference operations ───────── -/

theorem Confinfo.eq_iff {a b : Confinfo} :
    a = b ↔ a.confno = b.confno ∧ a.confmode = b.confmode := by
  cases a; cases b; simp

theorem conf_add_noop_match (w : World) (pIdx cIdx cSub index : Nat)
    (sc : Int)
    (h : ziFor (w.lines pIdx) index sc = ((w.lines cIdx).subs cSub).curconf) :
    conf_add w pIdx cIdx cSub index sc = (w, 0) := by
  simp only [conf_add]
  rw [if_pos (Confinfo.eq_iff.1 h)]

theorem conf_add_noop_dfd (w : World) (pIdx cIdx cSub index : Nat) (sc : Int)
    (h : ((w.lines cIdx).subs cSub).dfd < 0) :
    conf_add w pIdx cIdx cSub index sc = (w, 0) := by
  simp only [conf_add]
  by_cases h1 : (ziFor (w.lines pIdx) index sc).confno =
      ((w.lines cIdx).subs cSub).curconf.confno ∧
      (ziFor (w.lines pIdx) index sc).confmode =
        ((w.lines cIdx).subs cSub).curconf.confmode
  · rw [if_pos h1]
  · rw [if_neg h1, if_pos h]

theorem conf_add_exec (w : World) (pIdx cIdx cSub index : Nat) (sc : Int)
    (hne : ziFor (w.lines pIdx) index sc ≠ ((w.lines cIdx).subs cSub).curconf)
    (hdfd : ¬ ((w.lines cIdx).subs cSub).dfd < 0) :
    conf_add w pIdx cIdx cSub index sc =
      (let r := setconfIoctl w.nextConf (ziFor (w.lines pIdx) index sc)
       let w1 : World := { w with nextConf := r.2 }
       let w2 : World :=
         if sc < 1 then
           w1.updLine pIdx (fun q => { q with confno := r.1.confno })
         else w1
       (w2.setSubq cIdx cSub { (w2.lines cIdx).subs cSub with curconf := r.1 },
        1)) := by
  simp only [conf_add]
  rw [if_neg (fun hc => hne (Confinfo.eq_iff.2 hc)), if_neg hdfd]

theorem conf_del_noop (w : World) (pIdx cIdx cSub : Nat)
    (h : ((w.lines cIdx).subs cSub).dfd < 0 ∨
      ¬ isourconf (w.lines pIdx) ((w.lines cIdx).subs cSub)) :
    conf_del w pIdx cIdx cSub = (w, 0) := by
  simp only [conf_del]
  rw [if_pos h]

theorem conf_del_exec (w : World) (pIdx cIdx cSub : Nat)
    (hdfd : 0 ≤ ((w.lines cIdx).subs cSub).dfd)
    (hoc : isourconf (w.lines pIdx) ((w.lines cIdx).subs cSub)) :
    conf_del w pIdx cIdx cSub =
      (w.setSubq cIdx cSub
        { (w.lines cIdx).subs cSub with curconf := ⟨0, 0⟩ }, 1) := by
  simp only [conf_del]
  rw [if_neg (by push_neg; exact ⟨hdfd, hoc⟩)]

/- Shape preservation: neither `conf_add` nor `conf_del` changes any
field the reconciliation logic branches on. -/

theorem conf_add_shape (w : World) (pIdx cIdx cSub index : Nat) (sc : Int)
    (j : Nat) :
    ((conf_add w pIdx cIdx cSub index sc).1.lines j).shape =
      (w.lines j).shape := by
  by_cases h1 : ziFor (w.lines pIdx) index sc =
      ((w.lines cIdx).subs cSub).curconf
  · rw [conf_add_noop_match w pIdx cIdx cSub index sc h1]
  by_cases h2 : ((w.lines cIdx).subs cSub).dfd < 0
  · rw [conf_add_noop_dfd w pIdx cIdx cSub index sc h2]
  rw [conf_add_exec w pIdx cIdx cSub index sc h1 h2]
  simp only [setSubq_lines, updLine_lines]
  split
  · rename_i hj
    subst hj
    split
    · simp only [updLine_lines]
      split
      · rename_i hji
        rw [hji] at *
        rw [shape_setSub_curconf]
        exact shape_confnoSet _ _
      · rw [shape_setSub_curconf]
    · rw [shape_setSub_curconf]
  · split
    · simp only [updLine_lines]
      split
      · rename_i hji
        rw [hji] at *
        exact shape_confnoSet _ _
      · rfl
    · rfl

theorem conf_del_shape (w : World) (pIdx cIdx cSub : Nat) (j : Nat) :
    ((conf_del w pIdx cIdx cSub).1.lines j).shape = (w.lines j).shape := by
  by_cases h : ((w.lines cIdx).subs cSub).dfd < 0 ∨
      ¬ isourconf (w.lines pIdx) ((w.lines cIdx).subs cSub)
  · rw [conf_del_noop w pIdx cIdx cSub h]
  push_neg at h
  rw [conf_del_exec w pIdx cIdx cSub h.1 h.2]
  simp only [setSubq_lines, updLine_lines]
  split
  · rename_i hj
    subst hj
    exact shape_setSub_curconf _ _ _
  · rfl

theorem conf_add_numLines (w : World) (pIdx cIdx cSub index : Nat)
    (sc : Int) :
    (conf_add w pIdx cIdx cSub index sc).1.numLines = w.numLines := by
  by_cases h1 : ziFor (w.lines pIdx) index sc =
      ((w.lines cIdx).subs cSub).curconf
  · rw [conf_add_noop_match w pIdx cIdx cSub index sc h1]
  by_cases h2 : ((w.lines cIdx).subs cSub).dfd < 0
  · rw [conf_add_noop_dfd w pIdx cIdx cSub index sc h2]
  rw [conf_add_exec w pIdx cIdx cSub index sc h1 h2]
  simp only [World.setSubq, World.updLine, World.setLine]
  split <;> rfl

theorem conf_del_numLines (w : World) (pIdx cIdx cSub : Nat) :
    (conf_del w pIdx cIdx cSub).1.numLines = w.numLines := by
  by_cases h : ((w.lines cIdx).subs cSub).dfd < 0 ∨
      ¬ isourconf (w.lines pIdx) ((w.lines cIdx).subs cSub)
  · rw [conf_del_noop w pIdx cIdx cSub h]
  push_neg at h
  rw [conf_del_exec w pIdx cIdx cSub h.1 h.2]
  rfl

theorem conf_add_nextConf_mono (w : World) (pIdx cIdx cSub index : Nat)
    (sc : Int) :
    w.nextConf ≤ (conf_add w pIdx cIdx cSub index sc).1.nextConf := by
  by_cases h1 : ziFor (w.lines pIdx) index sc =
      ((w.lines cIdx).subs cSub).curconf
  · rw [conf_add_noop_match w pIdx cIdx cSub index sc h1]
  by_cases h2 : ((w.lines cIdx).subs cSub).dfd < 0
  · rw [conf_add_noop_dfd w pIdx cIdx cSub index sc h2]
  rw [conf_add_exec w pIdx cIdx cSub index sc h1 h2]
  simp only [World.setSubq, World.updLine, World.setLine, setconfIoctl]
  split <;> split <;> dsimp <;> omega

theorem conf_del_nextConf (w : World) (pIdx cIdx cSub : Nat) :
    (conf_del w pIdx cIdx cSub).1.nextConf = w.nextConf := by
  by_cases h : ((w.lines cIdx).subs cSub).dfd < 0 ∨
      ¬ isourconf (w.lines pIdx) ((w.lines cIdx).subs cSub)
  · rw [conf_del_noop w pIdx cIdx cSub h]
  push_neg at h
  rw [conf_del_exec w pIdx cIdx cSub h.1 h.2]
  rfl

theorem nextConfSet_lines (w : World) (v : Int) (j : Nat) :
    ({ w with nextConf := v } : World).lines j = w.lines j := rfl

theorem setconf_no_alloc {next : Int} {zi : Confinfo} (h : zi.confno ≠ -1) :
    setconfIoctl next zi = (zi, next) := by
  unfold setconfIoctl
  rw [if_neg h]

theorem ziFor_confno (p : Pvt) (index : Nat) (sc : Int) :
    (0 < sc ∧ (ziFor p index sc).confno = sc) ∨
      (sc ≤ 0 ∧ (ziFor p index sc).confno = p.confno) := by
  unfold ziFor
  split
  · rename_i h; exact Or.inl ⟨h, rfl⟩
  · rename_i h
    split <;> exact Or.inr ⟨by omega, rfl⟩

theorem conf_add_confno_other (w : World) (pIdx cIdx cSub index : Nat)
    (sc : Int) (j : Nat) (hj : j ≠ pIdx) :
    ((conf_add w pIdx cIdx cSub index sc).1.lines j).confno =
      (w.lines j).confno := by
  by_cases h1 : ziFor (w.lines pIdx) index sc =
      ((w.lines cIdx).subs cSub).curconf
  · rw [conf_add_noop_match w pIdx cIdx cSub index sc h1]
  by_cases h2 : ((w.lines cIdx).subs cSub).dfd < 0
  · rw [conf_add_noop_dfd w pIdx cIdx cSub index sc h2]
  rw [conf_add_exec w pIdx cIdx cSub index sc h1 h2]
  by_cases hsc : sc < 1
  · simp only [if_pos hsc, setSubq_lines, updLine_lines, nextConfSet_lines]
    by_cases hjc : j = cIdx
    · subst hjc
      rw [if_pos rfl, setSub_confno, if_neg hj]
    · rw [if_neg hjc, if_neg hj]
  · simp only [if_neg hsc, setSubq_lines, nextConfSet_lines]
    by_cases hjc : j = cIdx
    · subst hjc
      rw [if_pos rfl, setSub_confno]
    · rw [if_neg hjc]

theorem conf_add_confno_self_stable (w : World) (pIdx cIdx cSub index : Nat)
    (sc : Int) (hpc : 0 ≤ (w.lines pIdx).confno) :
    ((conf_add w pIdx cIdx cSub index sc).1.lines pIdx).confno =
      (w.lines pIdx).confno := by
  by_cases h1 : ziFor (w.lines pIdx) index sc =
      ((w.lines cIdx).subs cSub).curconf
  · rw [conf_add_noop_match w pIdx cIdx cSub index sc h1]
  by_cases h2 : ((w.lines cIdx).subs cSub).dfd < 0
  · rw [conf_add_noop_dfd w pIdx cIdx cSub index sc h2]
  have hz : (ziFor (w.lines pIdx) index sc).confno ≠ -1 := by
    rcases ziFor_confno (w.lines pIdx) index sc with ⟨hs, he⟩ | ⟨hs, he⟩ <;>
      omega
  rw [conf_add_exec w pIdx cIdx cSub index sc h1 h2]
  simp only [setconf_no_alloc hz]
  by_cases hsc : sc < 1
  · simp only [if_pos hsc, setSubq_lines, updLine_lines, nextConfSet_lines]
    rcases ziFor_confno (w.lines pIdx) index sc with ⟨hs, he⟩ | ⟨hs, he⟩
    · exact absurd hsc (by omega)
    · by_cases hpc2 : pIdx = cIdx
      · subst hpc2
        rw [if_pos rfl, setSub_confno, if_pos rfl]
        exact he
      · rw [if_neg hpc2, if_true]
        exact he
  · simp only [if_neg hsc, setSubq_lines, nextConfSet_lines]
    by_cases hpc2 : pIdx = cIdx
    · subst hpc2
      rw [if_pos rfl, setSub_confno]
    · rw [if_neg hpc2]

theorem conf_add_confno_self_evol (w : World) (pIdx cIdx cSub index : Nat)
    (sc : Int) :
    ((conf_add w pIdx cIdx cSub index sc).1.lines pIdx).confno =
        (w.lines pIdx).confno ∨
      w.nextConf ≤ ((conf_add w pIdx cIdx cSub index sc).1.lines pIdx).confno := by
  by_cases h1 : ziFor (w.lines pIdx) index sc =
      ((w.lines cIdx).subs cSub).curconf
  · rw [conf_add_noop_match w pIdx cIdx cSub index sc h1]; left; rfl
  by_cases h2 : ((w.lines cIdx).subs cSub).dfd < 0
  · rw [conf_add_noop_dfd w pIdx cIdx cSub index sc h2]; left; rfl
  rw [conf_add_exec w pIdx cIdx cSub index sc h1 h2]
  by_cases hsc : sc < 1
  · simp only [if_pos hsc, setSubq_lines, updLine_lines, nextConfSet_lines]
    have core : ((setconfIoctl w.nextConf
        (ziFor (w.lines pIdx) index sc)).1.confno =
          (w.lines pIdx).confno) ∨
        w.nextConf ≤ (setconfIoctl w.nextConf
          (ziFor (w.lines pIdx) index sc)).1.confno := by
      unfold setconfIoctl
      split
      · right
        exact le_refl _
      · rcases ziFor_confno (w.lines pIdx) index sc with ⟨hs, he⟩ | ⟨hs, he⟩
        · exact absurd hsc (by omega)
        · left
          exact he
    by_cases hpc2 : pIdx = cIdx
    · subst hpc2
      rw [if_pos rfl, setSub_confno, if_pos rfl]
      exact core
    · rw [if_neg hpc2, if_true]
      exact core
  · simp only [if_neg hsc, setSubq_lines, nextConfSet_lines]
    by_cases hpc2 : pIdx = cIdx
    · subst hpc2
      rw [if_pos rfl, setSub_confno]
      left; rfl
    · rw [if_neg hpc2]
      left; rfl

theorem conf_add_curconf_other (w : World) (pIdx cIdx cSub index : Nat)
    (sc : Int) (j y : Nat) (h : ¬ (j = cIdx ∧ subIx y = subIx cSub)) :
    (((conf_add w pIdx cIdx cSub index sc).1.lines j).subs y).curconf =
      ((w.lines j).subs y).curconf := by
  by_cases h1 : ziFor (w.lines pIdx) index sc =
      ((w.lines cIdx).subs cSub).curconf
  · rw [conf_add_noop_match w pIdx cIdx cSub index sc h1]
  by_cases h2 : ((w.lines cIdx).subs cSub).dfd < 0
  · rw [conf_add_noop_dfd w pIdx cIdx cSub index sc h2]
  rw [conf_add_exec w pIdx cIdx cSub index sc h1 h2]
  by_cases hsc : sc < 1
  · simp only [if_pos hsc, setSubq_lines, updLine_lines, nextConfSet_lines]
    by_cases hjc : j = cIdx
    · subst hjc
      rw [if_pos rfl, subs_setSub, if_neg (fun hy => h ⟨rfl, hy⟩)]
      by_cases hjp : j = pIdx
      · subst hjp
        rw [if_pos rfl, confnoSet_subs]
      · rw [if_neg hjp]
    · rw [if_neg hjc]
      by_cases hjp : j = pIdx
      · subst hjp
        rw [if_pos rfl, confnoSet_subs]
      · rw [if_neg hjp]
  · simp only [if_neg hsc, setSubq_lines, nextConfSet_lines]
    by_cases hjc : j = cIdx
    · subst hjc
      rw [if_pos rfl, subs_setSub, if_neg (fun hy => h ⟨rfl, hy⟩)]
    · rw [if_neg hjc]

theorem conf_add_curconf_target (w : World) (pIdx cIdx cSub index : Nat)
    (sc : Int)
    (hne : ziFor (w.lines pIdx) index sc ≠ ((w.lines cIdx).subs cSub).curconf)
    (hdfd : ¬ ((w.lines cIdx).subs cSub).dfd < 0) :
    (((conf_add w pIdx cIdx cSub index sc).1.lines cIdx).subs cSub).curconf =
      (setconfIoctl w.nextConf (ziFor (w.lines pIdx) index sc)).1 := by
  rw [conf_add_exec w pIdx cIdx cSub index sc hne hdfd]
  simp only [setSubq_lines, eq_self_iff_true, if_true]
  rw [subs_setSub, if_pos rfl]

theorem conf_del_confno (w : World) (pIdx cIdx cSub : Nat) (j : Nat) :
    ((conf_del w pIdx cIdx cSub).1.lines j).confno = (w.lines j).confno := by
  by_cases h : ((w.lines cIdx).subs cSub).dfd < 0 ∨
      ¬ isourconf (w.lines pIdx) ((w.lines cIdx).subs cSub)
  · rw [conf_del_noop w pIdx cIdx cSub h]
  push_neg at h
  rw [conf_del_exec w pIdx cIdx cSub h.1 h.2]
  simp only [setSubq_lines]
  by_cases hjc : j = cIdx
  · subst hjc
    rw [if_pos rfl, setSub_confno]
  · rw [if_neg hjc]

theorem conf_del_curconf_other (w : World) (pIdx cIdx cSub : Nat) (j y : Nat)
    (h : ¬ (j = cIdx ∧ subIx y = subIx cSub)) :
    (((conf_del w pIdx cIdx cSub).1.lines j).subs y).curconf =
      ((w.lines j).subs y).curconf := by
  by_cases hc : ((w.lines cIdx).subs cSub).dfd < 0 ∨
      ¬ isourconf (w.lines pIdx) ((w.lines cIdx).subs cSub)
  · rw [conf_del_noop w pIdx cIdx cSub hc]
  push_neg at hc
  rw [conf_del_exec w pIdx cIdx cSub hc.1 hc.2]
  simp only [setSubq_lines]
  by_cases hjc : j = cIdx
  · subst hjc
    rw [if_pos rfl, subs_setSub, if_neg (fun hy => h ⟨rfl, hy⟩)]
  · rw [if_neg hjc]

theorem conf_del_curconf_zeroed (w : World) (pIdx cIdx cSub : Nat)
    (hdfd : 0 ≤ ((w.lines cIdx).subs cSub).dfd)
    (hoc : isourconf (w.lines pIdx) ((w.lines cIdx).subs cSub)) :
    (((conf_del w pIdx cIdx cSub).1.lines cIdx).subs cSub).curconf =
      ⟨0, 0⟩ := by
  rw [conf_del_exec w pIdx cIdx cSub hdfd hoc]
  simp only [setSubq_lines, eq_self_iff_true, if_true]
  rw [subs_setSub, if_pos rfl]

/- ───────── Branch lemmas for the update_conf steps ───────── -/

theorem doSub_eq_add (w : World) (pIdx x : Nat)
    (h : ((w.lines pIdx).subs x).dfd > -1 ∧
      ((w.lines pIdx).subs x).inthreeway = true) :
    doSub w pIdx x =
      ((conf_add w pIdx pIdx x x 0).1, (conf_add w pIdx pIdx x x 0).2, 1) := by
  simp only [doSub]
  rw [if_pos h]

theorem doSub_eq_del (w : World) (pIdx x : Nat)
    (h : ¬ (((w.lines pIdx).subs x).dfd > -1 ∧
      ((w.lines pIdx).subs x).inthreeway = true)) :
    doSub w pIdx x =
      ((conf_del w pIdx pIdx x).1, (conf_del w pIdx pIdx x).2, 0) := by
  simp only [doSub]
  rw [if_neg h]

theorem doSlave_none (w : World) (pIdx : Nat) (usn : Bool) (x : Nat)
    (h : (w.lines pIdx).slaves x = none) :
    doSlave w pIdx usn x = (w, 0, 0) := by
  simp only [doSlave]
  rw [h]

theorem doSlave_some_usn (w : World) (pIdx : Nat) (x s : Nat)
    (h : (w.lines pIdx).slaves x = some s) :
    doSlave w pIdx true x =
      ((conf_add w pIdx s 0 0 (GET_CHANNEL (w.lines pIdx))).1,
       (conf_add w pIdx s 0 0 (GET_CHANNEL (w.lines pIdx))).2, 0) := by
  simp only [doSlave]
  rw [h]
  simp

theorem doSlave_some_gen (w : World) (pIdx : Nat) (x s : Nat)
    (h : (w.lines pIdx).slaves x = some s) :
    doSlave w pIdx false x =
      ((conf_add w pIdx s 0 0 0).1, (conf_add w pIdx s 0 0 0).2, 1) := by
  simp only [doSlave]
  rw [h]
  simp

theorem doInconf_off (w : World) (pIdx : Nat) (usn : Bool)
    (slaveOpt : Option Nat)
    (h : ¬ ((w.lines pIdx).inconference = true ∧
      ¬ ((w.lines pIdx).subs 0).inthreeway = true)) :
    doInconf w pIdx usn slaveOpt = (w, 0, 0) := by
  simp only [doInconf]
  rw [if_neg h]

theorem doInconf_usn (w : World) (pIdx : Nat) (s : Nat)
    (h : (w.lines pIdx).inconference = true ∧
      ¬ ((w.lines pIdx).subs 0).inthreeway = true) :
    doInconf w pIdx true (some s) =
      ((conf_add w pIdx pIdx 0 0 (GET_CHANNEL (w.lines s))).1,
       (conf_add w pIdx pIdx 0 0 (GET_CHANNEL (w.lines s))).2, 0) := by
  simp only [doInconf]
  rw [if_pos h]
  simp

theorem doInconf_gen (w : World) (pIdx : Nat) (slaveOpt : Option Nat)
    (h : (w.lines pIdx).inconference = true ∧
      ¬ ((w.lines pIdx).subs 0).inthreeway = true) :
    doInconf w pIdx false slaveOpt =
      ((conf_add w pIdx pIdx 0 0 0).1, (conf_add w pIdx pIdx 0 0 0).2, 1) := by
  simp only [doInconf]
  rw [if_pos h]
  simp

theorem doMaster_none (w : World) (pIdx : Nat)
    (h : (w.lines pIdx).master = none) :
    doMaster w pIdx = (w, 0) := by
  simp only [doMaster]
  rw [h]

theorem doMaster_some_usn (w : World) (pIdx m : Nat)
    (h : (w.lines pIdx).master = some m)
    (hm : (isslavenative w m).1 = true) :
    doMaster w pIdx = conf_add w m pIdx 0 0 (GET_CHANNEL (w.lines m)) := by
  simp only [doMaster]
  rw [h]
  simp [hm]

theorem doMaster_some_gen (w : World) (pIdx m : Nat)
    (h : (w.lines pIdx).master = some m)
    (hm : (isslavenative w m).1 = false) :
    doMaster w pIdx = conf_add w m pIdx 0 0 0 := by
  simp only [doMaster]
  rw [h]
  simp [hm]

/- ───────── Shape transfer: guards are stable across reconciliation ───────── -/

theorem hasActiveThreeway_shape {p q : Pvt} (h : p.shape = q.shape) :
    hasActiveThreeway p ↔ hasActiveThreeway q := by
  obtain ⟨-, -, -, hd, ht, -, -⟩ := shape_eq_fields h
  unfold hasActiveThreeway
  constructor
  · rintro ⟨x, hx, a, b⟩
    exact ⟨x, hx, by rw [← hd x]; exact a, by rw [← ht x]; exact b⟩
  · rintro ⟨x, hx, a, b⟩
    exact ⟨x, hx, by rw [hd x]; exact a, by rw [ht x]; exact b⟩

theorem occupiedSlaves_shape {p q : Pvt} (h : p.shape = q.shape) :
    occupiedSlaves p = occupiedSlaves q := by
  obtain ⟨-, -, -, -, -, hs, -⟩ := shape_eq_fields h
  have h0 := hs 0
  have h1 := hs 1
  have h2 := hs 2
  have h3 := hs 3
  simp only [Pvt.slaves] at h0 h1 h2 h3
  unfold occupiedSlaves
  rw [h0, h1, h2, h3]

theorem isslavenative_ext {w v : World}
    (h : ∀ i, (w.lines i).shape = (v.lines i).shape) (j : Nat) :
    isslavenative w j = isslavenative v j := by
  simp only [isslavenative]
  obtain ⟨-, hlaw, -, -, -, -, -⟩ := shape_eq_fields (h j)
  rw [occupiedSlaves_shape (h j)]
  by_cases ht : hasActiveThreeway (v.lines j)
  · rw [if_pos ((hasActiveThreeway_shape (h j)).2 ht), if_pos ht]
  · rw [if_neg (fun hh => ht ((hasActiveThreeway_shape (h j)).1 hh)),
      if_neg ht]
    rcases hocc : occupiedSlaves (v.lines j) with - | ⟨s, - | ⟨t, l⟩⟩
    · rfl
    · obtain ⟨-, hlaws, -, -, -, -, -⟩ := shape_eq_fields (h s)
      simp only [hlaws, hlaw]
    · rfl

/- ───────── Frame lemmas for the four reconciliation steps ───────── -/

theorem doSub_shape (w : World) (pIdx x : Nat) (j : Nat) :
    ((doSub w pIdx x).1.lines j).shape = (w.lines j).shape := by
  by_cases h : ((w.lines pIdx).subs x).dfd > -1 ∧
      ((w.lines pIdx).subs x).inthreeway = true
  · rw [doSub_eq_add w pIdx x h]
    exact conf_add_shape w pIdx pIdx x x 0 j
  · rw [doSub_eq_del w pIdx x h]
    exact conf_del_shape w pIdx pIdx x j

theorem doSlave_shape (w : World) (pIdx : Nat) (usn : Bool) (x : Nat)
    (j : Nat) :
    ((doSlave w pIdx usn x).1.lines j).shape = (w.lines j).shape := by
  rcases hs : (w.lines pIdx).slaves x with - | s
  · rw [doSlave_none w pIdx usn x hs]
  · cases usn
    · rw [doSlave_some_gen w pIdx x s hs]
      exact conf_add_shape w pIdx s 0 0 0 j
    · rw [doSlave_some_usn w pIdx x s hs]
      exact conf_add_shape w pIdx s 0 0 _ j

theorem doInconf_shape (w : World) (pIdx : Nat) (usn : Bool)
    (slaveOpt : Option Nat) (j : Nat) :
    ((doInconf w pIdx usn slaveOpt).1.lines j).shape = (w.lines j).shape := by
  by_cases h : (w.lines pIdx).inconference = true ∧
      ¬ ((w.lines pIdx).subs 0).inthreeway = true
  · cases usn
    · rw [doInconf_gen w pIdx slaveOpt h]
      exact conf_add_shape w pIdx pIdx 0 0 0 j
    · rcases slaveOpt with - | s
      · simp only [doInconf]
        rw [if_pos h]
        simp
      · rw [doInconf_usn w pIdx s h]
        exact conf_add_shape w pIdx pIdx 0 0 _ j
  · rw [doInconf_off w pIdx usn slaveOpt h]

theorem doMaster_shape (w : World) (pIdx : Nat) (j : Nat) :
    ((doMaster w pIdx).1.lines j).shape = (w.lines j).shape := by
  rcases hm : (w.lines pIdx).master with - | m
  · rw [doMaster_none w pIdx hm]
  · cases hn : (isslavenative w m).1
    · rw [doMaster_some_gen w pIdx m hm hn]
      exact conf_add_shape w m pIdx 0 0 0 j
    · rw [doMaster_some_usn w pIdx m hm hn]
      exact conf_add_shape w m pIdx 0 0 _ j

theorem doSub_numLines (w : World) (pIdx x : Nat) :
    (doSub w pIdx x).1.numLines = w.numLines := by
  by_cases h : ((w.lines pIdx).subs x).dfd > -1 ∧
      ((w.lines pIdx).subs x).inthreeway = true
  · rw [doSub_eq_add w pIdx x h]
    exact conf_add_numLines w pIdx pIdx x x 0
  · rw [doSub_eq_del w pIdx x h]
    exact conf_del_numLines w pIdx pIdx x

theorem doSlave_numLines (w : World) (pIdx : Nat) (usn : Bool) (x : Nat) :
    (doSlave w pIdx usn x).1.numLines = w.numLines := by
  rcases hs : (w.lines pIdx).slaves x with - | s
  · rw [doSlave_none w pIdx usn x hs]
  · cases usn
    · rw [doSlave_some_gen w pIdx x s hs]
      exact conf_add_numLines w pIdx s 0 0 0
    · rw [doSlave_some_usn w pIdx x s hs]
      exact conf_add_numLines w pIdx s 0 0 _

theorem doInconf_numLines (w : World) (pIdx : Nat) (usn : Bool)
    (slaveOpt : Option Nat) :
    (doInconf w pIdx usn slaveOpt).1.numLines = w.numLines := by
  by_cases h : (w.lines pIdx).inconference = true ∧
      ¬ ((w.lines pIdx).subs 0).inthreeway = true
  · cases usn
    · rw [doInconf_gen w pIdx slaveOpt h]
      exact conf_add_numLines w pIdx pIdx 0 0 0
    · rcases slaveOpt with - | s
      · simp only [doInconf]
        rw [if_pos h]
        simp
      · rw [doInconf_usn w pIdx s h]
        exact conf_add_numLines w pIdx pIdx 0 0 _
  · rw [doInconf_off w pIdx usn slaveOpt h]

theorem doMaster_numLines (w : World) (pIdx : Nat) :
    (doMaster w pIdx).1.numLines = w.numLines := by
  rcases hm : (w.lines pIdx).master with - | m
  · rw [doMaster_none w pIdx hm]
  · cases hn : (isslavenative w m).1
    · rw [doMaster_some_gen w pIdx m hm hn]
      exact conf_add_numLines w m pIdx 0 0 0
    · rw [doMaster_some_usn w pIdx m hm hn]
      exact conf_add_numLines w m pIdx 0 0 _

theorem doSub_nextConf_mono (w : World) (pIdx x : Nat) :
    w.nextConf ≤ (doSub w pIdx x).1.nextConf := by
  by_cases h : ((w.lines pIdx).subs x).dfd > -1 ∧
      ((w.lines pIdx).subs x).inthreeway = true
  · rw [doSub_eq_add w pIdx x h]
    exact conf_add_nextConf_mono w pIdx pIdx x x 0
  · rw [doSub_eq_del w pIdx x h]
    exact le_of_eq (conf_del_nextConf w pIdx pIdx x).symm

theorem doSlave_nextConf_mono (w : World) (pIdx : Nat) (usn : Bool)
    (x : Nat) :
    w.nextConf ≤ (doSlave w pIdx usn x).1.nextConf := by
  rcases hs : (w.lines pIdx).slaves x with - | s
  · rw [doSlave_none w pIdx usn x hs]
  · cases usn
    · rw [doSlave_some_gen w pIdx x s hs]
      exact conf_add_nextConf_mono w pIdx s 0 0 0
    · rw [doSlave_some_usn w pIdx x s hs]
      exact conf_add_nextConf_mono w pIdx s 0 0 _

theorem doInconf_nextConf_mono (w : World) (pIdx : Nat) (usn : Bool)
    (slaveOpt : Option Nat) :
    w.nextConf ≤ (doInconf w pIdx usn slaveOpt).1.nextConf := by
  by_cases h : (w.lines pIdx).inconference = true ∧
      ¬ ((w.lines pIdx).subs 0).inthreeway = true
  · cases usn
    · rw [doInconf_gen w pIdx slaveOpt h]
      exact conf_add_nextConf_mono w pIdx pIdx 0 0 0
    · rcases slaveOpt with - | s
      · simp only [doInconf]
        rw [if_pos h]
        simp
      · rw [doInconf_usn w pIdx s h]
        exact conf_add_nextConf_mono w pIdx pIdx 0 0 _
  · rw [doInconf_off w pIdx usn slaveOpt h]

theorem doMaster_nextConf_mono (w : World) (pIdx : Nat) :
    w.nextConf ≤ (doMaster w pIdx).1.nextConf := by
  rcases hm : (w.lines pIdx).master with - | m
  · rw [doMaster_none w pIdx hm]
  · cases hn : (isslavenative w m).1
    · rw [doMaster_some_gen w pIdx m hm hn]
      exact conf_add_nextConf_mono w m pIdx 0 0 0
    · rw [doMaster_some_usn w pIdx m hm hn]
      exact conf_add_nextConf_mono w m pIdx 0 0 _

theorem doSub_confno_other (w : World) (pIdx x : Nat) (j : Nat)
    (hj : j ≠ pIdx) :
    ((doSub w pIdx x).1.lines j).confno = (w.lines j).confno := by
  by_cases h : ((w.lines pIdx).subs x).dfd > -1 ∧
      ((w.lines pIdx).subs x).inthreeway = true
  · rw [doSub_eq_add w pIdx x h]
    exact conf_add_confno_other w pIdx pIdx x x 0 j hj
  · rw [doSub_eq_del w pIdx x h]
    exact conf_del_confno w pIdx pIdx x j

theorem doSlave_confno_other (w : World) (pIdx : Nat) (usn : Bool) (x : Nat)
    (j : Nat) (hj : j ≠ pIdx) :
    ((doSlave w pIdx usn x).1.lines j).confno = (w.lines j).confno := by
  rcases hs : (w.lines pIdx).slaves x with - | s
  · rw [doSlave_none w pIdx usn x hs]
  · cases usn
    · rw [doSlave_some_gen w pIdx x s hs]
      exact conf_add_confno_other w pIdx s 0 0 0 j hj
    · rw [doSlave_some_usn w pIdx x s hs]
      exact conf_add_confno_other w pIdx s 0 0 _ j hj

theorem doInconf_confno_other (w : World) (pIdx : Nat) (usn : Bool)
    (slaveOpt : Option Nat) (j : Nat) (hj : j ≠ pIdx) :
    ((doInconf w pIdx usn slaveOpt).1.lines j).confno =
      (w.lines j).confno := by
  by_cases h : (w.lines pIdx).inconference = true ∧
      ¬ ((w.lines pIdx).subs 0).inthreeway = true
  · cases usn
    · rw [doInconf_gen w pIdx slaveOpt h]
      exact conf_add_confno_other w pIdx pIdx 0 0 0 j hj
    · rcases slaveOpt with - | s
      · simp only [doInconf]
        rw [if_pos h]
        simp
      · rw [doInconf_usn w pIdx s h]
        exact conf_add_confno_other w pIdx pIdx 0 0 _ j hj
  · rw [doInconf_off w pIdx usn slaveOpt h]

theorem doMaster_confno_other (w : World) (pIdx : Nat) (j : Nat)
    (hj : ∀ m, (w.lines pIdx).master = some m → j ≠ m) :
    ((doMaster w pIdx).1.lines j).confno = (w.lines j).confno := by
  rcases hm : (w.lines pIdx).master with - | m
  · rw [doMaster_none w pIdx hm]
  · cases hn : (isslavenative w m).1
    · rw [doMaster_some_gen w pIdx m hm hn]
      exact conf_add_confno_other w m pIdx 0 0 0 j (hj m hm)
    · rw [doMaster_some_usn w pIdx m hm hn]
      exact conf_add_confno_other w m pIdx 0 0 _ j (hj m hm)

theorem doSub_confno_self_stable (w : World) (pIdx x : Nat)
    (hpc : 0 ≤ (w.lines pIdx).confno) :
    ((doSub w pIdx x).1.lines pIdx).confno = (w.lines pIdx).confno := by
  by_cases h : ((w.lines pIdx).subs x).dfd > -1 ∧
      ((w.lines pIdx).subs x).inthreeway = true
  · rw [doSub_eq_add w pIdx x h]
    exact conf_add_confno_self_stable w pIdx pIdx x x 0 hpc
  · rw [doSub_eq_del w pIdx x h]
    exact conf_del_confno w pIdx pIdx x pIdx

theorem doSlave_confno_self_stable (w : World) (pIdx : Nat) (usn : Bool)
    (x : Nat) (hpc : 0 ≤ (w.lines pIdx).confno) :
    ((doSlave w pIdx usn x).1.lines pIdx).confno = (w.lines pIdx).confno := by
  rcases hs : (w.lines pIdx).slaves x with - | s
  · rw [doSlave_none w pIdx usn x hs]
  · cases usn
    · rw [doSlave_some_gen w pIdx x s hs]
      exact conf_add_confno_self_stable w pIdx s 0 0 0 hpc
    · rw [doSlave_some_usn w pIdx x s hs]
      exact conf_add_confno_self_stable w pIdx s 0 0 _ hpc

theorem doInconf_confno_self_stable (w : World) (pIdx : Nat) (usn : Bool)
    (slaveOpt : Option Nat) (hpc : 0 ≤ (w.lines pIdx).confno) :
    ((doInconf w pIdx usn slaveOpt).1.lines pIdx).confno =
      (w.lines pIdx).confno := by
  by_cases h : (w.lines pIdx).inconference = true ∧
      ¬ ((w.lines pIdx).subs 0).inthreeway = true
  · cases usn
    · rw [doInconf_gen w pIdx slaveOpt h]
      exact conf_add_confno_self_stable w pIdx pIdx 0 0 0 hpc
    · rcases slaveOpt with - | s
      · simp only [doInconf]
        rw [if_pos h]
        simp
      · rw [doInconf_usn w pIdx s h]
        exact conf_add_confno_self_stable w pIdx pIdx 0 0 _ hpc
  · rw [doInconf_off w pIdx usn slaveOpt h]

theorem doMaster_confno_self (w : World) (pIdx : Nat)
    (hmp : ∀ m, (w.lines pIdx).master = some m → pIdx ≠ m) :
    ((doMaster w pIdx).1.lines pIdx).confno = (w.lines pIdx).confno :=
  doMaster_confno_other w pIdx pIdx hmp

theorem doSub_confno_self_evol (w : World) (pIdx x : Nat) :
    ((doSub w pIdx x).1.lines pIdx).confno = (w.lines pIdx).confno ∨
      w.nextConf ≤ ((doSub w pIdx x).1.lines pIdx).confno := by
  by_cases h : ((w.lines pIdx).subs x).dfd > -1 ∧
      ((w.lines pIdx).subs x).inthreeway = true
  · rw [doSub_eq_add w pIdx x h]
    exact conf_add_confno_self_evol w pIdx pIdx x x 0
  · rw [doSub_eq_del w pIdx x h]
    exact Or.inl (conf_del_confno w pIdx pIdx x pIdx)

theorem doSlave_confno_self_evol (w : World) (pIdx : Nat) (usn : Bool)
    (x : Nat) :
    ((doSlave w pIdx usn x).1.lines pIdx).confno = (w.lines pIdx).confno ∨
      w.nextConf ≤ ((doSlave w pIdx usn x).1.lines pIdx).confno := by
  rcases hs : (w.lines pIdx).slaves x with - | s
  · rw [doSlave_none w pIdx usn x hs]
    exact Or.inl rfl
  · cases usn
    · rw [doSlave_some_gen w pIdx x s hs]
      exact conf_add_confno_self_evol w pIdx s 0 0 0
    · rw [doSlave_some_usn w pIdx x s hs]
      exact conf_add_confno_self_evol w pIdx s 0 0 _

theorem doInconf_confno_self_evol (w : World) (pIdx : Nat) (usn : Bool)
    (slaveOpt : Option Nat) :
    ((doInconf w pIdx usn slaveOpt).1.lines pIdx).confno =
        (w.lines pIdx).confno ∨
      w.nextConf ≤ ((doInconf w pIdx usn slaveOpt).1.lines pIdx).confno := by
  by_cases h : (w.lines pIdx).inconference = true ∧
      ¬ ((w.lines pIdx).subs 0).inthreeway = true
  · cases usn
    · rw [doInconf_gen w pIdx slaveOpt h]
      exact conf_add_confno_self_evol w pIdx pIdx 0 0 0
    · rcases slaveOpt with - | s
      · simp only [doInconf]
        rw [if_pos h]
        simp
      · rw [doInconf_usn w pIdx s h]
        exact conf_add_confno_self_evol w pIdx pIdx 0 0 _
  · rw [doInconf_off w pIdx usn slaveOpt h]
    exact Or.inl rfl

theorem doSub_curconf_other (w : World) (pIdx x : Nat) (j y : Nat)
    (h : ¬ (j = pIdx ∧ subIx y = subIx x)) :
    (((doSub w pIdx x).1.lines j).subs y).curconf =
      ((w.lines j).subs y).curconf := by
  by_cases hg : ((w.lines pIdx).subs x).dfd > -1 ∧
      ((w.lines pIdx).subs x).inthreeway = true
  · rw [doSub_eq_add w pIdx x hg]
    exact conf_add_curconf_other w pIdx pIdx x x 0 j y h
  · rw [doSub_eq_del w pIdx x hg]
    exact conf_del_curconf_other w pIdx pIdx x j y h

theorem doSlave_curconf_other (w : World) (pIdx : Nat) (usn : Bool)
    (x : Nat) (j y : Nat)
    (h : ∀ s, (w.lines pIdx).slaves x = some s →
      ¬ (j = s ∧ subIx y = 0)) :
    (((doSlave w pIdx usn x).1.lines j).subs y).curconf =
      ((w.lines j).subs y).curconf := by
  rcases hs : (w.lines pIdx).slaves x with - | s
  · rw [doSlave_none w pIdx usn x hs]
  · cases usn
    · rw [doSlave_some_gen w pIdx x s hs]
      exact conf_add_curconf_other w pIdx s 0 0 0 j y (h s hs)
    · rw [doSlave_some_usn w pIdx x s hs]
      exact conf_add_curconf_other w pIdx s 0 0 _ j y (h s hs)

theorem doInconf_curconf_other (w : World) (pIdx : Nat) (usn : Bool)
    (slaveOpt : Option Nat) (j y : Nat) (h : ¬ (j = pIdx ∧ subIx y = 0)) :
    (((doInconf w pIdx usn slaveOpt).1.lines j).subs y).curconf =
      ((w.lines j).subs y).curconf := by
  by_cases hg : (w.lines pIdx).inconference = true ∧
      ¬ ((w.lines pIdx).subs 0).inthreeway = true
  · cases usn
    · rw [doInconf_gen w pIdx slaveOpt hg]
      exact conf_add_curconf_other w pIdx pIdx 0 0 0 j y h
    · rcases slaveOpt with - | s
      · simp only [doInconf]
        rw [if_pos hg]
        simp
      · rw [doInconf_usn w pIdx s hg]
        exact conf_add_curconf_other w pIdx pIdx 0 0 _ j y h
  · rw [doInconf_off w pIdx usn slaveOpt hg]

theorem doMaster_curconf_other (w : World) (pIdx : Nat) (j y : Nat)
    (h : ¬ (j = pIdx ∧ subIx y = 0)) :
    (((doMaster w pIdx).1.lines j).subs y).curconf =
      ((w.lines j).subs y).curconf := by
  rcases hm : (w.lines pIdx).master with - | m
  · rw [doMaster_none w pIdx hm]
  · cases hn : (isslavenative w m).1
    · rw [doMaster_some_gen w pIdx m hm hn]
      exact conf_add_curconf_other w m pIdx 0 0 0 j y h
    · rw [doMaster_some_usn w pIdx m hm hn]
      exact conf_add_curconf_other w m pIdx 0 0 _ j y h

/-- When a line keeps its -1 conference number, writing -1 back is the
identity (used for the final needconf check). -/
theorem confnoSet_self (q : Pvt) (h : q.confno = -1) :
    ({ q with confno := -1 } : Pvt) = q := by
  cases q
  simp only at h
  simp [h]

theorem updLine_confno_self (w : World) (pIdx : Nat)
    (h : (w.lines pIdx).confno = -1) :
    w.updLine pIdx (fun q => { q with confno := -1 }) = w := by
  unfold World.updLine World.setLine
  simp only []
  rw [confnoSet_self _ h, Function.update_eq_self]

/- ───────── The allocator invariant is preserved by reconciliation ───────── -/

/-- Invariant carried through a reconciliation run: the allocator is at
least 1 and all channel, conference and programmed-conference numbers of
the first `n` lines are within allocator bounds. -/
def ConfnoWF (n : Nat) (v : World) : Prop :=
  1 ≤ v.nextConf ∧ ∀ i < n, lineWF v.nextConf (v.lines i)

theorem lineWF_mono {next next2 : Int} {p : Pvt} (h : lineWF next p)
    (hle : next ≤ next2) : lineWF next2 p := by
  obtain ⟨a, b, c, d, e⟩ := h
  exact ⟨a, by omega, c, by omega, fun x hx => ⟨(e x hx).1, by
    have := (e x hx).2; omega⟩⟩

theorem lineWF_setSub_curconf {next : Int} {p : Pvt} (h : lineWF next p)
    {x : Nat} {c : Confinfo} (hc : 0 ≤ c.confno ∧ c.confno < next) :
    lineWF next (p.setSub x { p.subs x with curconf := c }) := by
  obtain ⟨a, b, d, e, f⟩ := h
  refine ⟨by rw [setSub_channel]; exact a, by rw [setSub_channel]; exact b,
    by rw [setSub_confno]; exact d, by rw [setSub_confno]; exact e,
    fun y hy => ?_⟩
  rw [subs_setSub]
  split
  · exact hc
  · exact f y hy

theorem lineWF_confnoSet {next : Int} {p : Pvt} {v : Int} (h : lineWF next p)
    (hv : -1 ≤ v ∧ v < next) :
    lineWF next ({ p with confno := v } : Pvt) := by
  obtain ⟨a, b, d, e, f⟩ := h
  exact ⟨a, b, hv.1, hv.2, fun y hy => by
    rw [confnoSet_subs]; exact f y hy⟩

theorem conf_add_ConfnoWF (w : World) (pIdx cIdx cSub index : Nat) (sc : Int)
    (n : Nat) (hwf : ConfnoWF n w) (hp : pIdx < n)
    (hsc : sc = 0 ∨ ∃ j, j < n ∧ sc = (w.lines j).channel) :
    ConfnoWF n (conf_add w pIdx cIdx cSub index sc).1 := by
  obtain ⟨hn, hall⟩ := hwf
  by_cases h1 : ziFor (w.lines pIdx) index sc =
      ((w.lines cIdx).subs cSub).curconf
  · rw [conf_add_noop_match w pIdx cIdx cSub index sc h1]
    exact ⟨hn, hall⟩
  by_cases h2 : ((w.lines cIdx).subs cSub).dfd < 0
  · rw [conf_add_noop_dfd w pIdx cIdx cSub index sc h2]
    exact ⟨hn, hall⟩
  rw [conf_add_exec w pIdx cIdx cSub index sc h1 h2]
  have hzi : 0 ≤ (setconfIoctl w.nextConf (ziFor (w.lines pIdx) index sc)).1.confno ∧
      (setconfIoctl w.nextConf (ziFor (w.lines pIdx) index sc)).1.confno <
        (setconfIoctl w.nextConf (ziFor (w.lines pIdx) index sc)).2 ∧
      w.nextConf ≤ (setconfIoctl w.nextConf (ziFor (w.lines pIdx) index sc)).2 := by
    unfold setconfIoctl
    split
    · dsimp only []
      refine ⟨by omega, by omega, by omega⟩
    · rename_i hne
      dsimp only []
      rcases ziFor_confno (w.lines pIdx) index sc with ⟨hs, he⟩ | ⟨hs, he⟩
      · rcases hsc with hsc | ⟨j, hj, hsc⟩
        · omega
        · have := (hall j hj).1
          have := (hall j hj).2.1
          refine ⟨by omega, by omega, le_refl _⟩
      · have := (hall pIdx hp).2.2.1
        have := (hall pIdx hp).2.2.2.1
        refine ⟨by omega, by omega, le_refl _⟩
  refine ⟨?_, fun i hi => ?_⟩
  · by_cases hsc2 : sc < 1
    · simp only [if_pos hsc2]
      show 1 ≤ (setconfIoctl w.nextConf (ziFor (w.lines pIdx) index sc)).2
      omega
    · simp only [if_neg hsc2]
      show 1 ≤ (setconfIoctl w.nextConf (ziFor (w.lines pIdx) index sc)).2
      omega
  · have base := hall i hi
    have hm := lineWF_mono base hzi.2.2
    by_cases hsc2 : sc < 1
    · simp only [if_pos hsc2, setSubq_lines, updLine_lines,
        nextConfSet_lines]
      show lineWF (setconfIoctl w.nextConf (ziFor (w.lines pIdx) index sc)).2 _
      by_cases hic : i = cIdx
      · subst hic
        rw [if_pos rfl]
        by_cases hip : i = pIdx
        · subst hip
          rw [if_pos rfl]
          exact lineWF_setSub_curconf
            (lineWF_confnoSet hm ⟨by have := hzi.1; omega, hzi.2.1⟩)
            ⟨hzi.1, hzi.2.1⟩
        · rw [if_neg hip]
          exact lineWF_setSub_curconf hm ⟨hzi.1, hzi.2.1⟩
      · rw [if_neg hic]
        by_cases hip : i = pIdx
        · subst hip
          rw [if_pos rfl]
          exact lineWF_confnoSet hm ⟨by have := hzi.1; omega, hzi.2.1⟩
        · rw [if_neg hip]
          exact hm
    · simp only [if_neg hsc2, setSubq_lines, nextConfSet_lines]
      show lineWF (setconfIoctl w.nextConf (ziFor (w.lines pIdx) index sc)).2 _
      by_cases hic : i = cIdx
      · subst hic
        rw [if_pos rfl]
        exact lineWF_setSub_curconf hm ⟨hzi.1, hzi.2.1⟩
      · rw [if_neg hic]
        exact hm

theorem conf_del_ConfnoWF (w : World) (pIdx cIdx cSub : Nat) (n : Nat)
    (hwf : ConfnoWF n w) :
    ConfnoWF n (conf_del w pIdx cIdx cSub).1 := by
  obtain ⟨hn, hall⟩ := hwf
  by_cases h : ((w.lines cIdx).subs cSub).dfd < 0 ∨
      ¬ isourconf (w.lines pIdx) ((w.lines cIdx).subs cSub)
  · rw [conf_del_noop w pIdx cIdx cSub h]
    exact ⟨hn, hall⟩
  push_neg at h
  rw [conf_del_exec w pIdx cIdx cSub h.1 h.2]
  refine ⟨hn, fun i hi => ?_⟩
  have base := hall i hi
  simp only [setSubq_lines]
  show lineWF w.nextConf _
  by_cases hic : i = cIdx
  · subst hic
    rw [if_pos rfl]
    exact lineWF_setSub_curconf base ⟨le_refl 0, by
      show (0 : Int) < w.nextConf; omega⟩
  · rw [if_neg hic]
    exact base

/- ───────── isslavenative characterization ───────── -/

theorem occupiedSlaves_single {p : Pvt} {s : Nat}
    (h : occupiedSlaves p = [s]) :
    ∃ x, x < 4 ∧ p.slaves x = some s ∧
      ∀ y, y < 4 → y ≠ x → p.slaves y = none := by
  rcases p with ⟨ch, law, sig, cf, inc, pol, ow, dia, ri, s0, s1, s2, v0, v1, v2, v3, m⟩
  rcases v0 with - | a <;> rcases v1 with - | b <;> rcases v2 with - | c <;>
    rcases v3 with - | d <;> simp [occupiedSlaves] at h
  · exact ⟨3, by omega, by simp [Pvt.slaves, h], fun y hy hne => by
      interval_cases y <;> simp_all [Pvt.slaves]⟩
  · exact ⟨2, by omega, by simp [Pvt.slaves, h], fun y hy hne => by
      interval_cases y <;> simp_all [Pvt.slaves]⟩
  · exact ⟨1, by omega, by simp [Pvt.slaves, h], fun y hy hne => by
      interval_cases y <;> simp_all [Pvt.slaves]⟩
  · exact ⟨0, by omega, by simp [Pvt.slaves, h], fun y hy hne => by
      interval_cases y <;> simp_all [Pvt.slaves]⟩

theorem isslavenative_true {w : World} {pIdx : Nat} {usn : Bool}
    {sOpt : Option Nat} (h : isslavenative w pIdx = (usn, sOpt))
    (hu : usn = true) :
    ∃ s, sOpt = some s ∧ ¬ hasActiveThreeway (w.lines pIdx) ∧
      occupiedSlaves (w.lines pIdx) = [s] ∧
      (w.lines s).law = (w.lines pIdx).law := by
  subst hu
  simp only [isslavenative] at h
  by_cases ht : hasActiveThreeway (w.lines pIdx)
  · rw [if_pos ht] at h
    cases h
  · rw [if_neg ht] at h
    rcases hocc : occupiedSlaves (w.lines pIdx) with - | ⟨s, - | ⟨t, l⟩⟩ <;>
      rw [hocc] at h
    · cases h
    · by_cases hl : (w.lines s).law = (w.lines pIdx).law
      · simp [hl] at h
        exact ⟨s, h.symm, ht, rfl, hl⟩
      · simp [hl] at h
    · cases h

theorem setconf_res_nonneg {next : Int} {zi : Confinfo} (hn : 1 ≤ next)
    (h : -1 ≤ zi.confno) : 0 ≤ (setconfIoctl next zi).1.confno := by
  unfold setconfIoctl
  split
  · dsimp only []
    omega
  · rename_i hne
    dsimp only []
    omega

theorem conf_add_exec_confno_self (w : World) (pIdx cIdx cSub index : Nat)
    (sc : Int)
    (hne : ziFor (w.lines pIdx) index sc ≠ ((w.lines cIdx).subs cSub).curconf)
    (hdfd : ¬ ((w.lines cIdx).subs cSub).dfd < 0) (hsc : sc < 1) :
    ((conf_add w pIdx cIdx cSub index sc).1.lines pIdx).confno =
      (setconfIoctl w.nextConf (ziFor (w.lines pIdx) index sc)).1.confno := by
  rw [conf_add_exec w pIdx cIdx cSub index sc hne hdfd]
  simp only [if_pos hsc, setSubq_lines, updLine_lines, nextConfSet_lines]
  by_cases hpc : pIdx = cIdx
  · subst hpc
    rw [if_pos rfl, setSub_confno, if_pos rfl]
  · rw [if_neg hpc, if_true]

/-- An `update_conf` run on a Line that simultaneously joins its real
sub-channel to two different mixers keeps reprogramming the hardware on
every run (the counterexample below); this predicate excludes the two
such configurations: a line that has a master while hosting a three-way
or being in-conference, and an in-conference line merged in general
(non-slave-native) mode. -/
def mstJoinOK (inc : Bool) (s0 : Sub) : Option Nat → Prop
  | some _ => inc = false ∧ ¬ (s0.dfd > -1 ∧ s0.inthreeway = true)
  | none => True

instance (inc : Bool) (s0 : Sub) (o : Option Nat) :
    Decidable (mstJoinOK inc s0 o) := by
  cases o <;> unfold mstJoinOK <;> infer_instance

def NoForeignJoin (w : World) (pIdx : Nat) : Prop :=
  mstJoinOK (w.lines pIdx).inconference ((w.lines pIdx).subs 0)
    (w.lines pIdx).master ∧
  ((w.lines pIdx).inconference = true →
    ((w.lines pIdx).subs 0).inthreeway = false →
    (isslavenative w pIdx).1 = false →
    ((w.lines pIdx).subs 0).dfd < 0)

instance (w : World) (pIdx : Nat) : Decidable (NoForeignJoin w pIdx) := by
  unfold NoForeignJoin
  infer_instance

theorem doSub_ConfnoWF (w : World) (pIdx x : Nat) (n : Nat)
    (hwf : ConfnoWF n w) (hp : pIdx < n) :
    ConfnoWF n (doSub w pIdx x).1 := by
  by_cases h : ((w.lines pIdx).subs x).dfd > -1 ∧
      ((w.lines pIdx).subs x).inthreeway = true
  · rw [doSub_eq_add w pIdx x h]
    exact conf_add_ConfnoWF w pIdx pIdx x x 0 n hwf hp (Or.inl rfl)
  · rw [doSub_eq_del w pIdx x h]
    exact conf_del_ConfnoWF w pIdx pIdx x n hwf

theorem doSlave_ConfnoWF (w : World) (pIdx : Nat) (usn : Bool) (x : Nat)
    (n : Nat) (hwf : ConfnoWF n w) (hp : pIdx < n) :
    ConfnoWF n (doSlave w pIdx usn x).1 := by
  rcases hs : (w.lines pIdx).slaves x with - | s
  · rw [doSlave_none w pIdx usn x hs]
    exact hwf
  · cases usn
    · rw [doSlave_some_gen w pIdx x s hs]
      exact conf_add_ConfnoWF w pIdx s 0 0 0 n hwf hp (Or.inl rfl)
    · rw [doSlave_some_usn w pIdx x s hs]
      exact conf_add_ConfnoWF w pIdx s 0 0 _ n hwf hp
        (Or.inr ⟨pIdx, hp, rfl⟩)

theorem doInconf_ConfnoWF (w : World) (pIdx : Nat) (usn : Bool)
    (slaveOpt : Option Nat) (n : Nat) (hwf : ConfnoWF n w) (hp : pIdx < n)
    (hs : ∀ s, slaveOpt = some s → s < n) :
    ConfnoWF n (doInconf w pIdx usn slaveOpt).1 := by
  by_cases h : (w.lines pIdx).inconference = true ∧
      ¬ ((w.lines pIdx).subs 0).inthreeway = true
  · cases usn
    · rw [doInconf_gen w pIdx slaveOpt h]
      exact conf_add_ConfnoWF w pIdx pIdx 0 0 0 n hwf hp (Or.inl rfl)
    · rcases hso : slaveOpt with - | s
      · simp only [doInconf]
        rw [if_pos h]
        simpa using hwf
      · rw [doInconf_usn w pIdx s h]
        exact conf_add_ConfnoWF w pIdx pIdx 0 0 _ n hwf hp
          (Or.inr ⟨s, hs s hso, rfl⟩)
  · rw [doInconf_off w pIdx usn slaveOpt h]
    exact hwf

theorem doMaster_ConfnoWF (w : World) (pIdx : Nat) (n : Nat)
    (hwf : ConfnoWF n w) (hm : ∀ m, (w.lines pIdx).master = some m → m < n) :
    ConfnoWF n (doMaster w pIdx).1 := by
  rcases hmm : (w.lines pIdx).master with - | m
  · rw [doMaster_none w pIdx hmm]
    exact hwf
  · cases hn2 : (isslavenative w m).1
    · rw [doMaster_some_gen w pIdx m hmm hn2]
      exact conf_add_ConfnoWF w m pIdx 0 0 0 n hwf (hm m hmm) (Or.inl rfl)
    · rw [doMaster_some_usn w pIdx m hmm hn2]
      exact conf_add_ConfnoWF w m pIdx 0 0 _ n hwf (hm m hmm)
        (Or.inr ⟨m, hm m hmm, rfl⟩)

/-- Decomposition of one `update_conf` run into its nine steps. -/
theorem update_conf_run (w : World) (pIdx : Nat) (usn : Bool)
    (sOpt : Option Nat) (u1 u2 u3 u4 u5 u6 u7 u8 u9 : World)
    (c1 c2 c3 c4 c5 c6 c7 c8 c9 n1 n2 n3 n4 n5 n6 n7 n8 : Nat)
    (hsn : isslavenative w pIdx = (usn, sOpt))
    (h1 : doSub w pIdx 0 = (u1, c1, n1))
    (h2 : doSub u1 pIdx 1 = (u2, c2, n2))
    (h3 : doSub u2 pIdx 2 = (u3, c3, n3))
    (h4 : doSlave u3 pIdx usn 0 = (u4, c4, n4))
    (h5 : doSlave u4 pIdx usn 1 = (u5, c5, n5))
    (h6 : doSlave u5 pIdx usn 2 = (u6, c6, n6))
    (h7 : doSlave u6 pIdx usn 3 = (u7, c7, n7))
    (h8 : doInconf u7 pIdx usn sOpt = (u8, c8, n8))
    (h9 : doMaster u8 pIdx = (u9, c9)) :
    update_conf w pIdx =
      (if n1 + n2 + n3 + n4 + n5 + n6 + n7 + n8 = 0 then
         u9.updLine pIdx (fun q => { q with confno := -1 })
       else u9,
       c1 + c2 + c3 + c4 + c5 + c6 + c7 + c8 + c9) := by
  simp only [update_conf, update_conf_body, accSub, accSlave, accInconf,
    accMaster, accOf, finishConf, hsn, h1, h2, h3, h4, h5, h6, h7, h8, h9,
    Nat.zero_add]

theorem isslavenative_false {w : World} {pIdx : Nat} {usn : Bool}
    {sOpt : Option Nat} (h : isslavenative w pIdx = (usn, sOpt))
    (hu : usn = false) : sOpt = none := by
  subst hu
  simp only [isslavenative] at h
  by_cases ht : hasActiveThreeway (w.lines pIdx)
  · rw [if_pos ht] at h
    injection h with h1 h2
    exact h2.symm
  · rw [if_neg ht] at h
    rcases hocc : occupiedSlaves (w.lines pIdx) with - | ⟨s, - | ⟨t, l⟩⟩ <;>
      rw [hocc] at h
    · injection h with h1 h2
      exact h2.symm
    · by_cases hl : (w.lines s).law = (w.lines pIdx).law
      · simp [hl] at h
      · simp [hl] at h
        exact h.symm
    · injection h with h1 h2
      exact h2.symm

/- ───────── C1 counterexample ───────── -/

/-- An in-conference Line (the master of a hardware-bridged call that is
not in slave-native mode — for example after its single slave was
unlinked, or with a companding-law mismatch): real sub-channel
allocated, not in a three-way, `inconference` set. -/
def confCexPvt : Pvt :=
  { channel := 1, law := 0, sig := SIG_FXOKS, confno := -1,
    inconference := true, polarity := 0, owner := some 10, dialing := false,
    ringt := 0, sub0 := subW 3 0 (some 10) false,
    sub1 := subW (-1) 0 none false, sub2 := subW (-1) 0 none false,
    slave0 := none, slave1 := none, slave2 := none, slave3 := none,
    master := none }

/-- One-line world around `confCexPvt`. -/
def confCexW : World :=
  { numLines := 1, lines := fun _ => confCexPvt, nextConf := 2 }

/-- C1 counterexample: on this Line state the first `update_conf` issues
one `DAHDI_SETCONF` call, and the second — with no intervening state
change — issues two more rather than none: the sub-channel loop deletes
the real sub-channel from the conference it was just placed in (it is a
talker in the Line's own conference, so `isourconf` holds), and the
in-conference step adds it right back. -/
theorem update_conf_not_idempotent :
    (update_conf confCexW 0).2 = 1 ∧
    (update_conf (update_conf confCexW 0).1 0).2 = 2 := by
  decide

/- ───────── Helper lemmas for the idempotence theorem ───────── -/

theorem ziFor_sub0 (p : Pvt) : ziFor p 0 0 = ⟨p.confno, CONFMODE_REAL⟩ := by
  simp [ziFor]

theorem ziFor_aux (p : Pvt) (x : Nat) (hx : x ≠ 0) :
    ziFor p x 0 = ⟨p.confno, CONFMODE_AUX⟩ := by
  simp [ziFor, hx]

theorem ziFor_pos (p : Pvt) (i : Nat) (sc : Int) (h : 0 < sc) :
    ziFor p i sc = ⟨sc, DAHDI_CONF_DIGITALMON⟩ := by
  simp [ziFor, h]

theorem setconf_mode (next : Int) (zi : Confinfo) :
    (setconfIoctl next zi).1.confmode = zi.confmode := by
  unfold setconfIoctl
  split <;> rfl

theorem GET_CHANNEL_eq (p : Pvt) : GET_CHANNEL p = p.channel := rfl

/-- After `conf_add(p, c, index, slavechannel)` executes on an allocated
sub-channel with a non-allocating request, the sub-channel is programmed
exactly as requested (also when it already was). -/
theorem conf_add_result_cc (w : World) (pIdx cIdx cSub index : Nat) (sc : Int)
    (hdfd : ¬ ((w.lines cIdx).subs cSub).dfd < 0)
    (hna : (ziFor (w.lines pIdx) index sc).confno ≠ -1) :
    (((conf_add w pIdx cIdx cSub index sc).1.lines cIdx).subs cSub).curconf =
      ziFor (w.lines pIdx) index sc := by
  by_cases hm : ziFor (w.lines pIdx) index sc = ((w.lines cIdx).subs cSub).curconf
  · rw [conf_add_noop_match w pIdx cIdx cSub index sc hm, ← hm]
  · rw [conf_add_curconf_target w pIdx cIdx cSub index sc hm hdfd,
      setconf_no_alloc hna]

/-- A `conf_add` with a request built from line `a`'s own conference
number (index 0, or a non-real index) leaves the target programmed to
line `a`'s (possibly freshly allocated) conference number, which is
non-negative afterwards. -/
theorem conf_add_own_cc (v : World) (a b cSub index : Nat) (mode : Nat)
    (hzi : ziFor (v.lines a) index 0 = ⟨(v.lines a).confno, mode⟩)
    (hdfd : ¬ ((v.lines b).subs cSub).dfd < 0)
    (hnc : 1 ≤ v.nextConf)
    (hpcl : -1 ≤ (v.lines a).confno)
    (hcc0 : 0 ≤ (((v.lines b).subs cSub).curconf).confno) :
    (((conf_add v a b cSub index 0).1.lines b).subs cSub).curconf =
        ⟨((conf_add v a b cSub index 0).1.lines a).confno, mode⟩ ∧
      0 ≤ ((conf_add v a b cSub index 0).1.lines a).confno := by
  by_cases hm : ziFor (v.lines a) index 0 = ((v.lines b).subs cSub).curconf
  · rw [conf_add_noop_match v a b cSub index 0 hm]
    have hpc : (v.lines a).confno = (((v.lines b).subs cSub).curconf).confno :=
      (congrArg Confinfo.confno hzi).symm.trans (congrArg Confinfo.confno hm)
    constructor
    · exact hm.symm.trans hzi
    · rw [hpc]
      exact hcc0
  · have ht := conf_add_curconf_target v a b cSub index 0 hm hdfd
    have hc := conf_add_exec_confno_self v a b cSub index 0 hm hdfd
      (by norm_num)
    have hres : 0 ≤ (setconfIoctl v.nextConf
        (ziFor (v.lines a) index 0)).1.confno :=
      setconf_res_nonneg hnc
        (by rw [congrArg Confinfo.confno hzi]; exact hpcl)
    constructor
    · rw [ht, hc]
      refine Confinfo.eq_iff.2 ⟨rfl, ?_⟩
      show (setconfIoctl v.nextConf (ziFor (v.lines a) index 0)).1.confmode =
        mode
      exact (setconf_mode v.nextConf _).trans (congrArg Confinfo.confmode hzi)
    · rw [hc]
      exact hres

/-- Stepping a later slave slot in general-conference mode preserves a
slave already programmed to the line's conference. -/
theorem slv_push_doSlave (v : World) (pIdx s x : Nat)
    (hcc : ((v.lines s).subs 0).curconf =
      ⟨(v.lines pIdx).confno, CONFMODE_REAL⟩)
    (hpc : 0 ≤ (v.lines pIdx).confno) :
    (((doSlave v pIdx false x).1.lines s).subs 0).curconf =
        ⟨((doSlave v pIdx false x).1.lines pIdx).confno, CONFMODE_REAL⟩ ∧
      0 ≤ ((doSlave v pIdx false x).1.lines pIdx).confno := by
  rcases hsx : (v.lines pIdx).slaves x with - | t
  · rw [doSlave_none v pIdx false x hsx]
    exact ⟨hcc, hpc⟩
  · rw [doSlave_some_gen v pIdx x t hsx]
    by_cases hts : t = s
    · subst hts
      rw [conf_add_noop_match v pIdx t 0 0 0 (by rw [ziFor_sub0, hcc])]
      exact ⟨hcc, hpc⟩
    · refine ⟨?_, ?_⟩
      · rw [conf_add_curconf_other v pIdx t 0 0 0 s 0 (fun hc => hts hc.1.symm),
          conf_add_confno_self_stable v pIdx t 0 0 0 hpc, hcc]
      · rw [conf_add_confno_self_stable v pIdx t 0 0 0 hpc]
        exact hpc

/-- Stepping a doSub on another sub-channel index preserves a
sub-channel programmed to the line's own conference. -/
theorem own_push_doSub (v : World) (pIdx x x' : Nat)
    (hxx : subIx x ≠ subIx x') (mode : Nat)
    (hcc : ((v.lines pIdx).subs x).curconf = ⟨(v.lines pIdx).confno, mode⟩)
    (hpc : 0 ≤ (v.lines pIdx).confno) :
    (((doSub v pIdx x').1.lines pIdx).subs x).curconf =
        ⟨((doSub v pIdx x').1.lines pIdx).confno, mode⟩ ∧
      0 ≤ ((doSub v pIdx x').1.lines pIdx).confno := by
  have h1 := doSub_curconf_other v pIdx x' pIdx x (fun hc => hxx hc.2)
  have h2 := doSub_confno_self_stable v pIdx x' hpc
  exact ⟨by rw [h1, h2, hcc], by rw [h2]; exact hpc⟩

/-- Stepping the slave loop preserves a sub-channel of the line itself
programmed to the line's own conference. -/
theorem own_push_doSlave (v : World) (pIdx : Nat) (usn : Bool) (y x : Nat)
    (hsl : ∀ s, (v.lines pIdx).slaves y = some s → s ≠ pIdx) (mode : Nat)
    (hcc : ((v.lines pIdx).subs x).curconf = ⟨(v.lines pIdx).confno, mode⟩)
    (hpc : 0 ≤ (v.lines pIdx).confno) :
    (((doSlave v pIdx usn y).1.lines pIdx).subs x).curconf =
        ⟨((doSlave v pIdx usn y).1.lines pIdx).confno, mode⟩ ∧
      0 ≤ ((doSlave v pIdx usn y).1.lines pIdx).confno := by
  have h1 := doSlave_curconf_other v pIdx usn y pIdx x
    (fun s hs hc => hsl s hs hc.1.symm)
  have h2 := doSlave_confno_self_stable v pIdx usn y hpc
  exact ⟨by rw [h1, h2, hcc], by rw [h2]; exact hpc⟩

/-- Stepping the in-conference site preserves a non-real sub-channel
programmed to the line's own conference. -/
theorem own_push_doInconf (v : World) (pIdx : Nat) (usn : Bool)
    (slaveOpt : Option Nat) (x : Nat) (hx0 : subIx x ≠ 0) (mode : Nat)
    (hcc : ((v.lines pIdx).subs x).curconf = ⟨(v.lines pIdx).confno, mode⟩)
    (hpc : 0 ≤ (v.lines pIdx).confno) :
    (((doInconf v pIdx usn slaveOpt).1.lines pIdx).subs x).curconf =
        ⟨((doInconf v pIdx usn slaveOpt).1.lines pIdx).confno, mode⟩ ∧
      0 ≤ ((doInconf v pIdx usn slaveOpt).1.lines pIdx).confno := by
  have h1 := doInconf_curconf_other v pIdx usn slaveOpt pIdx x
    (fun hc => hx0 hc.2)
  have h2 := doInconf_confno_self_stable v pIdx usn slaveOpt hpc
  exact ⟨by rw [h1, h2, hcc], by rw [h2]; exact hpc⟩

/-- Stepping the master site preserves a non-real sub-channel of this
line programmed to its own conference. -/
theorem own_push_doMaster (v : World) (pIdx : Nat) (x : Nat)
    (hx0 : subIx x ≠ 0)
    (hm : ∀ m, (v.lines pIdx).master = some m → pIdx ≠ m) (mode : Nat)
    (hcc : ((v.lines pIdx).subs x).curconf = ⟨(v.lines pIdx).confno, mode⟩)
    (hpc : 0 ≤ (v.lines pIdx).confno) :
    (((doMaster v pIdx).1.lines pIdx).subs x).curconf =
        ⟨((doMaster v pIdx).1.lines pIdx).confno, mode⟩ ∧
      0 ≤ ((doMaster v pIdx).1.lines pIdx).confno := by
  have h1 := doMaster_curconf_other v pIdx pIdx x (fun hc => hx0 hc.2)
  have h2 := doMaster_confno_self v pIdx hm
  exact ⟨by rw [h1, h2, hcc], by rw [h2]; exact hpc⟩

/- ───────── C1: idempotence of the reconciliation ───────── -/

/-- C1 (amended): invoking `update_conf` a second time immediately after a
first invocation, with no intervening state change, issues no additional
`DAHDI_SETCONF` calls and leaves the world — in particular the Line's
conference state — unchanged, for every well-formed world in which the
Line does not join its real sub-channel to two mixers at once
(`NoForeignJoin`: no master while hosting an active three-way or while
in-conference, and no general-mode in-conference merge of an allocated
real sub-channel).  The counterexample above shows the side condition is
necessary: the unrestricted claim is false. -/
theorem update_conf_idempotent (w : World) (pIdx : Nat)
    (hp : pIdx < w.numLines) (hwf : WF w) (hnfj : NoForeignJoin w pIdx) :
    update_conf (update_conf w pIdx).1 pIdx = ((update_conf w pIdx).1, 0) := by
  obtain ⟨hnc1, hlineswf, hdist⟩ := hwf
  rcases hsn : isslavenative w pIdx with ⟨usn, sOpt⟩
  rcases h1 : doSub w pIdx 0 with ⟨u1, c1, n1⟩
  rcases h2 : doSub u1 pIdx 1 with ⟨u2, c2, n2⟩
  rcases h3 : doSub u2 pIdx 2 with ⟨u3, c3, n3⟩
  rcases h4 : doSlave u3 pIdx usn 0 with ⟨u4, c4, n4⟩
  rcases h5 : doSlave u4 pIdx usn 1 with ⟨u5, c5, n5⟩
  rcases h6 : doSlave u5 pIdx usn 2 with ⟨u6, c6, n6⟩
  rcases h7 : doSlave u6 pIdx usn 3 with ⟨u7, c7, n7⟩
  rcases h8 : doInconf u7 pIdx usn sOpt with ⟨u8, c8, n8⟩
  rcases h9 : doMaster u8 pIdx with ⟨u9, c9⟩
  have hrun1 := update_conf_run w pIdx usn sOpt u1 u2 u3 u4 u5 u6 u7 u8 u9
    c1 c2 c3 c4 c5 c6 c7 c8 c9 n1 n2 n3 n4 n5 n6 n7 n8
    hsn h1 h2 h3 h4 h5 h6 h7 h8 h9
  have e1 : (doSub w pIdx 0).1 = u1 := by rw [h1]
  have e2 : (doSub u1 pIdx 1).1 = u2 := by rw [h2]
  have e3 : (doSub u2 pIdx 2).1 = u3 := by rw [h3]
  have e4 : (doSlave u3 pIdx usn 0).1 = u4 := by rw [h4]
  have e5 : (doSlave u4 pIdx usn 1).1 = u5 := by rw [h5]
  have e6 : (doSlave u5 pIdx usn 2).1 = u6 := by rw [h6]
  have e7 : (doSlave u6 pIdx usn 3).1 = u7 := by rw [h7]
  have e8 : (doInconf u7 pIdx usn sOpt).1 = u8 := by rw [h8]
  have e9 : (doMaster u8 pIdx).1 = u9 := by rw [h9]
  -- shape of every line is untouched by the whole run
  have s1 : ∀ j, (u1.lines j).shape = (w.lines j).shape :=
    fun j => e1 ▸ doSub_shape w pIdx 0 j
  have s2 : ∀ j, (u2.lines j).shape = (w.lines j).shape :=
    fun j => (e2 ▸ doSub_shape u1 pIdx 1 j).trans (s1 j)
  have s3 : ∀ j, (u3.lines j).shape = (w.lines j).shape :=
    fun j => (e3 ▸ doSub_shape u2 pIdx 2 j).trans (s2 j)
  have s4 : ∀ j, (u4.lines j).shape = (w.lines j).shape :=
    fun j => (e4 ▸ doSlave_shape u3 pIdx usn 0 j).trans (s3 j)
  have s5 : ∀ j, (u5.lines j).shape = (w.lines j).shape :=
    fun j => (e5 ▸ doSlave_shape u4 pIdx usn 1 j).trans (s4 j)
  have s6 : ∀ j, (u6.lines j).shape = (w.lines j).shape :=
    fun j => (e6 ▸ doSlave_shape u5 pIdx usn 2 j).trans (s5 j)
  have s7 : ∀ j, (u7.lines j).shape = (w.lines j).shape :=
    fun j => (e7 ▸ doSlave_shape u6 pIdx usn 3 j).trans (s6 j)
  have s8 : ∀ j, (u8.lines j).shape = (w.lines j).shape :=
    fun j => (e8 ▸ doInconf_shape u7 pIdx usn sOpt j).trans (s7 j)
  have s9 : ∀ j, (u9.lines j).shape = (w.lines j).shape :=
    fun j => (e9 ▸ doMaster_shape u8 pIdx j).trans (s8 j)
  -- allocator invariant along the run
  have cw0 : ConfnoWF w.numLines w := ⟨hnc1, fun i hi => (hlineswf i hi).1⟩
  have cw1 : ConfnoWF w.numLines u1 := e1 ▸ doSub_ConfnoWF w pIdx 0 _ cw0 hp
  have cw2 : ConfnoWF w.numLines u2 := e2 ▸ doSub_ConfnoWF u1 pIdx 1 _ cw1 hp
  have cw3 : ConfnoWF w.numLines u3 := e3 ▸ doSub_ConfnoWF u2 pIdx 2 _ cw2 hp
  have cw4 : ConfnoWF w.numLines u4 :=
    e4 ▸ doSlave_ConfnoWF u3 pIdx usn 0 _ cw3 hp
  have cw5 : ConfnoWF w.numLines u5 :=
    e5 ▸ doSlave_ConfnoWF u4 pIdx usn 1 _ cw4 hp
  have cw6 : ConfnoWF w.numLines u6 :=
    e6 ▸ doSlave_ConfnoWF u5 pIdx usn 2 _ cw5 hp
  have cw7 : ConfnoWF w.numLines u7 :=
    e7 ▸ doSlave_ConfnoWF u6 pIdx usn 3 _ cw6 hp
  have hsOptB : ∀ s, sOpt = some s → s < w.numLines ∧ s ≠ pIdx := by
    intro s hs
    cases husn : usn
    · rw [isslavenative_false hsn husn] at hs
      cases hs
    · obtain ⟨s2, hs2, -, hocc, -⟩ := isslavenative_true hsn husn
      rw [hs2] at hs
      injection hs with hss
      subst hss
      obtain ⟨x, hx4, hxs, -⟩ := occupiedSlaves_single hocc
      exact refOK_some ((hlineswf pIdx hp).2.1 x hx4) hxs
  have cw8 : ConfnoWF w.numLines u8 :=
    e8 ▸ doInconf_ConfnoWF u7 pIdx usn sOpt _ cw7 hp
      (fun s hs => (hsOptB s hs).1)
  have hmst8 : (u8.lines pIdx).master = (w.lines pIdx).master :=
    (shape_eq_fields (s8 pIdx)).2.2.2.2.2.2
  have hmB : ∀ m, (w.lines pIdx).master = some m →
      m < w.numLines ∧ m ≠ pIdx :=
    fun m hm => refOK_some (hlineswf pIdx hp).2.2 hm
  have cw9 : ConfnoWF w.numLines u9 :=
    e9 ▸ doMaster_ConfnoWF u8 pIdx _ cw8
      (fun m hm => (hmB m (hmst8 ▸ hm)).1)
  -- the world after the first run
  set w1 := (update_conf w pIdx).1 with hw1def
  have hw1c : w1 = (if n1 + n2 + n3 + n4 + n5 + n6 + n7 + n8 = 0 then
      u9.updLine pIdx (fun q => { q with confno := -1 }) else u9) := by
    rw [hw1def, hrun1]
  have sF : ∀ j, (w1.lines j).shape = (w.lines j).shape := by
    intro j
    rw [hw1c]
    by_cases hz : n1 + n2 + n3 + n4 + n5 + n6 + n7 + n8 = 0
    · rw [if_pos hz]
      simp only [updLine_lines]
      by_cases hj : j = pIdx
      · subst hj
        rw [if_pos rfl]
        exact (shape_confnoSet _ _).trans (s9 j)
      · rw [if_neg hj]
        exact s9 j
    · rw [if_neg hz]
      exact s9 j
  have cwF : ConfnoWF w.numLines w1 := by
    rw [hw1c]
    by_cases hz : n1 + n2 + n3 + n4 + n5 + n6 + n7 + n8 = 0
    · rw [if_pos hz]
      obtain ⟨ha, hb⟩ := cw9
      refine ⟨ha, fun i hi => ?_⟩
      simp only [updLine_lines]
      by_cases hj : i = pIdx
      · subst hj
        rw [if_pos rfl]
        exact lineWF_confnoSet (hb i hi)
          ⟨le_refl (-1), by show (-1 : Int) < u9.nextConf; omega⟩
      · rw [if_neg hj]
        exact hb i hi
    · rw [if_neg hz]
      exact cw9
  have hsnF : isslavenative w1 pIdx = (usn, sOpt) :=
    (isslavenative_ext sF pIdx).trans hsn
  -- field-level stability of every line across the first run
  have hch : ∀ j, (w1.lines j).channel = (w.lines j).channel :=
    fun j => (shape_eq_fields (sF j)).1
  have hincF : (w1.lines pIdx).inconference = (w.lines pIdx).inconference :=
    (shape_eq_fields (sF pIdx)).2.2.1
  have hdfdF : ∀ j x, ((w1.lines j).subs x).dfd = ((w.lines j).subs x).dfd :=
    fun j x => (shape_eq_fields (sF j)).2.2.2.1 x
  have htwF : ∀ j x, ((w1.lines j).subs x).inthreeway =
      ((w.lines j).subs x).inthreeway :=
    fun j x => (shape_eq_fields (sF j)).2.2.2.2.1 x
  have hslvF : ∀ x, (w1.lines pIdx).slaves x = (w.lines pIdx).slaves x :=
    fun x => (shape_eq_fields (sF pIdx)).2.2.2.2.2.1 x
  have hmstF : (w1.lines pIdx).master = (w.lines pIdx).master :=
    (shape_eq_fields (sF pIdx)).2.2.2.2.2.2
  obtain ⟨hch1, hchN, hpcm1, hpcN, hccB⟩ := (hlineswf pIdx hp).1
  have hslvB : ∀ y, y < 4 → ∀ s, (w.lines pIdx).slaves y = some s →
      s < w.numLines ∧ s ≠ pIdx :=
    fun y hy s hs => refOK_some ((hlineswf pIdx hp).2.1 y hy) hs
  have hsl4 : ∀ s, (u3.lines pIdx).slaves 0 = some s →
      s < w.numLines ∧ s ≠ pIdx :=
    fun s hs => hslvB 0 (by omega) s
      (((shape_eq_fields (s3 pIdx)).2.2.2.2.2.1 0) ▸ hs)
  have hsl5 : ∀ s, (u4.lines pIdx).slaves 1 = some s →
      s < w.numLines ∧ s ≠ pIdx :=
    fun s hs => hslvB 1 (by omega) s
      (((shape_eq_fields (s4 pIdx)).2.2.2.2.2.1 1) ▸ hs)
  have hsl6 : ∀ s, (u5.lines pIdx).slaves 2 = some s →
      s < w.numLines ∧ s ≠ pIdx :=
    fun s hs => hslvB 2 (by omega) s
      (((shape_eq_fields (s5 pIdx)).2.2.2.2.2.1 2) ▸ hs)
  have hsl7 : ∀ s, (u6.lines pIdx).slaves 3 = some s →
      s < w.numLines ∧ s ≠ pIdx :=
    fun s hs => hslvB 3 (by omega) s
      (((shape_eq_fields (s6 pIdx)).2.2.2.2.2.1 3) ▸ hs)
  -- allocator monotonicity along the first run
  have M1 : w.nextConf ≤ u1.nextConf := e1 ▸ doSub_nextConf_mono w pIdx 0
  have M2 : u1.nextConf ≤ u2.nextConf := e2 ▸ doSub_nextConf_mono u1 pIdx 1
  have M3 : u2.nextConf ≤ u3.nextConf := e3 ▸ doSub_nextConf_mono u2 pIdx 2
  have M4 : u3.nextConf ≤ u4.nextConf :=
    e4 ▸ doSlave_nextConf_mono u3 pIdx usn 0
  have M5 : u4.nextConf ≤ u5.nextConf :=
    e5 ▸ doSlave_nextConf_mono u4 pIdx usn 1
  have M6 : u5.nextConf ≤ u6.nextConf :=
    e6 ▸ doSlave_nextConf_mono u5 pIdx usn 2
  have M7 : u6.nextConf ≤ u7.nextConf :=
    e7 ▸ doSlave_nextConf_mono u6 pIdx usn 3
  have M8 : u7.nextConf ≤ u8.nextConf :=
    e8 ▸ doInconf_nextConf_mono u7 pIdx usn sOpt
  -- evolution of the line's conference number along the first run
  have E1 : (u1.lines pIdx).confno = (w.lines pIdx).confno ∨
      w.nextConf ≤ (u1.lines pIdx).confno :=
    e1 ▸ doSub_confno_self_evol w pIdx 0
  have E2 : (u2.lines pIdx).confno = (u1.lines pIdx).confno ∨
      u1.nextConf ≤ (u2.lines pIdx).confno :=
    e2 ▸ doSub_confno_self_evol u1 pIdx 1
  have E3 : (u3.lines pIdx).confno = (u2.lines pIdx).confno ∨
      u2.nextConf ≤ (u3.lines pIdx).confno :=
    e3 ▸ doSub_confno_self_evol u2 pIdx 2
  have E4 : (u4.lines pIdx).confno = (u3.lines pIdx).confno ∨
      u3.nextConf ≤ (u4.lines pIdx).confno :=
    e4 ▸ doSlave_confno_self_evol u3 pIdx usn 0
  have E5 : (u5.lines pIdx).confno = (u4.lines pIdx).confno ∨
      u4.nextConf ≤ (u5.lines pIdx).confno :=
    e5 ▸ doSlave_confno_self_evol u4 pIdx usn 1
  have E6 : (u6.lines pIdx).confno = (u5.lines pIdx).confno ∨
      u5.nextConf ≤ (u6.lines pIdx).confno :=
    e6 ▸ doSlave_confno_self_evol u5 pIdx usn 2
  have E7 : (u7.lines pIdx).confno = (u6.lines pIdx).confno ∨
      u6.nextConf ≤ (u7.lines pIdx).confno :=
    e7 ▸ doSlave_confno_self_evol u6 pIdx usn 3
  have E8 : (u8.lines pIdx).confno = (u7.lines pIdx).confno ∨
      u7.nextConf ≤ (u8.lines pIdx).confno :=
    e8 ▸ doInconf_confno_self_evol u7 pIdx usn sOpt
  have hv8_6 : (u8.lines pIdx).confno = (u6.lines pIdx).confno ∨
      u6.nextConf ≤ (u8.lines pIdx).confno := by
    rcases E8 with h | h
    · rcases E7 with h' | h'
      · exact Or.inl (h.trans h')
      · exact Or.inr (h.symm ▸ h')
    · exact Or.inr (le_trans M7 h)
  have hv8_5 : (u8.lines pIdx).confno = (u5.lines pIdx).confno ∨
      u5.nextConf ≤ (u8.lines pIdx).confno := by
    rcases hv8_6 with h | h
    · rcases E6 with h' | h'
      · exact Or.inl (h.trans h')
      · exact Or.inr (h.symm ▸ h')
    · exact Or.inr (le_trans M6 h)
  have hv8_4 : (u8.lines pIdx).confno = (u4.lines pIdx).confno ∨
      u4.nextConf ≤ (u8.lines pIdx).confno := by
    rcases hv8_5 with h | h
    · rcases E5 with h' | h'
      · exact Or.inl (h.trans h')
      · exact Or.inr (h.symm ▸ h')
    · exact Or.inr (le_trans M5 h)
  have hv8_3 : (u8.lines pIdx).confno = (u3.lines pIdx).confno ∨
      u3.nextConf ≤ (u8.lines pIdx).confno := by
    rcases hv8_4 with h | h
    · rcases E4 with h' | h'
      · exact Or.inl (h.trans h')
      · exact Or.inr (h.symm ▸ h')
    · exact Or.inr (le_trans M4 h)
  have hv8_2 : (u8.lines pIdx).confno = (u2.lines pIdx).confno ∨
      u2.nextConf ≤ (u8.lines pIdx).confno := by
    rcases hv8_3 with h | h
    · rcases E3 with h' | h'
      · exact Or.inl (h.trans h')
      · exact Or.inr (h.symm ▸ h')
    · exact Or.inr (le_trans M3 h)
  have hv8_1 : (u8.lines pIdx).confno = (u1.lines pIdx).confno ∨
      u1.nextConf ≤ (u8.lines pIdx).confno := by
    rcases hv8_2 with h | h
    · rcases E2 with h' | h'
      · exact Or.inl (h.trans h')
      · exact Or.inr (h.symm ▸ h')
    · exact Or.inr (le_trans M2 h)
  have hv8_0 : (u8.lines pIdx).confno = (w.lines pIdx).confno ∨
      w.nextConf ≤ (u8.lines pIdx).confno := by
    rcases hv8_1 with h | h
    · rcases E1 with h' | h'
      · exact Or.inl (h.trans h')
      · exact Or.inr (h.symm ▸ h')
    · exact Or.inr (le_trans M1 h)
  -- other lines keep their conference number through the first eight steps
  have hco8 : ∀ j, j ≠ pIdx → (u8.lines j).confno = (w.lines j).confno := by
    intro j hj
    rw [← e8, doInconf_confno_other u7 pIdx usn sOpt j hj,
      ← e7, doSlave_confno_other u6 pIdx usn 3 j hj,
      ← e6, doSlave_confno_other u5 pIdx usn 2 j hj,
      ← e5, doSlave_confno_other u4 pIdx usn 1 j hj,
      ← e4, doSlave_confno_other u3 pIdx usn 0 j hj,
      ← e3, doSub_confno_other u2 pIdx 2 j hj,
      ← e2, doSub_confno_other u1 pIdx 1 j hj,
      ← e1, doSub_confno_other w pIdx 0 j hj]
  have hpc9 : (u9.lines pIdx).confno = (u8.lines pIdx).confno :=
    e9 ▸ doMaster_confno_other u8 pIdx pIdx
      (fun m hm => ((hmB m (hmst8 ▸ hm)).2).symm)
  -- transfers from the run's end to the recorded world `w1`
  have hccF : ∀ j y, ((w1.lines j).subs y).curconf =
      ((u9.lines j).subs y).curconf := by
    intro j y
    rw [hw1c]
    by_cases hz : n1 + n2 + n3 + n4 + n5 + n6 + n7 + n8 = 0
    · rw [if_pos hz]
      simp only [updLine_lines]
      by_cases hj : j = pIdx
      · subst hj
        rw [if_pos rfl]
        exact congrArg Sub.curconf (confnoSet_subs (u9.lines j) (-1) y)
      · rw [if_neg hj]
    · rw [if_neg hz]
  have hpcFn : ¬ (n1 + n2 + n3 + n4 + n5 + n6 + n7 + n8 = 0) →
      (w1.lines pIdx).confno = (u8.lines pIdx).confno := by
    intro hz
    rw [hw1c, if_neg hz, hpc9]
  have hpcF0 : n1 + n2 + n3 + n4 + n5 + n6 + n7 + n8 = 0 →
      (w1.lines pIdx).confno = -1 := by
    intro hz
    rw [hw1c, if_pos hz]
    simp only [updLine_lines]
    rw [if_true]
  have hpcO : ∀ j, j ≠ pIdx → (w1.lines j).confno = (u9.lines j).confno := by
    intro j hj
    rw [hw1c]
    by_cases hz : n1 + n2 + n3 + n4 + n5 + n6 + n7 + n8 = 0
    · rw [if_pos hz]
      simp only [updLine_lines]
      rw [if_neg hj]
    · rw [if_neg hz]
  have O189 : doSub w1 pIdx 0 = (w1, 0, n1) ∧
      doInconf w1 pIdx usn sOpt = (w1, 0, n8) ∧
      doMaster w1 pIdx = (w1, 0) := by
    by_cases hg0 : ((w.lines pIdx).subs 0).dfd > -1 ∧
        ((w.lines pIdx).subs 0).inthreeway = true
    · -- the real sub-channel is in an active three-way
      obtain ⟨hg0a, hg0b⟩ := hg0
      have hmnone : (w.lines pIdx).master = none := by
        rcases hmc : (w.lines pIdx).master with - | m
        · rfl
        · have hq := hnfj.1
          rw [hmc] at hq
          exact absurd ⟨hg0a, hg0b⟩ hq.2
      rw [doSub_eq_add w pIdx 0 ⟨hg0a, hg0b⟩] at h1
      have hu1 : (conf_add w pIdx pIdx 0 0 0).1 = u1 :=
        congrArg (fun t => t.1) h1
      have hn1 : (1 : Nat) = n1 := congrArg (fun t => t.2.2) h1
      have hJ1 : ((u1.lines pIdx).subs 0).curconf =
          ⟨(u1.lines pIdx).confno, CONFMODE_REAL⟩ ∧
          0 ≤ (u1.lines pIdx).confno := by
        have hq := conf_add_own_cc w pIdx pIdx 0 0 CONFMODE_REAL
          (ziFor_sub0 (w.lines pIdx))
          (by omega) hnc1 hpcm1 ((hccB 0 (by omega)).1)
        rw [hu1] at hq
        exact hq
      have hJ2 := own_push_doSub u1 pIdx 0 1 (by decide) CONFMODE_REAL
        hJ1.1 hJ1.2
      rw [e2] at hJ2
      have hJ3 := own_push_doSub u2 pIdx 0 2 (by decide) CONFMODE_REAL
        hJ2.1 hJ2.2
      rw [e3] at hJ3
      have hJ4 := own_push_doSlave u3 pIdx usn 0 0 (fun s hs => (hsl4 s hs).2)
        CONFMODE_REAL hJ3.1 hJ3.2
      rw [e4] at hJ4
      have hJ5 := own_push_doSlave u4 pIdx usn 1 0 (fun s hs => (hsl5 s hs).2)
        CONFMODE_REAL hJ4.1 hJ4.2
      rw [e5] at hJ5
      have hJ6 := own_push_doSlave u5 pIdx usn 2 0 (fun s hs => (hsl6 s hs).2)
        CONFMODE_REAL hJ5.1 hJ5.2
      rw [e6] at hJ6
      have hJ7 := own_push_doSlave u6 pIdx usn 3 0 (fun s hs => (hsl7 s hs).2)
        CONFMODE_REAL hJ6.1 hJ6.2
      rw [e7] at hJ7
      have htw7 : ((u7.lines pIdx).subs 0).inthreeway = true := by
        rw [(shape_eq_fields (s7 pIdx)).2.2.2.2.1 0]
        exact hg0b
      have h8' := (doInconf_off u7 pIdx usn sOpt
        (fun hcon => hcon.2 htw7)).symm.trans h8
      have hu87 : u7 = u8 := congrArg (fun t => t.1) h8'
      have hn8 : (0 : Nat) = n8 := congrArg (fun t => t.2.2) h8'
      have hm8 : (u8.lines pIdx).master = none := by
        rw [hmst8, hmnone]
      have h9' := (doMaster_none u8 pIdx hm8).symm.trans h9
      have hu98 : u8 = u9 := congrArg (fun t => t.1) h9'
      have hnz : ¬ (n1 + n2 + n3 + n4 + n5 + n6 + n7 + n8 = 0) := by omega
      have hccw1 : ((w1.lines pIdx).subs 0).curconf =
          ⟨(w1.lines pIdx).confno, CONFMODE_REAL⟩ := by
        rw [hccF pIdx 0, hpcFn hnz, ← hu98, ← hu87, hJ7.1]
      refine ⟨?_, ?_, ?_⟩
      · have hg' : ((w1.lines pIdx).subs 0).dfd > -1 ∧
            ((w1.lines pIdx).subs 0).inthreeway = true := by
          rw [hdfdF pIdx 0, htwF pIdx 0]
          exact ⟨hg0a, hg0b⟩
        rw [doSub_eq_add w1 pIdx 0 hg',
          conf_add_noop_match w1 pIdx pIdx 0 0 0
            (by rw [ziFor_sub0, hccw1]), ← hn1]
      · rw [doInconf_off w1 pIdx usn sOpt
          (fun hcon => hcon.2 (by rw [htwF pIdx 0]; exact hg0b)), ← hn8]
      · rw [doMaster_none w1 pIdx (by rw [hmstF, hmnone])]
    · -- the real sub-channel is torn down at the first site
      rw [doSub_eq_del w pIdx 0 hg0] at h1
      have hu1 : (conf_del w pIdx pIdx 0).1 = u1 := congrArg (fun t => t.1) h1
      have hn1 : (0 : Nat) = n1 := congrArg (fun t => t.2.2) h1
      have hg0' : ¬ (((w1.lines pIdx).subs 0).dfd > -1 ∧
          ((w1.lines pIdx).subs 0).inthreeway = true) := by
        rw [hdfdF pIdx 0, htwF pIdx 0]
        exact hg0
      by_cases hdfd0 : ((w.lines pIdx).subs 0).dfd < 0
      · -- unallocated real sub-channel: every site skips its ioctl
        refine ⟨?_, ?_, ?_⟩
        · rw [doSub_eq_del w1 pIdx 0 hg0',
            conf_del_noop w1 pIdx pIdx 0
              (Or.inl (by rw [hdfdF pIdx 0]; exact hdfd0)), ← hn1]
        · by_cases hgi : (w.lines pIdx).inconference = true ∧
              ¬ ((w.lines pIdx).subs 0).inthreeway = true
          · have hgi7 : (u7.lines pIdx).inconference = true ∧
                ¬ ((u7.lines pIdx).subs 0).inthreeway = true := by
              rw [(shape_eq_fields (s7 pIdx)).2.2.1,
                (shape_eq_fields (s7 pIdx)).2.2.2.2.1 0]
              exact hgi
            have hgiw : (w1.lines pIdx).inconference = true ∧
                ¬ ((w1.lines pIdx).subs 0).inthreeway = true := by
              rw [hincF, htwF pIdx 0]
              exact hgi
            cases usn with
            | false =>
              rw [doInconf_gen u7 pIdx sOpt hgi7,
                conf_add_noop_dfd u7 pIdx pIdx 0 0 0
                  (by rw [(shape_eq_fields (s7 pIdx)).2.2.2.1 0]
                      exact hdfd0)] at h8
              have hn8 : (1 : Nat) = n8 := congrArg (fun t => t.2.2) h8
              rw [doInconf_gen w1 pIdx sOpt hgiw,
                conf_add_noop_dfd w1 pIdx pIdx 0 0 0
                  (by rw [hdfdF pIdx 0]; exact hdfd0), ← hn8]
            | true =>
              obtain ⟨s, hsopt, -, -, -⟩ := isslavenative_true hsn rfl
              subst hsopt
              rw [doInconf_usn u7 pIdx s hgi7,
                conf_add_noop_dfd u7 pIdx pIdx 0 0 _
                  (by rw [(shape_eq_fields (s7 pIdx)).2.2.2.1 0]
                      exact hdfd0)] at h8
              have hn8 : (0 : Nat) = n8 := congrArg (fun t => t.2.2) h8
              rw [doInconf_usn w1 pIdx s hgiw,
                conf_add_noop_dfd w1 pIdx pIdx 0 0 _
                  (by rw [hdfdF pIdx 0]; exact hdfd0), ← hn8]
          · have h8' := (doInconf_off u7 pIdx usn sOpt
              (fun hcon => hgi ⟨((shape_eq_fields (s7 pIdx)).2.2.1) ▸ hcon.1,
                ((shape_eq_fields (s7 pIdx)).2.2.2.2.1 0) ▸ hcon.2⟩)).symm.trans
              h8
            have hn8 : (0 : Nat) = n8 := congrArg (fun t => t.2.2) h8'
            rw [doInconf_off w1 pIdx usn sOpt
              (fun hcon => hgi ⟨hincF ▸ hcon.1, (htwF pIdx 0) ▸ hcon.2⟩),
              ← hn8]
        · rcases hmc : (w.lines pIdx).master with - | m
          · rw [doMaster_none w1 pIdx (by rw [hmstF, hmc])]
          · have hm1 : (w1.lines pIdx).master = some m := by
              rw [hmstF, hmc]
            cases hms : (isslavenative w m).1 with
            | false =>
              rw [doMaster_some_gen w1 pIdx m hm1
                  (by rw [isslavenative_ext sF m]; exact hms),
                conf_add_noop_dfd w1 m pIdx 0 0 0
                  (by rw [hdfdF pIdx 0]; exact hdfd0)]
            | true =>
              rw [doMaster_some_usn w1 pIdx m hm1
                  (by rw [isslavenative_ext sF m]; exact hms),
                conf_add_noop_dfd w1 m pIdx 0 0 _
                  (by rw [hdfdF pIdx 0]; exact hdfd0)]
      · -- allocated real sub-channel, not flagged in-three-way
        have htw0f : ((w.lines pIdx).subs 0).inthreeway = false := by
          cases htw : ((w.lines pIdx).subs 0).inthreeway
          · rfl
          · exact absurd ⟨by omega, htw⟩ hg0
        by_cases hic : (w.lines pIdx).inconference = true
        · -- in conference: the run must be slave-native by NoForeignJoin
          have hmnone : (w.lines pIdx).master = none := by
            rcases hmc : (w.lines pIdx).master with - | m
            · rfl
            · have hq := hnfj.1
              rw [hmc] at hq
              rw [hq.1] at hic
              exact Bool.noConfusion hic
          cases usn with
          | false =>
            have hq := hnfj.2 hic htw0f (by rw [hsn])
            exact absurd hq hdfd0
          | true =>
            obtain ⟨s, hsopt, hntw, hocc, hlaw⟩ := isslavenative_true hsn rfl
            subst hsopt
            have hsB := hsOptB s rfl
            have hgi7 : (u7.lines pIdx).inconference = true ∧
                ¬ ((u7.lines pIdx).subs 0).inthreeway = true := by
              rw [(shape_eq_fields (s7 pIdx)).2.2.1,
                (shape_eq_fields (s7 pIdx)).2.2.2.2.1 0, htw0f]
              exact ⟨hic, by decide⟩
            rw [doInconf_usn u7 pIdx s hgi7] at h8
            have hu8 : (conf_add u7 pIdx pIdx 0 0
                (GET_CHANNEL (u7.lines s))).1 = u8 :=
              congrArg (fun t => t.1) h8
            have hn8 : (0 : Nat) = n8 := congrArg (fun t => t.2.2) h8
            have hch7s : (u7.lines s).channel = (w.lines s).channel :=
              (shape_eq_fields (s7 s)).1
            obtain ⟨hsc1, hsc2, hsc3, hsc4, hsc5⟩ := (hlineswf s hsB.1).1
            have hzi8 : ziFor (u7.lines pIdx) 0 (GET_CHANNEL (u7.lines s)) =
                ⟨(w.lines s).channel, DAHDI_CONF_DIGITALMON⟩ := by
              rw [GET_CHANNEL_eq,
                ziFor_pos (u7.lines pIdx) 0 _ (by rw [hch7s]; omega), hch7s]
            have hcc8 : ((u8.lines pIdx).subs 0).curconf =
                ⟨(w.lines s).channel, DAHDI_CONF_DIGITALMON⟩ := by
              rw [← hu8, conf_add_result_cc u7 pIdx pIdx 0 0 _
                (by rw [(shape_eq_fields (s7 pIdx)).2.2.2.1 0]; exact hdfd0)
                (by rw [hzi8]
                    show (w.lines s).channel ≠ -1
                    omega), hzi8]
            have hm8 : (u8.lines pIdx).master = none := by
              rw [hmst8, hmnone]
            have h9' := (doMaster_none u8 pIdx hm8).symm.trans h9
            have hu98 : u8 = u9 := congrArg (fun t => t.1) h9'
            have hccw1 : ((w1.lines pIdx).subs 0).curconf =
                ⟨(w.lines s).channel, DAHDI_CONF_DIGITALMON⟩ := by
              rw [hccF pIdx 0, ← hu98, hcc8]
            have hchd := (hdist pIdx hp s hsB.1 (Ne.symm hsB.2)).1
            refine ⟨?_, ?_, ?_⟩
            · rw [doSub_eq_del w1 pIdx 0 hg0']
              have hnio : ¬ isourconf (w1.lines pIdx)
                  ((w1.lines pIdx).subs 0) := by
                intro hoc
                simp only [isourconf] at hoc
                rcases hoc with ⟨hA, hB⟩ | ⟨hA, hB, hC⟩
                · rw [hccw1, hch pIdx] at hA
                  exact hchd hA
                · rw [hccw1] at hC
                  exact hC (show DAHDI_CONF_DIGITALMON &&& DAHDI_CONF_TALKER
                    = 0 by decide)
              rw [conf_del_noop w1 pIdx pIdx 0 (Or.inr hnio), ← hn1]
            · have hgiw : (w1.lines pIdx).inconference = true ∧
                  ¬ ((w1.lines pIdx).subs 0).inthreeway = true := by
                rw [hincF, htwF pIdx 0, htw0f]
                exact ⟨hic, by decide⟩
              rw [doInconf_usn w1 pIdx s hgiw,
                conf_add_noop_match w1 pIdx pIdx 0 0 _
                  (by rw [GET_CHANNEL_eq,
                      ziFor_pos (w1.lines pIdx) 0 _ (by rw [hch s]; omega),
                      hch s, hccw1]),
                ← hn8]
            · rw [doMaster_none w1 pIdx (by rw [hmstF, hmnone])]
        · -- not in conference: only a master can rewrite the real sub
          have h8' := (doInconf_off u7 pIdx usn sOpt
            (fun hcon => hic
              (((shape_eq_fields (s7 pIdx)).2.2.1) ▸ hcon.1))).symm.trans h8
          have hu87 : u7 = u8 := congrArg (fun t => t.1) h8'
          have hn8 : (0 : Nat) = n8 := congrArg (fun t => t.2.2) h8'
          have hP71 : ((u7.lines pIdx).subs 0).curconf =
              ((u1.lines pIdx).subs 0).curconf := by
            rw [← e7, doSlave_curconf_other u6 pIdx usn 3 pIdx 0
                (fun s hs hc => (hsl7 s hs).2 hc.1.symm),
              ← e6, doSlave_curconf_other u5 pIdx usn 2 pIdx 0
                (fun s hs hc => (hsl6 s hs).2 hc.1.symm),
              ← e5, doSlave_curconf_other u4 pIdx usn 1 pIdx 0
                (fun s hs hc => (hsl5 s hs).2 hc.1.symm),
              ← e4, doSlave_curconf_other u3 pIdx usn 0 pIdx 0
                (fun s hs hc => (hsl4 s hs).2 hc.1.symm),
              ← e3, doSub_curconf_other u2 pIdx 2 pIdx 0
                (fun hc => absurd hc.2 (by decide)),
              ← e2, doSub_curconf_other u1 pIdx 1 pIdx 0
                (fun hc => absurd hc.2 (by decide))]
          rcases hmc : (w.lines pIdx).master with - | m
          · -- no master: the programming of site 1 is final
            have hm8 : (u8.lines pIdx).master = none := by
              rw [hmst8, hmc]
            have h9' := (doMaster_none u8 pIdx hm8).symm.trans h9
            have hu98 : u8 = u9 := congrArg (fun t => t.1) h9'
            refine ⟨?_, ?_, ?_⟩
            · rw [doSub_eq_del w1 pIdx 0 hg0']
              by_cases hio : isourconf (w.lines pIdx) ((w.lines pIdx).subs 0)
              · have hz1 : ((u1.lines pIdx).subs 0).curconf = ⟨0, 0⟩ := by
                  rw [← hu1]
                  exact conf_del_curconf_zeroed w pIdx pIdx 0 (by omega) hio
                have hccw1 : ((w1.lines pIdx).subs 0).curconf = ⟨0, 0⟩ := by
                  rw [hccF pIdx 0, ← hu98, ← hu87, hP71, hz1]
                have hnio : ¬ isourconf (w1.lines pIdx)
                    ((w1.lines pIdx).subs 0) := by
                  intro hoc
                  simp only [isourconf] at hoc
                  rcases hoc with ⟨hA, hB⟩ | ⟨hA, hB, hC⟩
                  · rw [hccw1] at hB
                    exact absurd hB (by decide)
                  · rw [hccw1] at hC
                    exact hC (by decide)
                rw [conf_del_noop w1 pIdx pIdx 0 (Or.inr hnio), ← hn1]
              · have hu1w : u1 = w := by
                  rw [conf_del_noop w pIdx pIdx 0 (Or.inr hio)] at hu1
                  exact hu1.symm
                have hccw1 : ((w1.lines pIdx).subs 0).curconf =
                    ((w.lines pIdx).subs 0).curconf := by
                  rw [hccF pIdx 0, ← hu98, ← hu87, hP71, hu1w]
                have hnio : ¬ isourconf (w1.lines pIdx)
                    ((w1.lines pIdx).subs 0) := by
                  intro hoc
                  simp only [isourconf] at hoc
                  rcases hoc with ⟨hA, hB⟩ | ⟨hA, hB, hC⟩
                  · refine hio (Or.inl ⟨?_, ?_⟩)
                    · rw [hch pIdx, hccw1] at hA
                      exact hA
                    · rw [hccw1] at hB
                      exact hB
                  · by_cases hzn : n1 + n2 + n3 + n4 + n5 + n6 + n7 + n8 = 0
                    · rw [hpcF0 hzn] at hA
                      exact absurd hA (by decide)
                    · rw [hpcFn hzn] at hA hB
                      rcases hv8_0 with h | h
                      · rw [h] at hA hB
                        refine hio (Or.inr ⟨hA, ?_, ?_⟩)
                        · rw [hccw1] at hB
                          exact hB
                        · rw [hccw1] at hC
                          exact hC
                      · have hlt := (hccB 0 (by omega)).2
                        rw [hccw1] at hB
                        omega
                rw [conf_del_noop w1 pIdx pIdx 0 (Or.inr hnio), ← hn1]
            · rw [doInconf_off w1 pIdx usn sOpt
                (fun hcon => hic (hincF ▸ hcon.1)), ← hn8]
            · rw [doMaster_none w1 pIdx (by rw [hmstF, hmc])]
          · -- a master rewrites the real sub-channel at the last site
            have hmBm := hmB m hmc
            have hm8 : (u8.lines pIdx).master = some m := by
              rw [hmst8, hmc]
            have hm1 : (w1.lines pIdx).master = some m := by
              rw [hmstF, hmc]
            have hdfd8 : ¬ ((u8.lines pIdx).subs 0).dfd < 0 := by
              rw [(shape_eq_fields (s8 pIdx)).2.2.2.1 0]
              exact hdfd0
            obtain ⟨hmc1, hmc2, hmc3, hmc4, hmc5⟩ := (hlineswf m hmBm.1).1
            cases hms : (isslavenative w m).1 with
            | true =>
              have hms8 : (isslavenative u8 m).1 = true := by
                rw [isslavenative_ext s8 m]
                exact hms
              have h9u := doMaster_some_usn u8 pIdx m hm8 hms8
              have hu9 : (conf_add u8 m pIdx 0 0
                  (GET_CHANNEL (u8.lines m))).1 = u9 :=
                congrArg (fun t => t.1) (h9u.symm.trans h9)
              have hch8m : (u8.lines m).channel = (w.lines m).channel :=
                (shape_eq_fields (s8 m)).1
              have hzi9 : ziFor (u8.lines m) 0 (GET_CHANNEL (u8.lines m)) =
                  ⟨(w.lines m).channel, DAHDI_CONF_DIGITALMON⟩ := by
                rw [GET_CHANNEL_eq,
                  ziFor_pos (u8.lines m) 0 _ (by rw [hch8m]; omega), hch8m]
              have hcc9 : ((u9.lines pIdx).subs 0).curconf =
                  ⟨(w.lines m).channel, DAHDI_CONF_DIGITALMON⟩ := by
                rw [← hu9, conf_add_result_cc u8 m pIdx 0 0 _ hdfd8
                  (by rw [hzi9]
                      show (w.lines m).channel ≠ -1
                      omega), hzi9]
              have hccw1 : ((w1.lines pIdx).subs 0).curconf =
                  ⟨(w.lines m).channel, DAHDI_CONF_DIGITALMON⟩ := by
                rw [hccF pIdx 0, hcc9]
              have hchd := (hdist pIdx hp m hmBm.1 (Ne.symm hmBm.2)).1
              refine ⟨?_, ?_, ?_⟩
              · rw [doSub_eq_del w1 pIdx 0 hg0']
                have hnio : ¬ isourconf (w1.lines pIdx)
                    ((w1.lines pIdx).subs 0) := by
                  intro hoc
                  simp only [isourconf] at hoc
                  rcases hoc with ⟨hA, hB⟩ | ⟨hA, hB, hC⟩
                  · rw [hccw1, hch pIdx] at hA
                    exact hchd hA
                  · rw [hccw1] at hC
                    exact hC (show DAHDI_CONF_DIGITALMON &&& DAHDI_CONF_TALKER
                      = 0 by decide)
                rw [conf_del_noop w1 pIdx pIdx 0 (Or.inr hnio), ← hn1]
              · rw [doInconf_off w1 pIdx usn sOpt
                  (fun hcon => hic (hincF ▸ hcon.1)), ← hn8]
              · have hmsw : (isslavenative w1 m).1 = true := by
                  rw [isslavenative_ext sF m]
                  exact hms
                rw [doMaster_some_usn w1 pIdx m hm1 hmsw,
                  conf_add_noop_match w1 m pIdx 0 0 _
                    (by rw [GET_CHANNEL_eq,
                        ziFor_pos (w1.lines m) 0 _ (by rw [hch m]; omega),
                        hch m, hccw1])]
            | false =>
              have hms8 : (isslavenative u8 m).1 = false := by
                rw [isslavenative_ext s8 m]
                exact hms
              have h9g := doMaster_some_gen u8 pIdx m hm8 hms8
              have hu9 : (conf_add u8 m pIdx 0 0 0).1 = u9 :=
                congrArg (fun t => t.1) (h9g.symm.trans h9)
              have hcm8 : (u8.lines m).confno = (w.lines m).confno :=
                hco8 m hmBm.2
              have hJ9 : ((u9.lines pIdx).subs 0).curconf =
                  ⟨(u9.lines m).confno, CONFMODE_REAL⟩ ∧
                  0 ≤ (u9.lines m).confno := by
                have hq := conf_add_own_cc u8 m pIdx 0 0 CONFMODE_REAL
                  (ziFor_sub0 (u8.lines m)) hdfd8 cw8.1
                  ((cw8.2 m hmBm.1).2.2.1)
                  (((cw8.2 pIdx hp).2.2.2.2 0 (by omega)).1)
                rw [hu9] at hq
                exact hq
              have hcmEv : (u9.lines m).confno = (u8.lines m).confno ∨
                  u8.nextConf ≤ (u9.lines m).confno := by
                have hq := conf_add_confno_self_evol u8 m pIdx 0 0 0
                rw [hu9] at hq
                exact hq
              have hpc8lt : (u8.lines pIdx).confno < u8.nextConf :=
                (cw8.2 pIdx hp).2.2.2.1
              have hN8 : w.nextConf ≤ u8.nextConf :=
                le_trans M1 (le_trans M2 (le_trans M3 (le_trans M4
                  (le_trans M5 (le_trans M6 (le_trans M7 M8))))))
              have hcmw1 : (w1.lines m).confno = (u9.lines m).confno :=
                hpcO m hmBm.2
              have hccw1 : ((w1.lines pIdx).subs 0).curconf =
                  ⟨(w1.lines m).confno, CONFMODE_REAL⟩ := by
                rw [hccF pIdx 0, hJ9.1, ← hcmw1]
              refine ⟨?_, ?_, ?_⟩
              · rw [doSub_eq_del w1 pIdx 0 hg0']
                have hnio : ¬ isourconf (w1.lines pIdx)
                    ((w1.lines pIdx).subs 0) := by
                  intro hoc
                  simp only [isourconf] at hoc
                  rcases hoc with ⟨hA, hB⟩ | ⟨hA, hB, hC⟩
                  · rw [hccw1] at hB
                    exact absurd hB (show ¬ CONFMODE_REAL =
                      DAHDI_CONF_DIGITALMON by decide)
                  · rw [hccw1] at hB
                    have hB' : (w1.lines pIdx).confno =
                        (u9.lines m).confno := by
                      rw [hB]
                      exact hcmw1
                    by_cases hzn : n1 + n2 + n3 + n4 + n5 + n6 + n7 + n8 = 0
                    · rw [hpcF0 hzn] at hA
                      exact absurd hA (by decide)
                    · rw [hpcFn hzn] at hA hB'
                      have hd := (hdist pIdx hp m hmBm.1 (Ne.symm hmBm.2)).2
                      rcases hv8_0 with h1 | h1 <;> rcases hcmEv with h2 | h2
                      · rw [h1] at hA hB'
                        rw [h2, hcm8] at hB'
                        exact hd hA hB'
                      · omega
                      · omega
                      · omega
                rw [conf_del_noop w1 pIdx pIdx 0 (Or.inr hnio), ← hn1]
              · rw [doInconf_off w1 pIdx usn sOpt
                  (fun hcon => hic (hincF ▸ hcon.1)), ← hn8]
              · have hmsw : (isslavenative w1 m).1 = false := by
                  rw [isslavenative_ext sF m]
                  exact hms
                rw [doMaster_some_gen w1 pIdx m hm1 hmsw,
                  conf_add_noop_match w1 m pIdx 0 0 0
                    (by rw [ziFor_sub0, hccw1])]
  obtain ⟨O1, O8, O9⟩ := O189
  have O2 : doSub w1 pIdx 1 = (w1, 0, n2) := by
    by_cases hg : ((w.lines pIdx).subs 1).dfd > -1 ∧
        ((w.lines pIdx).subs 1).inthreeway = true
    · obtain ⟨hga, hgb⟩ := hg
      have hg1 : ((u1.lines pIdx).subs 1).dfd > -1 ∧
          ((u1.lines pIdx).subs 1).inthreeway = true := by
        rw [(shape_eq_fields (s1 pIdx)).2.2.2.1 1,
          (shape_eq_fields (s1 pIdx)).2.2.2.2.1 1]
        exact ⟨hga, hgb⟩
      rw [doSub_eq_add u1 pIdx 1 hg1] at h2
      have hu2 : (conf_add u1 pIdx pIdx 1 1 0).1 = u2 :=
        congrArg (fun t => t.1) h2
      have hn2 : (1 : Nat) = n2 := congrArg (fun t => t.2.2) h2
      have hJ2 : ((u2.lines pIdx).subs 1).curconf =
          ⟨(u2.lines pIdx).confno, CONFMODE_AUX⟩ ∧
          0 ≤ (u2.lines pIdx).confno := by
        have hq := conf_add_own_cc u1 pIdx pIdx 1 1 CONFMODE_AUX
          (ziFor_aux (u1.lines pIdx) 1 (by decide))
          (by rw [(shape_eq_fields (s1 pIdx)).2.2.2.1 1]; omega)
          cw1.1 ((cw1.2 pIdx hp).2.2.1)
          (((cw1.2 pIdx hp).2.2.2.2 1 (by omega)).1)
        rw [hu2] at hq
        exact hq
      have hJ3 := own_push_doSub u2 pIdx 1 2 (by decide) CONFMODE_AUX
        hJ2.1 hJ2.2
      rw [e3] at hJ3
      have hJ4 := own_push_doSlave u3 pIdx usn 0 1 (fun s hs => (hsl4 s hs).2)
        CONFMODE_AUX hJ3.1 hJ3.2
      rw [e4] at hJ4
      have hJ5 := own_push_doSlave u4 pIdx usn 1 1 (fun s hs => (hsl5 s hs).2)
        CONFMODE_AUX hJ4.1 hJ4.2
      rw [e5] at hJ5
      have hJ6 := own_push_doSlave u5 pIdx usn 2 1 (fun s hs => (hsl6 s hs).2)
        CONFMODE_AUX hJ5.1 hJ5.2
      rw [e6] at hJ6
      have hJ7 := own_push_doSlave u6 pIdx usn 3 1 (fun s hs => (hsl7 s hs).2)
        CONFMODE_AUX hJ6.1 hJ6.2
      rw [e7] at hJ7
      have hJ8 := own_push_doInconf u7 pIdx usn sOpt 1 (by decide)
        CONFMODE_AUX hJ7.1 hJ7.2
      rw [e8] at hJ8
      have hJ9 := own_push_doMaster u8 pIdx 1 (by decide)
        (fun m hm => ((hmB m (hmst8 ▸ hm)).2).symm) CONFMODE_AUX hJ8.1 hJ8.2
      rw [e9] at hJ9
      have hnz : ¬ (n1 + n2 + n3 + n4 + n5 + n6 + n7 + n8 = 0) := by omega
      have hccw1 : ((w1.lines pIdx).subs 1).curconf =
          ⟨(w1.lines pIdx).confno, CONFMODE_AUX⟩ := by
        rw [hccF pIdx 1, hJ9.1, hpc9, ← hpcFn hnz]
      have hg' : ((w1.lines pIdx).subs 1).dfd > -1 ∧
          ((w1.lines pIdx).subs 1).inthreeway = true := by
        rw [hdfdF pIdx 1, htwF pIdx 1]
        exact ⟨hga, hgb⟩
      rw [doSub_eq_add w1 pIdx 1 hg',
        conf_add_noop_match w1 pIdx pIdx 1 1 0
          (by rw [ziFor_aux (w1.lines pIdx) 1 (by decide), hccw1]),
        ← hn2]
    · have hg1 : ¬ (((u1.lines pIdx).subs 1).dfd > -1 ∧
          ((u1.lines pIdx).subs 1).inthreeway = true) := by
        rw [(shape_eq_fields (s1 pIdx)).2.2.2.1 1,
          (shape_eq_fields (s1 pIdx)).2.2.2.2.1 1]
        exact hg
      rw [doSub_eq_del u1 pIdx 1 hg1] at h2
      have hu2 : (conf_del u1 pIdx pIdx 1).1 = u2 := congrArg (fun t => t.1) h2
      have hn2 : (0 : Nat) = n2 := congrArg (fun t => t.2.2) h2
      have hg' : ¬ (((w1.lines pIdx).subs 1).dfd > -1 ∧
          ((w1.lines pIdx).subs 1).inthreeway = true) := by
        rw [hdfdF pIdx 1, htwF pIdx 1]
        exact hg
      rw [doSub_eq_del w1 pIdx 1 hg']
      by_cases hdfd : ((w.lines pIdx).subs 1).dfd < 0
      · rw [conf_del_noop w1 pIdx pIdx 1
          (Or.inl (by rw [hdfdF pIdx 1]; exact hdfd)), ← hn2]
      · have hccu1 : ((u1.lines pIdx).subs 1).curconf =
            ((w.lines pIdx).subs 1).curconf := by
          rw [← e1, doSub_curconf_other w pIdx 0 pIdx 1
            (fun hc => absurd hc.2 (by decide))]
        have hP : ((u9.lines pIdx).subs 1).curconf =
            ((u2.lines pIdx).subs 1).curconf := by
          rw [← e9, doMaster_curconf_other u8 pIdx pIdx 1
              (fun hc => absurd hc.2 (by decide)),
            ← e8, doInconf_curconf_other u7 pIdx usn sOpt pIdx 1
              (fun hc => absurd hc.2 (by decide)),
            ← e7, doSlave_curconf_other u6 pIdx usn 3 pIdx 1
              (fun s hs hc => (hsl7 s hs).2 hc.1.symm),
            ← e6, doSlave_curconf_other u5 pIdx usn 2 pIdx 1
              (fun s hs hc => (hsl6 s hs).2 hc.1.symm),
            ← e5, doSlave_curconf_other u4 pIdx usn 1 pIdx 1
              (fun s hs hc => (hsl5 s hs).2 hc.1.symm),
            ← e4, doSlave_curconf_other u3 pIdx usn 0 pIdx 1
              (fun s hs hc => (hsl4 s hs).2 hc.1.symm),
            ← e3, doSub_curconf_other u2 pIdx 2 pIdx 1
              (fun hc => absurd hc.2 (by decide))]
        by_cases hio : isourconf (u1.lines pIdx) ((u1.lines pIdx).subs 1)
        · have hz2 : ((u2.lines pIdx).subs 1).curconf = ⟨0, 0⟩ := by
            rw [← hu2]
            exact conf_del_curconf_zeroed u1 pIdx pIdx 1
              (by rw [(shape_eq_fields (s1 pIdx)).2.2.2.1 1]; omega) hio
          have hnio : ¬ isourconf (w1.lines pIdx) ((w1.lines pIdx).subs 1) := by
            intro hoc
            simp only [isourconf] at hoc
            rcases hoc with ⟨hA, hB⟩ | ⟨hA, hB, hC⟩
            · rw [hccF pIdx 1, hP, hz2] at hB
              exact absurd hB (by decide)
            · rw [hccF pIdx 1, hP, hz2] at hC
              exact hC (by decide)
          rw [conf_del_noop w1 pIdx pIdx 1 (Or.inr hnio), ← hn2]
        · have hu21 : u2 = u1 := by
            rw [conf_del_noop u1 pIdx pIdx 1 (Or.inr hio)] at hu2
            exact hu2.symm
          have hccw1 : ((w1.lines pIdx).subs 1).curconf =
              ((w.lines pIdx).subs 1).curconf := by
            rw [hccF pIdx 1, hP, hu21, hccu1]
          have hnio : ¬ isourconf (w1.lines pIdx) ((w1.lines pIdx).subs 1) := by
            intro hoc
            simp only [isourconf] at hoc
            rcases hoc with ⟨hA, hB⟩ | ⟨hA, hB, hC⟩
            · refine hio (Or.inl ⟨?_, ?_⟩)
              · rw [(shape_eq_fields (s1 pIdx)).1, hccu1]
                rw [hch pIdx, hccw1] at hA
                exact hA
              · rw [hccu1]
                rw [hccw1] at hB
                exact hB
            · by_cases hzn : n1 + n2 + n3 + n4 + n5 + n6 + n7 + n8 = 0
              · rw [hpcF0 hzn] at hA
                exact absurd hA (by decide)
              · rw [hpcFn hzn] at hA hB
                rcases hv8_1 with h | h
                · rw [h] at hA hB
                  refine hio (Or.inr ⟨hA, ?_, ?_⟩)
                  · rw [hccu1]
                    rw [hccw1] at hB
                    exact hB
                  · rw [hccu1]
                    rw [hccw1] at hC
                    exact hC
                · have hlt := ((cw1.2 pIdx hp).2.2.2.2 1 (by omega)).2
                  rw [hccw1] at hB
                  rw [hccu1] at hlt
                  omega
          rw [conf_del_noop w1 pIdx pIdx 1 (Or.inr hnio), ← hn2]
  have O3 : doSub w1 pIdx 2 = (w1, 0, n3) := by
    by_cases hg : ((w.lines pIdx).subs 2).dfd > -1 ∧
        ((w.lines pIdx).subs 2).inthreeway = true
    · obtain ⟨hga, hgb⟩ := hg
      have hg2 : ((u2.lines pIdx).subs 2).dfd > -1 ∧
          ((u2.lines pIdx).subs 2).inthreeway = true := by
        rw [(shape_eq_fields (s2 pIdx)).2.2.2.1 2,
          (shape_eq_fields (s2 pIdx)).2.2.2.2.1 2]
        exact ⟨hga, hgb⟩
      rw [doSub_eq_add u2 pIdx 2 hg2] at h3
      have hu3 : (conf_add u2 pIdx pIdx 2 2 0).1 = u3 :=
        congrArg (fun t => t.1) h3
      have hn3 : (1 : Nat) = n3 := congrArg (fun t => t.2.2) h3
      have hJ3 : ((u3.lines pIdx).subs 2).curconf =
          ⟨(u3.lines pIdx).confno, CONFMODE_AUX⟩ ∧
          0 ≤ (u3.lines pIdx).confno := by
        have hq := conf_add_own_cc u2 pIdx pIdx 2 2 CONFMODE_AUX
          (ziFor_aux (u2.lines pIdx) 2 (by decide))
          (by rw [(shape_eq_fields (s2 pIdx)).2.2.2.1 2]; omega)
          cw2.1 ((cw2.2 pIdx hp).2.2.1)
          (((cw2.2 pIdx hp).2.2.2.2 2 (by omega)).1)
        rw [hu3] at hq
        exact hq
      have hJ4 := own_push_doSlave u3 pIdx usn 0 2 (fun s hs => (hsl4 s hs).2)
        CONFMODE_AUX hJ3.1 hJ3.2
      rw [e4] at hJ4
      have hJ5 := own_push_doSlave u4 pIdx usn 1 2 (fun s hs => (hsl5 s hs).2)
        CONFMODE_AUX hJ4.1 hJ4.2
      rw [e5] at hJ5
      have hJ6 := own_push_doSlave u5 pIdx usn 2 2 (fun s hs => (hsl6 s hs).2)
        CONFMODE_AUX hJ5.1 hJ5.2
      rw [e6] at hJ6
      have hJ7 := own_push_doSlave u6 pIdx usn 3 2 (fun s hs => (hsl7 s hs).2)
        CONFMODE_AUX hJ6.1 hJ6.2
      rw [e7] at hJ7
      have hJ8 := own_push_doInconf u7 pIdx usn sOpt 2 (by decide)
        CONFMODE_AUX hJ7.1 hJ7.2
      rw [e8] at hJ8
      have hJ9 := own_push_doMaster u8 pIdx 2 (by decide)
        (fun m hm => ((hmB m (hmst8 ▸ hm)).2).symm) CONFMODE_AUX hJ8.1 hJ8.2
      rw [e9] at hJ9
      have hnz : ¬ (n1 + n2 + n3 + n4 + n5 + n6 + n7 + n8 = 0) := by omega
      have hccw1 : ((w1.lines pIdx).subs 2).curconf =
          ⟨(w1.lines pIdx).confno, CONFMODE_AUX⟩ := by
        rw [hccF pIdx 2, hJ9.1, hpc9, ← hpcFn hnz]
      have hg' : ((w1.lines pIdx).subs 2).dfd > -1 ∧
          ((w1.lines pIdx).subs 2).inthreeway = true := by
        rw [hdfdF pIdx 2, htwF pIdx 2]
        exact ⟨hga, hgb⟩
      rw [doSub_eq_add w1 pIdx 2 hg',
        conf_add_noop_match w1 pIdx pIdx 2 2 0
          (by rw [ziFor_aux (w1.lines pIdx) 2 (by decide), hccw1]),
        ← hn3]
    · have hg2 : ¬ (((u2.lines pIdx).subs 2).dfd > -1 ∧
          ((u2.lines pIdx).subs 2).inthreeway = true) := by
        rw [(shape_eq_fields (s2 pIdx)).2.2.2.1 2,
          (shape_eq_fields (s2 pIdx)).2.2.2.2.1 2]
        exact hg
      rw [doSub_eq_del u2 pIdx 2 hg2] at h3
      have hu3 : (conf_del u2 pIdx pIdx 2).1 = u3 := congrArg (fun t => t.1) h3
      have hn3 : (0 : Nat) = n3 := congrArg (fun t => t.2.2) h3
      have hg' : ¬ (((w1.lines pIdx).subs 2).dfd > -1 ∧
          ((w1.lines pIdx).subs 2).inthreeway = true) := by
        rw [hdfdF pIdx 2, htwF pIdx 2]
        exact hg
      rw [doSub_eq_del w1 pIdx 2 hg']
      by_cases hdfd : ((w.lines pIdx).subs 2).dfd < 0
      · rw [conf_del_noop w1 pIdx pIdx 2
          (Or.inl (by rw [hdfdF pIdx 2]; exact hdfd)), ← hn3]
      · have hccu2 : ((u2.lines pIdx).subs 2).curconf =
            ((w.lines pIdx).subs 2).curconf := by
          rw [← e2, doSub_curconf_other u1 pIdx 1 pIdx 2
              (fun hc => absurd hc.2 (by decide)),
            ← e1, doSub_curconf_other w pIdx 0 pIdx 2
              (fun hc => absurd hc.2 (by decide))]
        have hP : ((u9.lines pIdx).subs 2).curconf =
            ((u3.lines pIdx).subs 2).curconf := by
          rw [← e9, doMaster_curconf_other u8 pIdx pIdx 2
              (fun hc => absurd hc.2 (by decide)),
            ← e8, doInconf_curconf_other u7 pIdx usn sOpt pIdx 2
              (fun hc => absurd hc.2 (by decide)),
            ← e7, doSlave_curconf_other u6 pIdx usn 3 pIdx 2
              (fun s hs hc => (hsl7 s hs).2 hc.1.symm),
            ← e6, doSlave_curconf_other u5 pIdx usn 2 pIdx 2
              (fun s hs hc => (hsl6 s hs).2 hc.1.symm),
            ← e5, doSlave_curconf_other u4 pIdx usn 1 pIdx 2
              (fun s hs hc => (hsl5 s hs).2 hc.1.symm),
            ← e4, doSlave_curconf_other u3 pIdx usn 0 pIdx 2
              (fun s hs hc => (hsl4 s hs).2 hc.1.symm)]
        by_cases hio : isourconf (u2.lines pIdx) ((u2.lines pIdx).subs 2)
        · have hz3 : ((u3.lines pIdx).subs 2).curconf = ⟨0, 0⟩ := by
            rw [← hu3]
            exact conf_del_curconf_zeroed u2 pIdx pIdx 2
              (by rw [(shape_eq_fields (s2 pIdx)).2.2.2.1 2]; omega) hio
          have hnio : ¬ isourconf (w1.lines pIdx) ((w1.lines pIdx).subs 2) := by
            intro hoc
            simp only [isourconf] at hoc
            rcases hoc with ⟨hA, hB⟩ | ⟨hA, hB, hC⟩
            · rw [hccF pIdx 2, hP, hz3] at hB
              exact absurd hB (by decide)
            · rw [hccF pIdx 2, hP, hz3] at hC
              exact hC (by decide)
          rw [conf_del_noop w1 pIdx pIdx 2 (Or.inr hnio), ← hn3]
        · have hu32 : u3 = u2 := by
            rw [conf_del_noop u2 pIdx pIdx 2 (Or.inr hio)] at hu3
            exact hu3.symm
          have hccw1 : ((w1.lines pIdx).subs 2).curconf =
              ((w.lines pIdx).subs 2).curconf := by
            rw [hccF pIdx 2, hP, hu32, hccu2]
          have hnio : ¬ isourconf (w1.lines pIdx) ((w1.lines pIdx).subs 2) := by
            intro hoc
            simp only [isourconf] at hoc
            rcases hoc with ⟨hA, hB⟩ | ⟨hA, hB, hC⟩
            · refine hio (Or.inl ⟨?_, ?_⟩)
              · rw [(shape_eq_fields (s2 pIdx)).1, hccu2]
                rw [hch pIdx, hccw1] at hA
                exact hA
              · rw [hccu2]
                rw [hccw1] at hB
                exact hB
            · by_cases hzn : n1 + n2 + n3 + n4 + n5 + n6 + n7 + n8 = 0
              · rw [hpcF0 hzn] at hA
                exact absurd hA (by decide)
              · rw [hpcFn hzn] at hA hB
                rcases hv8_2 with h | h
                · rw [h] at hA hB
                  refine hio (Or.inr ⟨hA, ?_, ?_⟩)
                  · rw [hccu2]
                    rw [hccw1] at hB
                    exact hB
                  · rw [hccu2]
                    rw [hccw1] at hC
                    exact hC
                · have hlt := ((cw2.2 pIdx hp).2.2.2.2 2 (by omega)).2
                  rw [hccw1] at hB
                  rw [hccu2] at hlt
                  omega
          rw [conf_del_noop w1 pIdx pIdx 2 (Or.inr hnio), ← hn3]
  have O4 : doSlave w1 pIdx usn 0 = (w1, 0, n4) := by
    rcases hs : (w.lines pIdx).slaves 0 with - | s
    · have hn : doSlave u3 pIdx usn 0 = (u3, 0, 0) :=
        doSlave_none u3 pIdx usn 0
          (by rw [(shape_eq_fields (s3 pIdx)).2.2.2.2.2.1 0, hs])
      rw [hn] at h4
      have hn4 : (0 : Nat) = n4 := congrArg (fun t => t.2.2) h4
      rw [doSlave_none w1 pIdx usn 0 (by rw [hslvF 0, hs]), ← hn4]
    · have hsB := hslvB 0 (by omega) s hs
      have hs3 : (u3.lines pIdx).slaves 0 = some s := by
        rw [(shape_eq_fields (s3 pIdx)).2.2.2.2.2.1 0]
        exact hs
      have hsw1 : (w1.lines pIdx).slaves 0 = some s := by
        rw [hslvF 0]
        exact hs
      cases usn with
      | false =>
        rw [doSlave_some_gen u3 pIdx 0 s hs3] at h4
        have hu4 : (conf_add u3 pIdx s 0 0 0).1 = u4 :=
          congrArg (fun t => t.1) h4
        have hn4 : (1 : Nat) = n4 := congrArg (fun t => t.2.2) h4
        rw [doSlave_some_gen w1 pIdx 0 s hsw1]
        by_cases hdfd : ((w.lines s).subs 0).dfd < 0
        · rw [conf_add_noop_dfd w1 pIdx s 0 0 0
            (by rw [hdfdF s 0]; exact hdfd), ← hn4]
        · have hJ4 : ((u4.lines s).subs 0).curconf =
              ⟨(u4.lines pIdx).confno, CONFMODE_REAL⟩ ∧
              0 ≤ (u4.lines pIdx).confno := by
            have hq := conf_add_own_cc u3 pIdx s 0 0 CONFMODE_REAL
              (ziFor_sub0 (u3.lines pIdx))
              (by rw [(shape_eq_fields (s3 s)).2.2.2.1 0]; exact hdfd)
              cw3.1 ((cw3.2 pIdx hp).2.2.1)
              (((cw3.2 s hsB.1).2.2.2.2 0 (by omega)).1)
            rw [hu4] at hq
            exact hq
          have hJ5 := slv_push_doSlave u4 pIdx s 1 hJ4.1 hJ4.2
          rw [e5] at hJ5
          have hJ6 := slv_push_doSlave u5 pIdx s 2 hJ5.1 hJ5.2
          rw [e6] at hJ6
          have hJ7 := slv_push_doSlave u6 pIdx s 3 hJ6.1 hJ6.2
          rw [e7] at hJ7
          have hJ8 : ((u8.lines s).subs 0).curconf =
              ⟨(u8.lines pIdx).confno, CONFMODE_REAL⟩ ∧
              0 ≤ (u8.lines pIdx).confno := by
            constructor
            · rw [← e8, doInconf_curconf_other u7 pIdx false sOpt s 0
                  (fun hc => hsB.2 hc.1),
                doInconf_confno_self_stable u7 pIdx false sOpt hJ7.2, hJ7.1]
            · rw [← e8, doInconf_confno_self_stable u7 pIdx false sOpt hJ7.2]
              exact hJ7.2
          have hJ9cc : ((u9.lines s).subs 0).curconf =
              ⟨(u8.lines pIdx).confno, CONFMODE_REAL⟩ := by
            rw [← e9, doMaster_curconf_other u8 pIdx s 0
              (fun hc => hsB.2 hc.1), hJ8.1]
          have hnz : ¬ (n1 + n2 + n3 + n4 + n5 + n6 + n7 + n8 = 0) := by omega
          have hccw1 : ((w1.lines s).subs 0).curconf =
              ⟨(w1.lines pIdx).confno, CONFMODE_REAL⟩ := by
            rw [hccF s 0, hJ9cc, ← hpcFn hnz]
          rw [conf_add_noop_match w1 pIdx s 0 0 0
            (by rw [ziFor_sub0, hccw1]), ← hn4]
      | true =>
        obtain ⟨s', hs'eq, hntw, hocc, hlaw⟩ := isslavenative_true hsn rfl
        obtain ⟨x', hx'4, hsx', hoth⟩ := occupiedSlaves_single hocc
        have hx0 : x' = 0 := by
          by_contra hne
          rw [hoth 0 (by omega) (fun h => hne h.symm)] at hs
          exact Option.noConfusion hs
        subst hx0
        have hss : s = s' := Option.some_inj.mp (hs.symm.trans hsx')
        subst hss
        rw [doSlave_some_usn u3 pIdx 0 s hs3] at h4
        have hu4 : (conf_add u3 pIdx s 0 0
            (GET_CHANNEL (u3.lines pIdx))).1 = u4 :=
          congrArg (fun t => t.1) h4
        have hn4 : (0 : Nat) = n4 := congrArg (fun t => t.2.2) h4
        rw [doSlave_some_usn w1 pIdx 0 s hsw1]
        by_cases hdfd : ((w.lines s).subs 0).dfd < 0
        · rw [conf_add_noop_dfd w1 pIdx s 0 0 _
            (by rw [hdfdF s 0]; exact hdfd), ← hn4]
        · have hchu3 : (u3.lines pIdx).channel = (w.lines pIdx).channel :=
            (shape_eq_fields (s3 pIdx)).1
          have hzi3 : ziFor (u3.lines pIdx) 0 (GET_CHANNEL (u3.lines pIdx)) =
              ⟨(w.lines pIdx).channel, DAHDI_CONF_DIGITALMON⟩ := by
            rw [GET_CHANNEL_eq,
              ziFor_pos (u3.lines pIdx) 0 _ (by rw [hchu3]; omega), hchu3]
          have hJ4 : ((u4.lines s).subs 0).curconf =
              ⟨(w.lines pIdx).channel, DAHDI_CONF_DIGITALMON⟩ := by
            rw [← hu4, conf_add_result_cc u3 pIdx s 0 0 _
              (by rw [(shape_eq_fields (s3 s)).2.2.2.1 0]; exact hdfd)
              (by rw [hzi3]
                  show (w.lines pIdx).channel ≠ -1
                  omega), hzi3]
          have hn5 : (u4.lines pIdx).slaves 1 = none := by
            rw [(shape_eq_fields (s4 pIdx)).2.2.2.2.2.1 1,
              hoth 1 (by omega) (by omega)]
          have hn6 : (u5.lines pIdx).slaves 2 = none := by
            rw [(shape_eq_fields (s5 pIdx)).2.2.2.2.2.1 2,
              hoth 2 (by omega) (by omega)]
          have hn7 : (u6.lines pIdx).slaves 3 = none := by
            rw [(shape_eq_fields (s6 pIdx)).2.2.2.2.2.1 3,
              hoth 3 (by omega) (by omega)]
          have hu54 : u4 = u5 :=
            congrArg (fun t => t.1)
              ((doSlave_none u4 pIdx true 1 hn5).symm.trans h5)
          have hu65 : u5 = u6 :=
            congrArg (fun t => t.1)
              ((doSlave_none u5 pIdx true 2 hn6).symm.trans h6)
          have hu76 : u6 = u7 :=
            congrArg (fun t => t.1)
              ((doSlave_none u6 pIdx true 3 hn7).symm.trans h7)
          have hP : ((u9.lines s).subs 0).curconf =
              ((u4.lines s).subs 0).curconf := by
            rw [← e9, doMaster_curconf_other u8 pIdx s 0
                (fun hc => hsB.2 hc.1),
              ← e8, doInconf_curconf_other u7 pIdx true sOpt s 0
                (fun hc => hsB.2 hc.1),
              ← hu76, ← hu65, ← hu54]
          have hccw1 : ((w1.lines s).subs 0).curconf =
              ⟨(w.lines pIdx).channel, DAHDI_CONF_DIGITALMON⟩ := by
            rw [hccF s 0, hP, hJ4]
          rw [conf_add_noop_match w1 pIdx s 0 0 _
            (by rw [GET_CHANNEL_eq,
                ziFor_pos (w1.lines pIdx) 0 _ (by rw [hch pIdx]; omega),
                hch pIdx, hccw1]),
            ← hn4]
  have O5 : doSlave w1 pIdx usn 1 = (w1, 0, n5) := by
    rcases hs : (w.lines pIdx).slaves 1 with - | s
    · have hn : doSlave u4 pIdx usn 1 = (u4, 0, 0) :=
        doSlave_none u4 pIdx usn 1
          (by rw [(shape_eq_fields (s4 pIdx)).2.2.2.2.2.1 1, hs])
      rw [hn] at h5
      have hn5 : (0 : Nat) = n5 := congrArg (fun t => t.2.2) h5
      rw [doSlave_none w1 pIdx usn 1 (by rw [hslvF 1, hs]), ← hn5]
    · have hsB := hslvB 1 (by omega) s hs
      have hs4 : (u4.lines pIdx).slaves 1 = some s := by
        rw [(shape_eq_fields (s4 pIdx)).2.2.2.2.2.1 1]
        exact hs
      have hsw1 : (w1.lines pIdx).slaves 1 = some s := by
        rw [hslvF 1]
        exact hs
      cases usn with
      | false =>
        rw [doSlave_some_gen u4 pIdx 1 s hs4] at h5
        have hu5 : (conf_add u4 pIdx s 0 0 0).1 = u5 :=
          congrArg (fun t => t.1) h5
        have hn5 : (1 : Nat) = n5 := congrArg (fun t => t.2.2) h5
        rw [doSlave_some_gen w1 pIdx 1 s hsw1]
        by_cases hdfd : ((w.lines s).subs 0).dfd < 0
        · rw [conf_add_noop_dfd w1 pIdx s 0 0 0
            (by rw [hdfdF s 0]; exact hdfd), ← hn5]
        · have hJ5 : ((u5.lines s).subs 0).curconf =
              ⟨(u5.lines pIdx).confno, CONFMODE_REAL⟩ ∧
              0 ≤ (u5.lines pIdx).confno := by
            have hq := conf_add_own_cc u4 pIdx s 0 0 CONFMODE_REAL
              (ziFor_sub0 (u4.lines pIdx))
              (by rw [(shape_eq_fields (s4 s)).2.2.2.1 0]; exact hdfd)
              cw4.1 ((cw4.2 pIdx hp).2.2.1)
              (((cw4.2 s hsB.1).2.2.2.2 0 (by omega)).1)
            rw [hu5] at hq
            exact hq
          have hJ6 := slv_push_doSlave u5 pIdx s 2 hJ5.1 hJ5.2
          rw [e6] at hJ6
          have hJ7 := slv_push_doSlave u6 pIdx s 3 hJ6.1 hJ6.2
          rw [e7] at hJ7
          have hJ8 : ((u8.lines s).subs 0).curconf =
              ⟨(u8.lines pIdx).confno, CONFMODE_REAL⟩ ∧
              0 ≤ (u8.lines pIdx).confno := by
            constructor
            · rw [← e8, doInconf_curconf_other u7 pIdx false sOpt s 0
                  (fun hc => hsB.2 hc.1),
                doInconf_confno_self_stable u7 pIdx false sOpt hJ7.2, hJ7.1]
            · rw [← e8, doInconf_confno_self_stable u7 pIdx false sOpt hJ7.2]
              exact hJ7.2
          have hJ9cc : ((u9.lines s).subs 0).curconf =
              ⟨(u8.lines pIdx).confno, CONFMODE_REAL⟩ := by
            rw [← e9, doMaster_curconf_other u8 pIdx s 0
              (fun hc => hsB.2 hc.1), hJ8.1]
          have hnz : ¬ (n1 + n2 + n3 + n4 + n5 + n6 + n7 + n8 = 0) := by omega
          have hccw1 : ((w1.lines s).subs 0).curconf =
              ⟨(w1.lines pIdx).confno, CONFMODE_REAL⟩ := by
            rw [hccF s 0, hJ9cc, ← hpcFn hnz]
          rw [conf_add_noop_match w1 pIdx s 0 0 0
            (by rw [ziFor_sub0, hccw1]), ← hn5]
      | true =>
        obtain ⟨s', hs'eq, hntw, hocc, hlaw⟩ := isslavenative_true hsn rfl
        obtain ⟨x', hx'4, hsx', hoth⟩ := occupiedSlaves_single hocc
        have hx1 : x' = 1 := by
          by_contra hne
          rw [hoth 1 (by omega) (fun h => hne h.symm)] at hs
          exact Option.noConfusion hs
        subst hx1
        have hss : s = s' := Option.some_inj.mp (hs.symm.trans hsx')
        subst hss
        rw [doSlave_some_usn u4 pIdx 1 s hs4] at h5
        have hu5 : (conf_add u4 pIdx s 0 0
            (GET_CHANNEL (u4.lines pIdx))).1 = u5 :=
          congrArg (fun t => t.1) h5
        have hn5 : (0 : Nat) = n5 := congrArg (fun t => t.2.2) h5
        rw [doSlave_some_usn w1 pIdx 1 s hsw1]
        by_cases hdfd : ((w.lines s).subs 0).dfd < 0
        · rw [conf_add_noop_dfd w1 pIdx s 0 0 _
            (by rw [hdfdF s 0]; exact hdfd), ← hn5]
        · have hchu4 : (u4.lines pIdx).channel = (w.lines pIdx).channel :=
            (shape_eq_fields (s4 pIdx)).1
          have hzi4 : ziFor (u4.lines pIdx) 0 (GET_CHANNEL (u4.lines pIdx)) =
              ⟨(w.lines pIdx).channel, DAHDI_CONF_DIGITALMON⟩ := by
            rw [GET_CHANNEL_eq,
              ziFor_pos (u4.lines pIdx) 0 _ (by rw [hchu4]; omega), hchu4]
          have hJ5 : ((u5.lines s).subs 0).curconf =
              ⟨(w.lines pIdx).channel, DAHDI_CONF_DIGITALMON⟩ := by
            rw [← hu5, conf_add_result_cc u4 pIdx s 0 0 _
              (by rw [(shape_eq_fields (s4 s)).2.2.2.1 0]; exact hdfd)
              (by rw [hzi4]
                  show (w.lines pIdx).channel ≠ -1
                  omega), hzi4]
          have hn6 : (u5.lines pIdx).slaves 2 = none := by
            rw [(shape_eq_fields (s5 pIdx)).2.2.2.2.2.1 2,
              hoth 2 (by omega) (by omega)]
          have hn7 : (u6.lines pIdx).slaves 3 = none := by
            rw [(shape_eq_fields (s6 pIdx)).2.2.2.2.2.1 3,
              hoth 3 (by omega) (by omega)]
          have hu65 : u5 = u6 :=
            congrArg (fun t => t.1)
              ((doSlave_none u5 pIdx true 2 hn6).symm.trans h6)
          have hu76 : u6 = u7 :=
            congrArg (fun t => t.1)
              ((doSlave_none u6 pIdx true 3 hn7).symm.trans h7)
          have hP : ((u9.lines s).subs 0).curconf =
              ((u5.lines s).subs 0).curconf := by
            rw [← e9, doMaster_curconf_other u8 pIdx s 0
                (fun hc => hsB.2 hc.1),
              ← e8, doInconf_curconf_other u7 pIdx true sOpt s 0
                (fun hc => hsB.2 hc.1),
              ← hu76, ← hu65]
          have hccw1 : ((w1.lines s).subs 0).curconf =
              ⟨(w.lines pIdx).channel, DAHDI_CONF_DIGITALMON⟩ := by
            rw [hccF s 0, hP, hJ5]
          rw [conf_add_noop_match w1 pIdx s 0 0 _
            (by rw [GET_CHANNEL_eq,
                ziFor_pos (w1.lines pIdx) 0 _ (by rw [hch pIdx]; omega),
                hch pIdx, hccw1]),
            ← hn5]
  have O6 : doSlave w1 pIdx usn 2 = (w1, 0, n6) := by
    rcases hs : (w.lines pIdx).slaves 2 with - | s
    · have hn : doSlave u5 pIdx usn 2 = (u5, 0, 0) :=
        doSlave_none u5 pIdx usn 2
          (by rw [(shape_eq_fields (s5 pIdx)).2.2.2.2.2.1 2, hs])
      rw [hn] at h6
      have hn6 : (0 : Nat) = n6 := congrArg (fun t => t.2.2) h6
      rw [doSlave_none w1 pIdx usn 2 (by rw [hslvF 2, hs]), ← hn6]
    · have hsB := hslvB 2 (by omega) s hs
      have hs5 : (u5.lines pIdx).slaves 2 = some s := by
        rw [(shape_eq_fields (s5 pIdx)).2.2.2.2.2.1 2]
        exact hs
      have hsw1 : (w1.lines pIdx).slaves 2 = some s := by
        rw [hslvF 2]
        exact hs
      cases usn with
      | false =>
        rw [doSlave_some_gen u5 pIdx 2 s hs5] at h6
        have hu6 : (conf_add u5 pIdx s 0 0 0).1 = u6 :=
          congrArg (fun t => t.1) h6
        have hn6 : (1 : Nat) = n6 := congrArg (fun t => t.2.2) h6
        rw [doSlave_some_gen w1 pIdx 2 s hsw1]
        by_cases hdfd : ((w.lines s).subs 0).dfd < 0
        · rw [conf_add_noop_dfd w1 pIdx s 0 0 0
            (by rw [hdfdF s 0]; exact hdfd), ← hn6]
        · have hJ6 : ((u6.lines s).subs 0).curconf =
              ⟨(u6.lines pIdx).confno, CONFMODE_REAL⟩ ∧
              0 ≤ (u6.lines pIdx).confno := by
            have hq := conf_add_own_cc u5 pIdx s 0 0 CONFMODE_REAL
              (ziFor_sub0 (u5.lines pIdx))
              (by rw [(shape_eq_fields (s5 s)).2.2.2.1 0]; exact hdfd)
              cw5.1 ((cw5.2 pIdx hp).2.2.1)
              (((cw5.2 s hsB.1).2.2.2.2 0 (by omega)).1)
            rw [hu6] at hq
            exact hq
          have hJ7 := slv_push_doSlave u6 pIdx s 3 hJ6.1 hJ6.2
          rw [e7] at hJ7
          have hJ8 : ((u8.lines s).subs 0).curconf =
              ⟨(u8.lines pIdx).confno, CONFMODE_REAL⟩ ∧
              0 ≤ (u8.lines pIdx).confno := by
            constructor
            · rw [← e8, doInconf_curconf_other u7 pIdx false sOpt s 0
                  (fun hc => hsB.2 hc.1),
                doInconf_confno_self_stable u7 pIdx false sOpt hJ7.2, hJ7.1]
            · rw [← e8, doInconf_confno_self_stable u7 pIdx false sOpt hJ7.2]
              exact hJ7.2
          have hJ9cc : ((u9.lines s).subs 0).curconf =
              ⟨(u8.lines pIdx).confno, CONFMODE_REAL⟩ := by
            rw [← e9, doMaster_curconf_other u8 pIdx s 0
              (fun hc => hsB.2 hc.1), hJ8.1]
          have hnz : ¬ (n1 + n2 + n3 + n4 + n5 + n6 + n7 + n8 = 0) := by omega
          have hccw1 : ((w1.lines s).subs 0).curconf =
              ⟨(w1.lines pIdx).confno, CONFMODE_REAL⟩ := by
            rw [hccF s 0, hJ9cc, ← hpcFn hnz]
          rw [conf_add_noop_match w1 pIdx s 0 0 0
            (by rw [ziFor_sub0, hccw1]), ← hn6]
      | true =>
        obtain ⟨s', hs'eq, hntw, hocc, hlaw⟩ := isslavenative_true hsn rfl
        obtain ⟨x', hx'4, hsx', hoth⟩ := occupiedSlaves_single hocc
        have hx2 : x' = 2 := by
          by_contra hne
          rw [hoth 2 (by omega) (fun h => hne h.symm)] at hs
          exact Option.noConfusion hs
        subst hx2
        have hss : s = s' := Option.some_inj.mp (hs.symm.trans hsx')
        subst hss
        rw [doSlave_some_usn u5 pIdx 2 s hs5] at h6
        have hu6 : (conf_add u5 pIdx s 0 0
            (GET_CHANNEL (u5.lines pIdx))).1 = u6 :=
          congrArg (fun t => t.1) h6
        have hn6 : (0 : Nat) = n6 := congrArg (fun t => t.2.2) h6
        rw [doSlave_some_usn w1 pIdx 2 s hsw1]
        by_cases hdfd : ((w.lines s).subs 0).dfd < 0
        · rw [conf_add_noop_dfd w1 pIdx s 0 0 _
            (by rw [hdfdF s 0]; exact hdfd), ← hn6]
        · have hchu5 : (u5.lines pIdx).channel = (w.lines pIdx).channel :=
            (shape_eq_fields (s5 pIdx)).1
          have hzi5 : ziFor (u5.lines pIdx) 0 (GET_CHANNEL (u5.lines pIdx)) =
              ⟨(w.lines pIdx).channel, DAHDI_CONF_DIGITALMON⟩ := by
            rw [GET_CHANNEL_eq,
              ziFor_pos (u5.lines pIdx) 0 _ (by rw [hchu5]; omega), hchu5]
          have hJ6 : ((u6.lines s).subs 0).curconf =
              ⟨(w.lines pIdx).channel, DAHDI_CONF_DIGITALMON⟩ := by
            rw [← hu6, conf_add_result_cc u5 pIdx s 0 0 _
              (by rw [(shape_eq_fields (s5 s)).2.2.2.1 0]; exact hdfd)
              (by rw [hzi5]
                  show (w.lines pIdx).channel ≠ -1
                  omega), hzi5]
          have hn7 : (u6.lines pIdx).slaves 3 = none := by
            rw [(shape_eq_fields (s6 pIdx)).2.2.2.2.2.1 3,
              hoth 3 (by omega) (by omega)]
          have hu76 : u6 = u7 :=
            congrArg (fun t => t.1)
              ((doSlave_none u6 pIdx true 3 hn7).symm.trans h7)
          have hP : ((u9.lines s).subs 0).curconf =
              ((u6.lines s).subs 0).curconf := by
            rw [← e9, doMaster_curconf_other u8 pIdx s 0
                (fun hc => hsB.2 hc.1),
              ← e8, doInconf_curconf_other u7 pIdx true sOpt s 0
                (fun hc => hsB.2 hc.1),
              ← hu76]
          have hccw1 : ((w1.lines s).subs 0).curconf =
              ⟨(w.lines pIdx).channel, DAHDI_CONF_DIGITALMON⟩ := by
            rw [hccF s 0, hP, hJ6]
          rw [conf_add_noop_match w1 pIdx s 0 0 _
            (by rw [GET_CHANNEL_eq,
                ziFor_pos (w1.lines pIdx) 0 _ (by rw [hch pIdx]; omega),
                hch pIdx, hccw1]),
            ← hn6]
  have O7 : doSlave w1 pIdx usn 3 = (w1, 0, n7) := by
    rcases hs : (w.lines pIdx).slaves 3 with - | s
    · have hn : doSlave u6 pIdx usn 3 = (u6, 0, 0) :=
        doSlave_none u6 pIdx usn 3
          (by rw [(shape_eq_fields (s6 pIdx)).2.2.2.2.2.1 3, hs])
      rw [hn] at h7
      have hn7 : (0 : Nat) = n7 := congrArg (fun t => t.2.2) h7
      rw [doSlave_none w1 pIdx usn 3 (by rw [hslvF 3, hs]), ← hn7]
    · have hsB := hslvB 3 (by omega) s hs
      have hs6 : (u6.lines pIdx).slaves 3 = some s := by
        rw [(shape_eq_fields (s6 pIdx)).2.2.2.2.2.1 3]
        exact hs
      have hsw1 : (w1.lines pIdx).slaves 3 = some s := by
        rw [hslvF 3]
        exact hs
      cases usn with
      | false =>
        rw [doSlave_some_gen u6 pIdx 3 s hs6] at h7
        have hu7 : (conf_add u6 pIdx s 0 0 0).1 = u7 :=
          congrArg (fun t => t.1) h7
        have hn7 : (1 : Nat) = n7 := congrArg (fun t => t.2.2) h7
        rw [doSlave_some_gen w1 pIdx 3 s hsw1]
        by_cases hdfd : ((w.lines s).subs 0).dfd < 0
        · rw [conf_add_noop_dfd w1 pIdx s 0 0 0
            (by rw [hdfdF s 0]; exact hdfd), ← hn7]
        · have hJ7 : ((u7.lines s).subs 0).curconf =
              ⟨(u7.lines pIdx).confno, CONFMODE_REAL⟩ ∧
              0 ≤ (u7.lines pIdx).confno := by
            have hq := conf_add_own_cc u6 pIdx s 0 0 CONFMODE_REAL
              (ziFor_sub0 (u6.lines pIdx))
              (by rw [(shape_eq_fields (s6 s)).2.2.2.1 0]; exact hdfd)
              cw6.1 ((cw6.2 pIdx hp).2.2.1)
              (((cw6.2 s hsB.1).2.2.2.2 0 (by omega)).1)
            rw [hu7] at hq
            exact hq
          have hJ8 : ((u8.lines s).subs 0).curconf =
              ⟨(u8.lines pIdx).confno, CONFMODE_REAL⟩ ∧
              0 ≤ (u8.lines pIdx).confno := by
            constructor
            · rw [← e8, doInconf_curconf_other u7 pIdx false sOpt s 0
                  (fun hc => hsB.2 hc.1),
                doInconf_confno_self_stable u7 pIdx false sOpt hJ7.2, hJ7.1]
            · rw [← e8, doInconf_confno_self_stable u7 pIdx false sOpt hJ7.2]
              exact hJ7.2
          have hJ9cc : ((u9.lines s).subs 0).curconf =
              ⟨(u8.lines pIdx).confno, CONFMODE_REAL⟩ := by
            rw [← e9, doMaster_curconf_other u8 pIdx s 0
              (fun hc => hsB.2 hc.1), hJ8.1]
          have hnz : ¬ (n1 + n2 + n3 + n4 + n5 + n6 + n7 + n8 = 0) := by omega
          have hccw1 : ((w1.lines s).subs 0).curconf =
              ⟨(w1.lines pIdx).confno, CONFMODE_REAL⟩ := by
            rw [hccF s 0, hJ9cc, ← hpcFn hnz]
          rw [conf_add_noop_match w1 pIdx s 0 0 0
            (by rw [ziFor_sub0, hccw1]), ← hn7]
      | true =>
        obtain ⟨s', hs'eq, hntw, hocc, hlaw⟩ := isslavenative_true hsn rfl
        obtain ⟨x', hx'4, hsx', hoth⟩ := occupiedSlaves_single hocc
        have hx3 : x' = 3 := by
          by_contra hne
          rw [hoth 3 (by omega) (fun h => hne h.symm)] at hs
          exact Option.noConfusion hs
        subst hx3
        have hss : s = s' := Option.some_inj.mp (hs.symm.trans hsx')
        subst hss
        rw [doSlave_some_usn u6 pIdx 3 s hs6] at h7
        have hu7 : (conf_add u6 pIdx s 0 0
            (GET_CHANNEL (u6.lines pIdx))).1 = u7 :=
          congrArg (fun t => t.1) h7
        have hn7 : (0 : Nat) = n7 := congrArg (fun t => t.2.2) h7
        rw [doSlave_some_usn w1 pIdx 3 s hsw1]
        by_cases hdfd : ((w.lines s).subs 0).dfd < 0
        · rw [conf_add_noop_dfd w1 pIdx s 0 0 _
            (by rw [hdfdF s 0]; exact hdfd), ← hn7]
        · have hchu6 : (u6.lines pIdx).channel = (w.lines pIdx).channel :=
            (shape_eq_fields (s6 pIdx)).1
          have hzi6 : ziFor (u6.lines pIdx) 0 (GET_CHANNEL (u6.lines pIdx)) =
              ⟨(w.lines pIdx).channel, DAHDI_CONF_DIGITALMON⟩ := by
            rw [GET_CHANNEL_eq,
              ziFor_pos (u6.lines pIdx) 0 _ (by rw [hchu6]; omega), hchu6]
          have hJ7 : ((u7.lines s).subs 0).curconf =
              ⟨(w.lines pIdx).channel, DAHDI_CONF_DIGITALMON⟩ := by
            rw [← hu7, conf_add_result_cc u6 pIdx s 0 0 _
              (by rw [(shape_eq_fields (s6 s)).2.2.2.1 0]; exact hdfd)
              (by rw [hzi6]
                  show (w.lines pIdx).channel ≠ -1
                  omega), hzi6]
          have hP : ((u9.lines s).subs 0).curconf =
              ((u7.lines s).subs 0).curconf := by
            rw [← e9, doMaster_curconf_other u8 pIdx s 0
                (fun hc => hsB.2 hc.1),
              ← e8, doInconf_curconf_other u7 pIdx true sOpt s 0
                (fun hc => hsB.2 hc.1)]
          have hccw1 : ((w1.lines s).subs 0).curconf =
              ⟨(w.lines pIdx).channel, DAHDI_CONF_DIGITALMON⟩ := by
            rw [hccF s 0, hP, hJ7]
          rw [conf_add_noop_match w1 pIdx s 0 0 _
            (by rw [GET_CHANNEL_eq,
                ziFor_pos (w1.lines pIdx) 0 _ (by rw [hch pIdx]; omega),
                hch pIdx, hccw1]),
            ← hn7]
  have hrun2 := update_conf_run w1 pIdx usn sOpt w1 w1 w1 w1 w1 w1 w1 w1 w1
    0 0 0 0 0 0 0 0 0 n1 n2 n3 n4 n5 n6 n7 n8 hsnF O1 O2 O3 O4 O5 O6 O7 O8 O9
  rw [hrun2]
  by_cases hz : n1 + n2 + n3 + n4 + n5 + n6 + n7 + n8 = 0
  · rw [if_pos hz]
    have hpc1 : (w1.lines pIdx).confno = -1 := by
      rw [hw1c, if_pos hz]
      simp only [updLine_lines]
      rw [if_true]
    rw [updLine_confno_self w1 pIdx hpc1]
  · rw [if_neg hz]

/-- A well-formed single-Line world satisfying the side condition: real
sub-channel allocated, no three-way, not in conference, no links. -/
def idemPvt : Pvt :=
  { channel := 1, law := 0, sig := SIG_FXOKS, confno := -1,
    inconference := false, polarity := 0, owner := some 10, dialing := false,
    ringt := 0, sub0 := subW 3 0 (some 10) false,
    sub1 := subW (-1) 0 none false, sub2 := subW (-1) 0 none false,
    slave0 := none, slave1 := none, slave2 := none, slave3 := none,
    master := none }

def idemW : World :=
  { numLines := 1, lines := fun _ => idemPvt, nextConf := 2 }

theorem update_conf_idempotent_witness :
    (0 < idemW.numLines ∧ WF idemW ∧ NoForeignJoin idemW 0) ∧
    update_conf (update_conf idemW 0).1 0 = ((update_conf idemW 0).1, 0) :=
  ⟨⟨by decide, by decide, by decide⟩,
   update_conf_idempotent idemW 0 (by decide) (by decide) (by decide)⟩

/- ───────── C3: slave-native mode selection ───────── -/

/-- C3: reconciliation merges a slave Line through the direct digital
monitor (slave-native mode, `DAHDI_CONF_DIGITALMON`) precisely when no
allocated sub-channel of the master is in a three-way, the master has
exactly one occupied slave slot — holding that slave — and the slave's
companding law equals the master's; in every other case the slave's real
sub-channel is programmed as a member of the shared conference
(`CONFMODE_REAL`). -/
theorem update_conf_slave_mode (w : World) (pIdx x s : Nat)
    (hp : pIdx < w.numLines) (hwf : WF w) (hx : x < 4)
    (hs : (w.lines pIdx).slaves x = some s)
    (hdfd : ¬ ((w.lines s).subs 0).dfd < 0) :
    ((((update_conf w pIdx).1.lines s).subs 0).curconf).confmode =
      (if ¬ hasActiveThreeway (w.lines pIdx) ∧
          occupiedSlaves (w.lines pIdx) = [s] ∧
          (w.lines s).law = (w.lines pIdx).law
        then DAHDI_CONF_DIGITALMON else CONFMODE_REAL) := by
  obtain ⟨hnc1, hlineswf, hdist⟩ := hwf
  rcases hsn : isslavenative w pIdx with ⟨usn, sOpt⟩
  rcases h1 : doSub w pIdx 0 with ⟨u1, c1, n1⟩
  rcases h2 : doSub u1 pIdx 1 with ⟨u2, c2, n2⟩
  rcases h3 : doSub u2 pIdx 2 with ⟨u3, c3, n3⟩
  rcases h4 : doSlave u3 pIdx usn 0 with ⟨u4, c4, n4⟩
  rcases h5 : doSlave u4 pIdx usn 1 with ⟨u5, c5, n5⟩
  rcases h6 : doSlave u5 pIdx usn 2 with ⟨u6, c6, n6⟩
  rcases h7 : doSlave u6 pIdx usn 3 with ⟨u7, c7, n7⟩
  rcases h8 : doInconf u7 pIdx usn sOpt with ⟨u8, c8, n8⟩
  rcases h9 : doMaster u8 pIdx with ⟨u9, c9⟩
  have hrun1 := update_conf_run w pIdx usn sOpt u1 u2 u3 u4 u5 u6 u7 u8 u9
    c1 c2 c3 c4 c5 c6 c7 c8 c9 n1 n2 n3 n4 n5 n6 n7 n8
    hsn h1 h2 h3 h4 h5 h6 h7 h8 h9
  have e1 : (doSub w pIdx 0).1 = u1 := by rw [h1]
  have e2 : (doSub u1 pIdx 1).1 = u2 := by rw [h2]
  have e3 : (doSub u2 pIdx 2).1 = u3 := by rw [h3]
  have e4 : (doSlave u3 pIdx usn 0).1 = u4 := by rw [h4]
  have e5 : (doSlave u4 pIdx usn 1).1 = u5 := by rw [h5]
  have e6 : (doSlave u5 pIdx usn 2).1 = u6 := by rw [h6]
  have e7 : (doSlave u6 pIdx usn 3).1 = u7 := by rw [h7]
  have e8 : (doInconf u7 pIdx usn sOpt).1 = u8 := by rw [h8]
  have e9 : (doMaster u8 pIdx).1 = u9 := by rw [h9]
  have s1 : ∀ j, (u1.lines j).shape = (w.lines j).shape :=
    fun j => e1 ▸ doSub_shape w pIdx 0 j
  have s2 : ∀ j, (u2.lines j).shape = (w.lines j).shape :=
    fun j => (e2 ▸ doSub_shape u1 pIdx 1 j).trans (s1 j)
  have s3 : ∀ j, (u3.lines j).shape = (w.lines j).shape :=
    fun j => (e3 ▸ doSub_shape u2 pIdx 2 j).trans (s2 j)
  have s4 : ∀ j, (u4.lines j).shape = (w.lines j).shape :=
    fun j => (e4 ▸ doSlave_shape u3 pIdx usn 0 j).trans (s3 j)
  have s5 : ∀ j, (u5.lines j).shape = (w.lines j).shape :=
    fun j => (e5 ▸ doSlave_shape u4 pIdx usn 1 j).trans (s4 j)
  have s6 : ∀ j, (u6.lines j).shape = (w.lines j).shape :=
    fun j => (e6 ▸ doSlave_shape u5 pIdx usn 2 j).trans (s5 j)
  have s8 : ∀ j, (u8.lines j).shape = (w.lines j).shape :=
    fun j => ((e8 ▸ doInconf_shape u7 pIdx usn sOpt j).trans
      ((e7 ▸ doSlave_shape u6 pIdx usn 3 j).trans (s6 j)))
  have cw0 : ConfnoWF w.numLines w := ⟨hnc1, fun i hi => (hlineswf i hi).1⟩
  have cw1 : ConfnoWF w.numLines u1 := e1 ▸ doSub_ConfnoWF w pIdx 0 _ cw0 hp
  have cw2 : ConfnoWF w.numLines u2 := e2 ▸ doSub_ConfnoWF u1 pIdx 1 _ cw1 hp
  have cw3 : ConfnoWF w.numLines u3 := e3 ▸ doSub_ConfnoWF u2 pIdx 2 _ cw2 hp
  have cw4 : ConfnoWF w.numLines u4 :=
    e4 ▸ doSlave_ConfnoWF u3 pIdx usn 0 _ cw3 hp
  have cw5 : ConfnoWF w.numLines u5 :=
    e5 ▸ doSlave_ConfnoWF u4 pIdx usn 1 _ cw4 hp
  have cw6 : ConfnoWF w.numLines u6 :=
    e6 ▸ doSlave_ConfnoWF u5 pIdx usn 2 _ cw5 hp
  obtain ⟨hch1, hchN, hpcm1, hpcN, hccB⟩ := (hlineswf pIdx hp).1
  have hsB : s < w.numLines ∧ s ≠ pIdx :=
    refOK_some ((hlineswf pIdx hp).2.1 x hx) hs
  set w1 := (update_conf w pIdx).1 with hw1def
  have hw1c : w1 = (if n1 + n2 + n3 + n4 + n5 + n6 + n7 + n8 = 0 then
      u9.updLine pIdx (fun q => { q with confno := -1 }) else u9) := by
    rw [hw1def, hrun1]
  have hccF : ∀ j y, ((w1.lines j).subs y).curconf =
      ((u9.lines j).subs y).curconf := by
    intro j y
    rw [hw1c]
    by_cases hz : n1 + n2 + n3 + n4 + n5 + n6 + n7 + n8 = 0
    · rw [if_pos hz]
      simp only [updLine_lines]
      by_cases hj : j = pIdx
      · subst hj
        rw [if_pos rfl]
        exact congrArg Sub.curconf (confnoSet_subs (u9.lines j) (-1) y)
      · rw [if_neg hj]
    · rw [if_neg hz]
  have hcond : (¬ hasActiveThreeway (w.lines pIdx) ∧
      occupiedSlaves (w.lines pIdx) = [s] ∧
      (w.lines s).law = (w.lines pIdx).law) ↔ usn = true := by
    constructor
    · rintro ⟨hnat, hocc, hlaw⟩
      have hq : isslavenative w pIdx = (true, some s) := by
        simp only [isslavenative]
        rw [if_neg hnat, hocc]
        simp [hlaw]
      rw [hsn] at hq
      exact congrArg Prod.fst hq
    · intro hu
      obtain ⟨s', hsopt, hnat, hocc, hlaw⟩ := isslavenative_true hsn hu
      obtain ⟨x', hx'4, hsx', hoth⟩ := occupiedSlaves_single hocc
      have hxx : x = x' := by
        by_contra hne
        rw [hoth x hx hne] at hs
        exact Option.noConfusion hs
      subst hxx
      have hss : s = s' := Option.some_inj.mp (hs.symm.trans hsx')
      subst hss
      exact ⟨hnat, hocc, hlaw⟩
  cases usn with
  | true =>
    rw [if_pos (hcond.mpr rfl)]
    obtain ⟨s', hsopt, hnat, hocc, hlaw⟩ := isslavenative_true hsn rfl
    obtain ⟨x', hx'4, hsx', hoth⟩ := occupiedSlaves_single hocc
    have hxx : x = x' := by
      by_contra hne
      rw [hoth x hx hne] at hs
      exact Option.noConfusion hs
    subst hxx
    have hss : s = s' := Option.some_inj.mp (hs.symm.trans hsx')
    subst hss
    interval_cases x
    · have hs3 : (u3.lines pIdx).slaves 0 = some s := by
        rw [(shape_eq_fields (s3 pIdx)).2.2.2.2.2.1 0]
        exact hs
      rw [doSlave_some_usn u3 pIdx 0 s hs3] at h4
      have hu4 : (conf_add u3 pIdx s 0 0
          (GET_CHANNEL (u3.lines pIdx))).1 = u4 :=
        congrArg (fun t => t.1) h4
      have hchu : (u3.lines pIdx).channel = (w.lines pIdx).channel :=
        (shape_eq_fields (s3 pIdx)).1
      have hzi : ziFor (u3.lines pIdx) 0 (GET_CHANNEL (u3.lines pIdx)) =
          ⟨(w.lines pIdx).channel, DAHDI_CONF_DIGITALMON⟩ := by
        rw [GET_CHANNEL_eq,
          ziFor_pos (u3.lines pIdx) 0 _ (by rw [hchu]; omega), hchu]
      have hJ : ((u4.lines s).subs 0).curconf =
          ⟨(w.lines pIdx).channel, DAHDI_CONF_DIGITALMON⟩ := by
        rw [← hu4, conf_add_result_cc u3 pIdx s 0 0 _
          (by rw [(shape_eq_fields (s3 s)).2.2.2.1 0]; exact hdfd)
          (by rw [hzi]
              show (w.lines pIdx).channel ≠ -1
              omega), hzi]
      have hn5 : (u4.lines pIdx).slaves 1 = none := by
        rw [(shape_eq_fields (s4 pIdx)).2.2.2.2.2.1 1,
          hoth 1 (by omega) (by omega)]
      have hn6 : (u5.lines pIdx).slaves 2 = none := by
        rw [(shape_eq_fields (s5 pIdx)).2.2.2.2.2.1 2,
          hoth 2 (by omega) (by omega)]
      have hn7 : (u6.lines pIdx).slaves 3 = none := by
        rw [(shape_eq_fields (s6 pIdx)).2.2.2.2.2.1 3,
          hoth 3 (by omega) (by omega)]
      have hu54 : u4 = u5 :=
        congrArg (fun t => t.1)
          ((doSlave_none u4 pIdx true 1 hn5).symm.trans h5)
      have hu65 : u5 = u6 :=
        congrArg (fun t => t.1)
          ((doSlave_none u5 pIdx true 2 hn6).symm.trans h6)
      have hu76 : u6 = u7 :=
        congrArg (fun t => t.1)
          ((doSlave_none u6 pIdx true 3 hn7).symm.trans h7)
      have hP : ((u9.lines s).subs 0).curconf =
          ((u4.lines s).subs 0).curconf := by
        rw [← e9, doMaster_curconf_other u8 pIdx s 0 (fun hc => hsB.2 hc.1),
          ← e8, doInconf_curconf_other u7 pIdx true sOpt s 0
            (fun hc => hsB.2 hc.1),
          ← hu76, ← hu65, ← hu54]
      rw [hccF s 0, hP, hJ]
    · have hn4 : (u3.lines pIdx).slaves 0 = none := by
        rw [(shape_eq_fields (s3 pIdx)).2.2.2.2.2.1 0,
          hoth 0 (by omega) (by omega)]
      have hu43 : u3 = u4 :=
        congrArg (fun t => t.1)
          ((doSlave_none u3 pIdx true 0 hn4).symm.trans h4)
      have hs4 : (u4.lines pIdx).slaves 1 = some s := by
        rw [(shape_eq_fields (s4 pIdx)).2.2.2.2.2.1 1]
        exact hs
      rw [doSlave_some_usn u4 pIdx 1 s hs4] at h5
      have hu5 : (conf_add u4 pIdx s 0 0
          (GET_CHANNEL (u4.lines pIdx))).1 = u5 :=
        congrArg (fun t => t.1) h5
      have hchu : (u4.lines pIdx).channel = (w.lines pIdx).channel :=
        (shape_eq_fields (s4 pIdx)).1
      have hzi : ziFor (u4.lines pIdx) 0 (GET_CHANNEL (u4.lines pIdx)) =
          ⟨(w.lines pIdx).channel, DAHDI_CONF_DIGITALMON⟩ := by
        rw [GET_CHANNEL_eq,
          ziFor_pos (u4.lines pIdx) 0 _ (by rw [hchu]; omega), hchu]
      have hJ : ((u5.lines s).subs 0).curconf =
          ⟨(w.lines pIdx).channel, DAHDI_CONF_DIGITALMON⟩ := by
        rw [← hu5, conf_add_result_cc u4 pIdx s 0 0 _
          (by rw [(shape_eq_fields (s4 s)).2.2.2.1 0]; exact hdfd)
          (by rw [hzi]
              show (w.lines pIdx).channel ≠ -1
              omega), hzi]
      have hn6 : (u5.lines pIdx).slaves 2 = none := by
        rw [(shape_eq_fields (s5 pIdx)).2.2.2.2.2.1 2,
          hoth 2 (by omega) (by omega)]
      have hn7 : (u6.lines pIdx).slaves 3 = none := by
        rw [(shape_eq_fields (s6 pIdx)).2.2.2.2.2.1 3,
          hoth 3 (by omega) (by omega)]
      have hu65 : u5 = u6 :=
        congrArg (fun t => t.1)
          ((doSlave_none u5 pIdx true 2 hn6).symm.trans h6)
      have hu76 : u6 = u7 :=
        congrArg (fun t => t.1)
          ((doSlave_none u6 pIdx true 3 hn7).symm.trans h7)
      have hP : ((u9.lines s).subs 0).curconf =
          ((u5.lines s).subs 0).curconf := by
        rw [← e9, doMaster_curconf_other u8 pIdx s 0 (fun hc => hsB.2 hc.1),
          ← e8, doInconf_curconf_other u7 pIdx true sOpt s 0
            (fun hc => hsB.2 hc.1),
          ← hu76, ← hu65]
      rw [hccF s 0, hP, hJ]
    · have hn4 : (u3.lines pIdx).slaves 0 = none := by
        rw [(shape_eq_fields (s3 pIdx)).2.2.2.2.2.1 0,
          hoth 0 (by omega) (by omega)]
      have hu43 : u3 = u4 :=
        congrArg (fun t => t.1)
          ((doSlave_none u3 pIdx true 0 hn4).symm.trans h4)
      have hn5 : (u4.lines pIdx).slaves 1 = none := by
        rw [(shape_eq_fields (s4 pIdx)).2.2.2.2.2.1 1,
          hoth 1 (by omega) (by omega)]
      have hu54 : u4 = u5 :=
        congrArg (fun t => t.1)
          ((doSlave_none u4 pIdx true 1 hn5).symm.trans h5)
      have hs5 : (u5.lines pIdx).slaves 2 = some s := by
        rw [(shape_eq_fields (s5 pIdx)).2.2.2.2.2.1 2]
        exact hs
      rw [doSlave_some_usn u5 pIdx 2 s hs5] at h6
      have hu6 : (conf_add u5 pIdx s 0 0
          (GET_CHANNEL (u5.lines pIdx))).1 = u6 :=
        congrArg (fun t => t.1) h6
      have hchu : (u5.lines pIdx).channel = (w.lines pIdx).channel :=
        (shape_eq_fields (s5 pIdx)).1
      have hzi : ziFor (u5.lines pIdx) 0 (GET_CHANNEL (u5.lines pIdx)) =
          ⟨(w.lines pIdx).channel, DAHDI_CONF_DIGITALMON⟩ := by
        rw [GET_CHANNEL_eq,
          ziFor_pos (u5.lines pIdx) 0 _ (by rw [hchu]; omega), hchu]
      have hJ : ((u6.lines s).subs 0).curconf =
          ⟨(w.lines pIdx).channel, DAHDI_CONF_DIGITALMON⟩ := by
        rw [← hu6, conf_add_result_cc u5 pIdx s 0 0 _
          (by rw [(shape_eq_fields (s5 s)).2.2.2.1 0]; exact hdfd)
          (by rw [hzi]
              show (w.lines pIdx).channel ≠ -1
              omega), hzi]
      have hn7 : (u6.lines pIdx).slaves 3 = none := by
        rw [(shape_eq_fields (s6 pIdx)).2.2.2.2.2.1 3,
          hoth 3 (by omega) (by omega)]
      have hu76 : u6 = u7 :=
        congrArg (fun t => t.1)
          ((doSlave_none u6 pIdx true 3 hn7).symm.trans h7)
      have hP : ((u9.lines s).subs 0).curconf =
          ((u6.lines s).subs 0).curconf := by
        rw [← e9, doMaster_curconf_other u8 pIdx s 0 (fun hc => hsB.2 hc.1),
          ← e8, doInconf_curconf_other u7 pIdx true sOpt s 0
            (fun hc => hsB.2 hc.1),
          ← hu76]
      rw [hccF s 0, hP, hJ]
    · have hn4 : (u3.lines pIdx).slaves 0 = none := by
        rw [(shape_eq_fields (s3 pIdx)).2.2.2.2.2.1 0,
          hoth 0 (by omega) (by omega)]
      have hu43 : u3 = u4 :=
        congrArg (fun t => t.1)
          ((doSlave_none u3 pIdx true 0 hn4).symm.trans h4)
      have hn5 : (u4.lines pIdx).slaves 1 = none := by
        rw [(shape_eq_fields (s4 pIdx)).2.2.2.2.2.1 1,
          hoth 1 (by omega) (by omega)]
      have hu54 : u4 = u5 :=
        congrArg (fun t => t.1)
          ((doSlave_none u4 pIdx true 1 hn5).symm.trans h5)
      have hn6 : (u5.lines pIdx).slaves 2 = none := by
        rw [(shape_eq_fields (s5 pIdx)).2.2.2.2.2.1 2,
          hoth 2 (by omega) (by omega)]
      have hu65 : u5 = u6 :=
        congrArg (fun t => t.1)
          ((doSlave_none u5 pIdx true 2 hn6).symm.trans h6)
      have hs6 : (u6.lines pIdx).slaves 3 = some s := by
        rw [(shape_eq_fields (s6 pIdx)).2.2.2.2.2.1 3]
        exact hs
      rw [doSlave_some_usn u6 pIdx 3 s hs6] at h7
      have hu7 : (conf_add u6 pIdx s 0 0
          (GET_CHANNEL (u6.lines pIdx))).1 = u7 :=
        congrArg (fun t => t.1) h7
      have hchu : (u6.lines pIdx).channel = (w.lines pIdx).channel :=
        (shape_eq_fields (s6 pIdx)).1
      have hzi : ziFor (u6.lines pIdx) 0 (GET_CHANNEL (u6.lines pIdx)) =
          ⟨(w.lines pIdx).channel, DAHDI_CONF_DIGITALMON⟩ := by
        rw [GET_CHANNEL_eq,
          ziFor_pos (u6.lines pIdx) 0 _ (by rw [hchu]; omega), hchu]
      have hJ : ((u7.lines s).subs 0).curconf =
          ⟨(w.lines pIdx).channel, DAHDI_CONF_DIGITALMON⟩ := by
        rw [← hu7, conf_add_result_cc u6 pIdx s 0 0 _
          (by rw [(shape_eq_fields (s6 s)).2.2.2.1 0]; exact hdfd)
          (by rw [hzi]
              show (w.lines pIdx).channel ≠ -1
              omega), hzi]
      have hP : ((u9.lines s).subs 0).curconf =
          ((u7.lines s).subs 0).curconf := by
        rw [← e9, doMaster_curconf_other u8 pIdx s 0 (fun hc => hsB.2 hc.1),
          ← e8, doInconf_curconf_other u7 pIdx true sOpt s 0
            (fun hc => hsB.2 hc.1)]
      rw [hccF s 0, hP, hJ]
  | false =>
    rw [if_neg (fun hc => Bool.noConfusion (hcond.mp hc))]
    interval_cases x
    · have hs3 : (u3.lines pIdx).slaves 0 = some s := by
        rw [(shape_eq_fields (s3 pIdx)).2.2.2.2.2.1 0]
        exact hs
      rw [doSlave_some_gen u3 pIdx 0 s hs3] at h4
      have hu4 : (conf_add u3 pIdx s 0 0 0).1 = u4 :=
        congrArg (fun t => t.1) h4
      have hJ4 : ((u4.lines s).subs 0).curconf =
          ⟨(u4.lines pIdx).confno, CONFMODE_REAL⟩ ∧
          0 ≤ (u4.lines pIdx).confno := by
        have hq := conf_add_own_cc u3 pIdx s 0 0 CONFMODE_REAL
          (ziFor_sub0 (u3.lines pIdx))
          (by rw [(shape_eq_fields (s3 s)).2.2.2.1 0]; exact hdfd)
          cw3.1 ((cw3.2 pIdx hp).2.2.1)
          (((cw3.2 s hsB.1).2.2.2.2 0 (by omega)).1)
        rw [hu4] at hq
        exact hq
      have hJ5 := slv_push_doSlave u4 pIdx s 1 hJ4.1 hJ4.2
      rw [e5] at hJ5
      have hJ6 := slv_push_doSlave u5 pIdx s 2 hJ5.1 hJ5.2
      rw [e6] at hJ6
      have hJ7 := slv_push_doSlave u6 pIdx s 3 hJ6.1 hJ6.2
      rw [e7] at hJ7
      have hP : ((u9.lines s).subs 0).curconf =
          ((u7.lines s).subs 0).curconf := by
        rw [← e9, doMaster_curconf_other u8 pIdx s 0 (fun hc => hsB.2 hc.1),
          ← e8, doInconf_curconf_other u7 pIdx false sOpt s 0
            (fun hc => hsB.2 hc.1)]
      rw [hccF s 0, hP, hJ7.1]
    · have hs4 : (u4.lines pIdx).slaves 1 = some s := by
        rw [(shape_eq_fields (s4 pIdx)).2.2.2.2.2.1 1]
        exact hs
      rw [doSlave_some_gen u4 pIdx 1 s hs4] at h5
      have hu5 : (conf_add u4 pIdx s 0 0 0).1 = u5 :=
        congrArg (fun t => t.1) h5
      have hJ5 : ((u5.lines s).subs 0).curconf =
          ⟨(u5.lines pIdx).confno, CONFMODE_REAL⟩ ∧
          0 ≤ (u5.lines pIdx).confno := by
        have hq := conf_add_own_cc u4 pIdx s 0 0 CONFMODE_REAL
          (ziFor_sub0 (u4.lines pIdx))
          (by rw [(shape_eq_fields (s4 s)).2.2.2.1 0]; exact hdfd)
          cw4.1 ((cw4.2 pIdx hp).2.2.1)
          (((cw4.2 s hsB.1).2.2.2.2 0 (by omega)).1)
        rw [hu5] at hq
        exact hq
      have hJ6 := slv_push_doSlave u5 pIdx s 2 hJ5.1 hJ5.2
      rw [e6] at hJ6
      have hJ7 := slv_push_doSlave u6 pIdx s 3 hJ6.1 hJ6.2
      rw [e7] at hJ7
      have hP : ((u9.lines s).subs 0).curconf =
          ((u7.lines s).subs 0).curconf := by
        rw [← e9, doMaster_curconf_other u8 pIdx s 0 (fun hc => hsB.2 hc.1),
          ← e8, doInconf_curconf_other u7 pIdx false sOpt s 0
            (fun hc => hsB.2 hc.1)]
      rw [hccF s 0, hP, hJ7.1]
    · have hs5 : (u5.lines pIdx).slaves 2 = some s := by
        rw [(shape_eq_fields (s5 pIdx)).2.2.2.2.2.1 2]
        exact hs
      rw [doSlave_some_gen u5 pIdx 2 s hs5] at h6
      have hu6 : (conf_add u5 pIdx s 0 0 0).1 = u6 :=
        congrArg (fun t => t.1) h6
      have hJ6 : ((u6.lines s).subs 0).curconf =
          ⟨(u6.lines pIdx).confno, CONFMODE_REAL⟩ ∧
          0 ≤ (u6.lines pIdx).confno := by
        have hq := conf_add_own_cc u5 pIdx s 0 0 CONFMODE_REAL
          (ziFor_sub0 (u5.lines pIdx))
          (by rw [(shape_eq_fields (s5 s)).2.2.2.1 0]; exact hdfd)
          cw5.1 ((cw5.2 pIdx hp).2.2.1)
          (((cw5.2 s hsB.1).2.2.2.2 0 (by omega)).1)
        rw [hu6] at hq
        exact hq
      have hJ7 := slv_push_doSlave u6 pIdx s 3 hJ6.1 hJ6.2
      rw [e7] at hJ7
      have hP : ((u9.lines s).subs 0).curconf =
          ((u7.lines s).subs 0).curconf := by
        rw [← e9, doMaster_curconf_other u8 pIdx s 0 (fun hc => hsB.2 hc.1),
          ← e8, doInconf_curconf_other u7 pIdx false sOpt s 0
            (fun hc => hsB.2 hc.1)]
      rw [hccF s 0, hP, hJ7.1]
    · have hs6 : (u6.lines pIdx).slaves 3 = some s := by
        rw [(shape_eq_fields (s6 pIdx)).2.2.2.2.2.1 3]
        exact hs
      rw [doSlave_some_gen u6 pIdx 3 s hs6] at h7
      have hu7 : (conf_add u6 pIdx s 0 0 0).1 = u7 :=
        congrArg (fun t => t.1) h7
      have hJ7 : ((u7.lines s).subs 0).curconf =
          ⟨(u7.lines pIdx).confno, CONFMODE_REAL⟩ ∧
          0 ≤ (u7.lines pIdx).confno := by
        have hq := conf_add_own_cc u6 pIdx s 0 0 CONFMODE_REAL
          (ziFor_sub0 (u6.lines pIdx))
          (by rw [(shape_eq_fields (s6 s)).2.2.2.1 0]; exact hdfd)
          cw6.1 ((cw6.2 pIdx hp).2.2.1)
          (((cw6.2 s hsB.1).2.2.2.2 0 (by omega)).1)
        rw [hu7] at hq
        exact hq
      have hP : ((u9.lines s).subs 0).curconf =
          ((u7.lines s).subs 0).curconf := by
        rw [← e9, doMaster_curconf_other u8 pIdx s 0 (fun hc => hsB.2 hc.1),
          ← e8, doInconf_curconf_other u7 pIdx false sOpt s 0
            (fun hc => hsB.2 hc.1)]
      rw [hccF s 0, hP, hJ7.1]

/-- A well-formed two-Line world: Line 0 masters Line 1 as its only
slave, laws match, no three-way. -/
def slvMasterPvt : Pvt :=
  { channel := 1, law := 0, sig := SIG_FXOKS, confno := -1,
    inconference := false, polarity := 0, owner := some 10, dialing := false,
    ringt := 0, sub0 := subW 3 0 (some 10) false,
    sub1 := subW (-1) 0 none false, sub2 := subW (-1) 0 none false,
    slave0 := some 1, slave1 := none, slave2 := none, slave3 := none,
    master := none }

def slvSlavePvt : Pvt :=
  { channel := 2, law := 0, sig := SIG_FXOKS, confno := -1,
    inconference := false, polarity := 0, owner := some 11, dialing := false,
    ringt := 0, sub0 := subW 4 0 (some 11) false,
    sub1 := subW (-1) 0 none false, sub2 := subW (-1) 0 none false,
    slave0 := none, slave1 := none, slave2 := none, slave3 := none,
    master := some 0 }

def slvW : World :=
  { numLines := 2,
    lines := fun i => match i with
      | 0 => slvMasterPvt
      | _ => slvSlavePvt,
    nextConf := 3 }

theorem update_conf_slave_mode_witness :
    (0 < slvW.numLines ∧ WF slvW ∧ (0 : Nat) < 4 ∧
      (slvW.lines 0).slaves 0 = some 1 ∧
      ¬ ((slvW.lines 1).subs 0).dfd < 0) ∧
    ((((update_conf slvW 0).1.lines 1).subs 0).curconf).confmode =
      (if ¬ hasActiveThreeway (slvW.lines 0) ∧
          occupiedSlaves (slvW.lines 0) = [1] ∧
          (slvW.lines 1).law = (slvW.lines 0).law
        then DAHDI_CONF_DIGITALMON else CONFMODE_REAL) :=
  ⟨⟨by decide, by decide, by decide, by decide, by decide⟩,
   update_conf_slave_mode slvW 0 0 1 (by decide) (by decide) (by decide)
     (by decide) (by decide)⟩

end ChanDahdi
